import Mathlib

/-!
# hadie: Reed-Solomon encoder (rs8encode.c) and C328 camera link driver (c328.c)

A shallow embedding of the two C files. Bytes are natural numbers below 256,
buffers are lists of bytes, and the machine state that the C code keeps in
file-scope variables is threaded explicitly.
-/

namespace Hadie

/-! ## rs8encode.c -/

def MM : Nat := 8
def NN : Nat := 255
def NROOTS : Nat := 32
def FCR : Nat := 112
def PRIM : Nat := 11
def IPRIM : Nat := 116

/-- Special reserved value encoding zero in index form (`#define A0 (NN)`). -/
def A0 : Nat := NN

/-- The loop of `mod255`: while `x >= 255`, subtract 255 and fold the high byte onto the
low byte. The first argument bounds the number of iterations. -/
def mod255Loop : Nat → Nat → Nat
  | 0, x => x
  | fuel + 1, x =>
    if x ≥ 255 then mod255Loop fuel (((x - 255) >>> 8) + ((x - 255) &&& 255)) else x

/-- The function `mod255(x)` for `x ≥ 0`; every iteration lowers `x` by at least 255,
so `x` iterations are never used up. -/
def mod255 (x : Nat) : Nat := mod255Loop x x

/-- Table `alpha_to` of rs8encode.c: exponent to field element; entry 255 holds 0. -/
def alpha_to : List Nat := [
  0x01,0x02,0x04,0x08,0x10,0x20,0x40,0x80,0x87,0x89,0x95,0xAD,0xDD,0x3D,0x7A,0xF4,
  0x6F,0xDE,0x3B,0x76,0xEC,0x5F,0xBE,0xFB,0x71,0xE2,0x43,0x86,0x8B,0x91,0xA5,0xCD,
  0x1D,0x3A,0x74,0xE8,0x57,0xAE,0xDB,0x31,0x62,0xC4,0x0F,0x1E,0x3C,0x78,0xF0,0x67,
  0xCE,0x1B,0x36,0x6C,0xD8,0x37,0x6E,0xDC,0x3F,0x7E,0xFC,0x7F,0xFE,0x7B,0xF6,0x6B,
  0xD6,0x2B,0x56,0xAC,0xDF,0x39,0x72,0xE4,0x4F,0x9E,0xBB,0xF1,0x65,0xCA,0x13,0x26,
  0x4C,0x98,0xB7,0xE9,0x55,0xAA,0xD3,0x21,0x42,0x84,0x8F,0x99,0xB5,0xED,0x5D,0xBA,
  0xF3,0x61,0xC2,0x03,0x06,0x0C,0x18,0x30,0x60,0xC0,0x07,0x0E,0x1C,0x38,0x70,0xE0,
  0x47,0x8E,0x9B,0xB1,0xE5,0x4D,0x9A,0xB3,0xE1,0x45,0x8A,0x93,0xA1,0xC5,0x0D,0x1A,
  0x34,0x68,0xD0,0x27,0x4E,0x9C,0xBF,0xF9,0x75,0xEA,0x53,0xA6,0xCB,0x11,0x22,0x44,
  0x88,0x97,0xA9,0xD5,0x2D,0x5A,0xB4,0xEF,0x59,0xB2,0xE3,0x41,0x82,0x83,0x81,0x85,
  0x8D,0x9D,0xBD,0xFD,0x7D,0xFA,0x73,0xE6,0x4B,0x96,0xAB,0xD1,0x25,0x4A,0x94,0xAF,
  0xD9,0x35,0x6A,0xD4,0x2F,0x5E,0xBC,0xFF,0x79,0xF2,0x63,0xC6,0x0B,0x16,0x2C,0x58,
  0xB0,0xE7,0x49,0x92,0xA3,0xC1,0x05,0x0A,0x14,0x28,0x50,0xA0,0xC7,0x09,0x12,0x24,
  0x48,0x90,0xA7,0xC9,0x15,0x2A,0x54,0xA8,0xD7,0x29,0x52,0xA4,0xCF,0x19,0x32,0x64,
  0xC8,0x17,0x2E,0x5C,0xB8,0xF7,0x69,0xD2,0x23,0x46,0x8C,0x9F,0xB9,0xF5,0x6D,0xDA,
  0x33,0x66,0xCC,0x1F,0x3E,0x7C,0xF8,0x77,0xEE,0x5B,0xB6,0xEB,0x51,0xA2,0xC3,0x00]

/-- Table `index_of` of rs8encode.c: field element to exponent; entry 0 holds the reserved value `A0`. -/
def index_of : List Nat := [
  0xFF,0x00,0x01,0x63,0x02,0xC6,0x64,0x6A,0x03,0xCD,0xC7,0xBC,0x65,0x7E,0x6B,0x2A,
  0x04,0x8D,0xCE,0x4E,0xC8,0xD4,0xBD,0xE1,0x66,0xDD,0x7F,0x31,0x6C,0x20,0x2B,0xF3,
  0x05,0x57,0x8E,0xE8,0xCF,0xAC,0x4F,0x83,0xC9,0xD9,0xD5,0x41,0xBE,0x94,0xE2,0xB4,
  0x67,0x27,0xDE,0xF0,0x80,0xB1,0x32,0x35,0x6D,0x45,0x21,0x12,0x2C,0x0D,0xF4,0x38,
  0x06,0x9B,0x58,0x1A,0x8F,0x79,0xE9,0x70,0xD0,0xC2,0xAD,0xA8,0x50,0x75,0x84,0x48,
  0xCA,0xFC,0xDA,0x8A,0xD6,0x54,0x42,0x24,0xBF,0x98,0x95,0xF9,0xE3,0x5E,0xB5,0x15,
  0x68,0x61,0x28,0xBA,0xDF,0x4C,0xF1,0x2F,0x81,0xE6,0xB2,0x3F,0x33,0xEE,0x36,0x10,
  0x6E,0x18,0x46,0xA6,0x22,0x88,0x13,0xF7,0x2D,0xB8,0x0E,0x3D,0xF5,0xA4,0x39,0x3B,
  0x07,0x9E,0x9C,0x9D,0x59,0x9F,0x1B,0x08,0x90,0x09,0x7A,0x1C,0xEA,0xA0,0x71,0x5A,
  0xD1,0x1D,0xC3,0x7B,0xAE,0x0A,0xA9,0x91,0x51,0x5B,0x76,0x72,0x85,0xA1,0x49,0xEB,
  0xCB,0x7C,0xFD,0xC4,0xDB,0x1E,0x8B,0xD2,0xD7,0x92,0x55,0xAA,0x43,0x0B,0x25,0xAF,
  0xC0,0x73,0x99,0x77,0x96,0x5C,0xFA,0x52,0xE4,0xEC,0x5F,0x4A,0xB6,0xA2,0x16,0x86,
  0x69,0xC5,0x62,0xFE,0x29,0x7D,0xBB,0xCC,0xE0,0xD3,0x4D,0x8C,0xF2,0x1F,0x30,0xDC,
  0x82,0xAB,0xE7,0x56,0xB3,0x93,0x40,0xD8,0x34,0xB0,0xEF,0x26,0x37,0x0C,0x11,0x44,
  0x6F,0x78,0x19,0x9A,0x47,0x74,0xA7,0xC1,0x23,0x53,0x89,0xFB,0x14,0x5D,0xF8,0x97,
  0x2E,0x4B,0xB9,0x60,0x0F,0xED,0x3E,0xE5,0xF6,0x87,0xA5,0x17,0x3A,0xA3,0x3C,0xB7]

/-- Table `poly` of rs8encode.c: the generator polynomial's coefficients in index form, lowest degree first. -/
def poly : List Nat := [
  0x00,0xF9,0x3B,0x42,0x04,0x2B,0x7E,0xFB,0x61,0x1E,0x03,0xD5,0x32,0x42,0xAA,0x05,
  0x18,0x05,0xAA,0x42,0x32,0xD5,0x03,0x1E,0x61,0xFB,0x7E,0x2B,0x04,0x42,0x3B,0xF9,
  0x00]

/-- The inner loop of `encode_rs_8`:
`for(j = 1; j < NROOTS; j++) parity[j] ^= alpha_to[mod255(feedback + poly[NROOTS - j])];` -/
def feedback_xor (feedback : Nat) (parity : List Nat) : List Nat :=
  (List.range' 1 (NROOTS - 1)).foldl
    (fun p j => p.set j (p.getD j 0 ^^^ alpha_to.getD (mod255 (feedback + poly.getD (NROOTS - j) 0)) 0))
    parity

/-- The feedback term of one iteration, in index form: `index_of[data[i] ^ parity[0]]`. -/
def feedback (parity : List Nat) (d : Nat) : Nat := index_of.getD (d ^^^ parity.getD 0 0) 0

/-- One iteration of the outer loop of `encode_rs_8` on the data byte `d`. -/
def encode_step (parity : List Nat) (d : Nat) : List Nat :=
  let fb := feedback parity d
  let parity1 := if fb ≠ A0 then feedback_xor fb parity else parity
  -- memmove(&parity[0], &parity[1], NROOTS - 1): bytes 1..31 move to 0..30, byte 31 stays
  let parity2 := (parity1.drop 1).take (NROOTS - 1) ++ parity1.drop (NROOTS - 1)
  if fb ≠ A0 then
    parity2.set (NROOTS - 1) (alpha_to.getD (mod255 (fb + poly.getD 0 0)) 0)
  else
    parity2.set (NROOTS - 1) 0

/-- The parity buffer after the first `n` iterations of the outer loop of `encode_rs_8`,
started on the buffer `parity`. -/
def encode_loop (data : List Nat) (n : Nat) (parity : List Nat) : List Nat :=
  (List.range n).foldl (fun p i => encode_step p (data.getD i 0)) parity

/-- The function `encode_rs_8(data, parity, pad)`. The result is the contents of the
`NROOTS` bytes at `parity` on return; the argument `parity` is what the buffer held on
entry, which the initial `memset` overwrites. -/
def encode_rs_8 (data : List Nat) (parity : List Nat) (pad : Nat) : List Nat :=
  -- memset(parity, 0, NROOTS)
  let parity0 := (List.replicate NROOTS 0 ++ parity.drop NROOTS).take NROOTS
  encode_loop data (NN - NROOTS - pad) parity0

/-! ### GF(2^8) with field polynomial x^8 + x^7 + x^2 + x + 1 -/

/-- Multiplication by `x` modulo the field polynomial `0x187`. -/
def xtime (a : Nat) : Nat := if 128 ≤ a then (a <<< 1) ^^^ 0x187 else a <<< 1

/-- The partial product of `a` with the low `k` bits of `b`: shift-and-add multiplication. -/
def gfMulBits (a b : Nat) : Nat → Nat
  | 0 => 0
  | k + 1 => gfMulBits a b k ^^^ (if b.testBit k then xtime^[k] a else 0)

/-- Multiplication in GF(2^8) = GF(2)[x] / (x^8 + x^7 + x^2 + x + 1), on bytes. -/
def gfMul (a b : Nat) : Nat := gfMulBits a b 8

/-- Powers in GF(2^8). -/
def gfPow (a : Nat) : Nat → Nat
  | 0 => 1
  | n + 1 => gfMul (gfPow a n) a

/-- Multiplication as the encoder performs it: through the index form of both factors. -/
def tabMul (a b : Nat) : Nat :=
  if a = 0 ∨ b = 0 then 0 else alpha_to.getD ((index_of.getD a 0 + index_of.getD b 0) % 255) 0

/-- The polynomial `c(x) = Σ c[k] x^(n-1-k)` of a word `c` of `n` bytes over GF(2^8), at `x`. -/
def gfEval : List Nat → Nat → Nat
  | [], _ => 0
  | c :: cs, x => gfMul c (gfPow x cs.length) ^^^ gfEval cs x

/-- The number of positions at which two words of the same length differ. -/
def hammingDist (a b : List Nat) : Nat :=
  ((List.range a.length).filter (fun k => a.getD k 0 ≠ b.getD k 0)).length

/-- The product `g(x) * (x + r)` over GF(2^8); coefficients are listed lowest degree first. -/
def mulLinear (g : List Nat) (r : Nat) : List Nat :=
  List.zipWith (· ^^^ ·) (0 :: g) (g.map (fun c => gfMul c r) ++ [0])

/-- The product over `i = 0..NROOTS-1` of `(x + alpha_to[(PRIM * (FCR + i)) mod 255])`,
coefficients lowest degree first. -/
def genPoly : List Nat :=
  (List.range NROOTS).foldl
    (fun g i => mulLinear g (alpha_to.getD ((PRIM * (FCR + i)) % 255) 0)) [1]

/-! ### Auxiliary notions -/

/-- The coefficient of `x^k` in the generator polynomial, as a field element. -/
def genCoef (k : Nat) : Nat := alpha_to.getD (poly.getD k 0) 0

/-- The generator polynomial without its leading coefficient, highest degree first. -/
def genTail : List Nat := (List.range 32).map (fun j => genCoef (31 - j))

/-- Every entry of the buffer is a byte. -/
def Bytes (l : List Nat) : Prop := ∀ j, l.getD j 0 < 256

/-! ## c328.c

The serial line and the timer interrupt are modelled as one list of events, `wire`: what
the UART and the tick interrupt will present to the driver, in order. A receive loop
consumes events while it polls; a received byte waits on the wire until a receive loop
reads it, and a wire that has run out stands for silence, in which only the timer keeps
ticking. Bytes handed to `tx_byte` are appended to `sent`. -/

/-- The packet identifiers `CMD_*` of c328.h. The header is not among the sources, so the
identifiers are parameters of the model. -/
structure Ids where
  CMD_INIT : Nat
  CMD_GET_PICTURE : Nat
  CMD_SNAPSHOT : Nat
  CMD_SET_PKG_SIZE : Nat
  CMD_DATA : Nat
  CMD_SYNC : Nat
  CMD_ACK : Nat

/-- Every identifier is a nonzero byte. `c3_rx` reports a failed receive as 0, which is
told apart from a packet type only when no identifier is 0. -/
def Ids.valid (c : Ids) : Prop :=
  (0 < c.CMD_INIT ∧ c.CMD_INIT < 256) ∧ (0 < c.CMD_GET_PICTURE ∧ c.CMD_GET_PICTURE < 256) ∧
  (0 < c.CMD_SNAPSHOT ∧ c.CMD_SNAPSHOT < 256) ∧
  (0 < c.CMD_SET_PKG_SIZE ∧ c.CMD_SET_PKG_SIZE < 256) ∧
  (0 < c.CMD_DATA ∧ c.CMD_DATA < 256) ∧ (0 < c.CMD_SYNC ∧ c.CMD_SYNC < 256) ∧
  (0 < c.CMD_ACK ∧ c.CMD_ACK < 256)

instance (c : Ids) : Decidable c.valid := by
  unfold Ids.valid
  infer_instance

/-- A sample assignment of the identifiers (the command set of the C328 data sheet), used
where the model is evaluated on a concrete input. -/
def sampleIds : Ids :=
  { CMD_INIT := 0x01, CMD_GET_PICTURE := 0x04, CMD_SNAPSHOT := 0x05, CMD_SET_PKG_SIZE := 0x06,
    CMD_DATA := 0x0A, CMD_SYNC := 0x0D, CMD_ACK := 0x0E }

/-- More than 10 ms at 300 Hz. -/
def CMD_TIMEOUT : Nat := 4

/-- Wait longer for the camera to take the image and return the DATA response. -/
def PIC_TIMEOUT : Nat := 200

def RXBUF_LEN : Nat := 64

/-- What the hardware presents next: a timer interrupt, or a received byte in `UDR0`. -/
inductive Event where
  | tick : Event
  | rx (b : Nat) : Event
deriving DecidableEq, Repr

/-- The file-scope state of c328.c (`rxbuf`, `rxbuf_len`, `pkg_len`, `timeout_clk`), with
the events still to come and the bytes transmitted so far. `rxbuf i` is meaningful for
`i < RXBUF_LEN`. -/
structure Driver where
  rxbuf : Nat → Nat
  rxbuf_len : Nat
  pkg_len : Nat
  timeout_clk : Nat
  wire : List Event
  sent : List Nat

/-- The state at start-up: `rxbuf_len = 0`, `pkg_len = 64`, `timeout_clk = 0`. -/
def c3_start (wire : List Event) : Driver :=
  { rxbuf := fun _ => 0, rxbuf_len := 0, pkg_len := 64, timeout_clk := 0, wire := wire,
    sent := [] }

/-- The interrupt routine `c3_tick`: `if(timeout_clk) timeout_clk--;` -/
def c3_tick (s : Driver) : Driver :=
  if s.timeout_clk ≠ 0 then { s with timeout_clk := s.timeout_clk - 1 } else s

/-- The function `tx_byte(b)`; the transmit register is taken to become free. -/
def tx_byte (b : Nat) (s : Driver) : Driver := { s with sent := s.sent ++ [b % 256] }

/-- The loop of `c3_rx`, run on the events to come:
`while(timeout_clk) { if(!RXREADY) continue; rxbuf[rxbuf_len++] = UDR0; if(rxbuf_len == 6) break; }` -/
def c3_rx_loop : List Event → Driver → Driver
  | [], s => { s with timeout_clk := 0, wire := [] }
  | e :: es, s =>
    if s.timeout_clk = 0 then { s with wire := e :: es }
    else
      match e with
      | Event.tick => c3_rx_loop es (c3_tick s)
      | Event.rx b =>
        let s1 := { s with rxbuf := Function.update s.rxbuf s.rxbuf_len (b % 256),
                           rxbuf_len := (s.rxbuf_len + 1) % 256 }
        if s1.rxbuf_len = 6 then { s1 with wire := es } else c3_rx_loop es s1

/-- The function `c3_rx(timeout)`: the received packet type, or 0. -/
def c3_rx (timeout : Nat) (s : Driver) : Nat × Driver :=
  let s1 := { s with rxbuf_len := 0, timeout_clk := timeout % 256 }
  let s2 := c3_rx_loop s1.wire s1
  if s2.rxbuf_len ≠ 6 then (0, s2)        -- timeout or incomplete response
  else if s2.rxbuf 0 ≠ 0xAA then (0, s2)  -- all responses should begin 0xAA
  else (s2.rxbuf 1, s2)

/-- The function `c3_tx(cmd, a1, a2, a3, a4)`. -/
def c3_tx (cmd a1 a2 a3 a4 : Nat) (s : Driver) : Driver :=
  tx_byte a4 (tx_byte a3 (tx_byte a2 (tx_byte a1 (tx_byte cmd (tx_byte 0xAA s)))))

/-- The function `c3_cmd(cmd, a1, a2, a3, a4)`; `cmd` is a `uint8_t`. -/
def c3_cmd (c : Ids) (cmd a1 a2 a3 a4 : Nat) (s : Driver) : Int × Driver :=
  let s1 := c3_tx cmd a1 a2 a3 a4 s
  let (r, s2) := c3_rx CMD_TIMEOUT s1
  -- did we get an ACK for this command?
  if r ≠ c.CMD_ACK ∨ s2.rxbuf 2 ≠ cmd % 256 then (-1, s2) else (0, s2)

/-- The loop of `c3_sync` with `n` iterations left. -/
def c3_sync_loop (c : Ids) : Nat → Driver → Int × Driver
  | 0, s => (-1, s)
  | n + 1, s =>
    let (r, s1) := c3_cmd c c.CMD_SYNC 0 0 0 0 s
    if r ≠ 0 then c3_sync_loop c n s1
    else
      let (r2, s2) := c3_rx CMD_TIMEOUT s1
      if r2 ≠ c.CMD_SYNC then c3_sync_loop c n s2
      else (0, c3_tx c.CMD_ACK c.CMD_SYNC 0 0 0 s2)

/-- The function `c3_sync()`: `for(i = 0; i < 60; i++) ...`. -/
def c3_sync (c : Ids) (s : Driver) : Int × Driver := c3_sync_loop c 60 s

/-- The function `c3_setup(ct, rr, jr)`. -/
def c3_setup (c : Ids) (ct rr jr : Nat) (s : Driver) : Int × Driver :=
  c3_cmd c c.CMD_INIT 0 ct rr jr s

/-- The function `c3_set_package_size(s)`; the argument is a `uint16_t`. -/
def c3_set_package_size (c : Ids) (size : Nat) (s : Driver) : Int × Driver :=
  let size := size % 65536
  if size > RXBUF_LEN then (-1, s)
  else
    let (r, s1) := c3_cmd c c.CMD_SET_PKG_SIZE 0x08 (size &&& 0xFF) (size >>> 8) 0 s
    if r = 0 then (r, { s1 with pkg_len := size % 256 }) else (r, s1)

/-- The function `c3_snapshot(st, skip_frame)`; `skip_frame` is a `uint16_t`. -/
def c3_snapshot (c : Ids) (st skip_frame : Nat) (s : Driver) : Int × Driver :=
  let skip_frame := skip_frame % 65536
  c3_cmd c c.CMD_SNAPSHOT st (skip_frame &&& 0xFF) (skip_frame >>> 8) 0 s

/-- The function `c3_get_picture(pt, &length)`: the return code, the value written to
`*length` if any, and the state. -/
def c3_get_picture (c : Ids) (pt : Nat) (s : Driver) : Int × Option Nat × Driver :=
  let (r, s1) := c3_cmd c c.CMD_GET_PICTURE pt 0 0 0 s
  if r ≠ 0 then (-1, none, s1)
  else
    -- the camera should now send a DATA message
    let (r2, s2) := c3_rx PIC_TIMEOUT s1
    if r2 ≠ c.CMD_DATA then (-1, none, s2)
    else (0, some ((s2.rxbuf 3 + (s2.rxbuf 4 <<< 8)) % 65536), s2)

/-- How the receive loop of `c3_get_package` ends. -/
inductive PkgLoop where
  /-- The `return(-1)` inside the loop: the declared size exceeds `pkg_len`. -/
  | rejected (s : Driver) : PkgLoop
  /-- The loop condition failed, with this `checksum` and size `s`. -/
  | left (checksum size : Nat) (s : Driver) : PkgLoop
  /-- A byte was stored outside `rxbuf`. -/
  | overrun : PkgLoop

/-- The loop of `c3_get_package`, run on the events to come, with the locals `checksum`
and `s` (here `size`):
`while(timeout_clk && rxbuf_len < s) { if(!RXREADY) continue; checksum += rxbuf[rxbuf_len++] = UDR0;`
`if(rxbuf_len == 4) { s = rxbuf[2] + (rxbuf[3] << 8) + 6; if(s > pkg_len) return(-1); } }` -/
def c3_get_package_loop : List Event → Nat → Nat → Driver → PkgLoop
  | [], checksum, size, s =>
    if s.timeout_clk = 0 ∨ ¬ s.rxbuf_len < size then PkgLoop.left checksum size { s with wire := [] }
    else PkgLoop.left checksum size { s with timeout_clk := 0, wire := [] }
  | e :: es, checksum, size, s =>
    if s.timeout_clk = 0 ∨ ¬ s.rxbuf_len < size then PkgLoop.left checksum size { s with wire := e :: es }
    else
      match e with
      | Event.tick => c3_get_package_loop es checksum size (c3_tick s)
      | Event.rx b =>
        if RXBUF_LEN ≤ s.rxbuf_len then PkgLoop.overrun
        else
          let s1 := { s with rxbuf := Function.update s.rxbuf s.rxbuf_len (b % 256),
                             rxbuf_len := (s.rxbuf_len + 1) % 256 }
          let checksum1 := (checksum + b % 256) % 256
          if s1.rxbuf_len = 4 then
            -- get the actual length of the package (a uint16_t)
            let size1 := (s1.rxbuf 2 + (s1.rxbuf 3 <<< 8) + 6) % 65536
            if size1 > s1.pkg_len then PkgLoop.rejected { s1 with wire := es }
            else c3_get_package_loop es checksum1 size1 s1
          else c3_get_package_loop es checksum1 size s1

/-- The function `c3_get_package(id, &dst, &length)`: the return code, what was written to
`*dst` (as an offset into `rxbuf`) and `*length` if anything, and the state. The result is
`none` when the function accesses `rxbuf` outside its `RXBUF_LEN` bytes. -/
def c3_get_package (c : Ids) (id : Nat) (s : Driver) : Option (Int × Option (Nat × Nat) × Driver) :=
  let id := id % 65536
  let s0 := { s with rxbuf_len := 0 }
  -- get the package by sending an ACK
  let s1 := c3_tx c.CMD_ACK 0 0 (id &&& 0xFF) (id >>> 8) s0
  -- the camera should immediately start returning data
  let s2 := { s1 with timeout_clk := CMD_TIMEOUT }
  match c3_get_package_loop s2.wire 0 s2.pkg_len s2 with
  | PkgLoop.overrun => none
  | PkgLoop.rejected s3 => some (-1, none, s3)
  | PkgLoop.left checksum size s3 =>
    -- test for timeout or incomplete package
    if s3.rxbuf_len < size then some (-1, none, s3)
    else if s3.rxbuf_len < 2 ∨ RXBUF_LEN ≤ s3.rxbuf_len - 2 then none
    else
      -- test checksum
      let checksum1 := (checksum + 256 - s3.rxbuf (s3.rxbuf_len - 2)) % 256
      if checksum1 ≠ s3.rxbuf (s3.rxbuf_len - 2) then some (-1, none, s3)
      else some (0, some (0, s3.rxbuf_len), s3)

/-- The function `c3_finish_picture()`. -/
def c3_finish_picture (c : Ids) (s : Driver) : Int × Driver :=
  (0, c3_tx c.CMD_ACK 0 0 0xF0 0xF0 s)

/-! ### The peer, as the protocol describes it -/

/-- The bytes that arrive before a timeout of `t` ticks expires. -/
def arrivals : Nat → List Event → List Nat
  | 0, _ => []
  | _ + 1, [] => []
  | t + 1, Event.tick :: es => arrivals t es
  | t + 1, Event.rx b :: es => (b % 256) :: arrivals (t + 1) es

/-- A receive window of `t` ticks for a packet of `n` bytes: the bytes of the packet that
arrive in time, and the events that remain once the packet is complete or the window has
closed. -/
def window : Nat → Nat → List Event → List Nat × List Event
  | 0, _, w => ([], w)
  | _ + 1, 0, w => ([], w)
  | _ + 1, _ + 1, [] => ([], [])
  | t + 1, n + 1, Event.tick :: es => window t (n + 1) es
  | t + 1, n + 1, Event.rx b :: es => ((b % 256) :: (window (t + 1) n es).1, (window (t + 1) n es).2)

/-- A complete response packet of type `ty`: six bytes, the first the sync marker `0xAA`. -/
def isResponse (ty : Nat) (p : List Nat) : Prop :=
  p.length = 6 ∧ p.getD 0 0 = 0xAA ∧ p.getD 1 0 = ty

instance (ty : Nat) (p : List Nat) : Decidable (isResponse ty p) := by
  unfold isResponse
  infer_instance

/-- An ACK for the command `cmd`: a response of type `CMD_ACK` whose third byte echoes `cmd`. -/
def isAckFor (c : Ids) (cmd : Nat) (p : List Nat) : Prop :=
  isResponse c.CMD_ACK p ∧ p.getD 2 0 = cmd

instance (c : Ids) (cmd : Nat) (p : List Nat) : Decidable (isAckFor c cmd p) := by
  unfold isAckFor
  infer_instance

/-- One attempt of the SYNC handshake as the protocol states it: the SYNC command is
answered within the command timeout by an ACK echoing SYNC, and that ACK is followed within
the command timeout by a SYNC-type response. Yields whether the exchange completed and the
events that remain. -/
def syncAttempt (c : Ids) (w : List Event) : Bool × List Event :=
  if isAckFor c c.CMD_SYNC (window CMD_TIMEOUT 6 w).1 then
    (decide (isResponse c.CMD_SYNC (window CMD_TIMEOUT 6 (window CMD_TIMEOUT 6 w).2).1),
      (window CMD_TIMEOUT 6 (window CMD_TIMEOUT 6 w).2).2)
  else (false, (window CMD_TIMEOUT 6 w).2)

/-- The number of the first of `n` consecutive attempts that completes the exchange. -/
def firstSync (c : Ids) : Nat → List Event → Option Nat
  | 0, _ => none
  | n + 1, w =>
    if (syncAttempt c w).1 then some 1
    else (firstSync c n (syncAttempt c w).2).map (· + 1)

/-- The command frame `[0xAA, cmd, a1, a2, a3, a4]`. -/
def frame (cmd a1 a2 a3 a4 : Nat) : List Nat := [0xAA, cmd, a1, a2, a3, a4]

/-- The SYNC command frame, `k` times in a row. -/
def syncFrames (c : Ids) (k : Nat) : List Nat :=
  (List.replicate k (frame c.CMD_SYNC 0 0 0 0)).flatten

/-- The packet that `c3_rx(t)` receives on the wire `w`. -/
def rxPacket (t : Nat) (w : List Event) : List Nat := (window (t % 256) 6 w).1

/-- The events that remain after `c3_rx(t)` on the wire `w`. -/
def rxRest (t : Nat) (w : List Event) : List Event := (window (t % 256) 6 w).2

/-! ### The package loop on the bytes that arrive -/

/-- The state without the events to come and the timeout counter. -/
def Driver.core (s : Driver) : Driver := { s with timeout_clk := 0, wire := [] }

/-- The way the loop ended, without the events to come and the timeout counter. -/
def PkgLoop.core : PkgLoop → PkgLoop
  | PkgLoop.rejected s => PkgLoop.rejected s.core
  | PkgLoop.left checksum size s => PkgLoop.left checksum size s.core
  | PkgLoop.overrun => PkgLoop.overrun

/-- The loop of `c3_get_package` run on the bytes that arrive before its timeout expires,
in place of the events: what it does to `checksum`, `s`, `rxbuf` and `rxbuf_len`. -/
def pkgBytes : List Nat → Nat → Nat → Driver → PkgLoop
  | [], checksum, size, s => PkgLoop.left checksum size s
  | b :: bs, checksum, size, s =>
    if ¬ s.rxbuf_len < size then PkgLoop.left checksum size s
    else if RXBUF_LEN ≤ s.rxbuf_len then PkgLoop.overrun
    else
      if (s.rxbuf_len + 1) % 256 = 4 then
        if (Function.update s.rxbuf s.rxbuf_len b 2
            + (Function.update s.rxbuf s.rxbuf_len b 3 <<< 8) + 6) % 65536 > s.pkg_len then
          PkgLoop.rejected { s with rxbuf := Function.update s.rxbuf s.rxbuf_len b,
                                    rxbuf_len := (s.rxbuf_len + 1) % 256 }
        else
          pkgBytes bs ((checksum + b) % 256)
            ((Function.update s.rxbuf s.rxbuf_len b 2
              + (Function.update s.rxbuf s.rxbuf_len b 3 <<< 8) + 6) % 65536)
            { s with rxbuf := Function.update s.rxbuf s.rxbuf_len b,
                     rxbuf_len := (s.rxbuf_len + 1) % 256 }
      else
        pkgBytes bs ((checksum + b) % 256) size
          { s with rxbuf := Function.update s.rxbuf s.rxbuf_len b,
                   rxbuf_len := (s.rxbuf_len + 1) % 256 }

/-- What `c3_get_package` does once its loop has ended. -/
def pkgFinish : PkgLoop → Option (Int × Option (Nat × Nat) × Driver)
  | PkgLoop.overrun => none
  | PkgLoop.rejected s3 => some (-1, none, s3)
  | PkgLoop.left checksum size s3 =>
    if s3.rxbuf_len < size then some (-1, none, s3)
    else if s3.rxbuf_len < 2 ∨ RXBUF_LEN ≤ s3.rxbuf_len - 2 then none
    else
      if (checksum + 256 - s3.rxbuf (s3.rxbuf_len - 2)) % 256 ≠ s3.rxbuf (s3.rxbuf_len - 2) then
        some (-1, none, s3)
      else some (0, some (0, s3.rxbuf_len), s3)

/-- The state in which `c3_get_package(id)` enters its loop. -/
def pkgEntry (c : Ids) (id : Nat) (s : Driver) : Driver :=
  { c3_tx c.CMD_ACK 0 0 ((id % 65536) &&& 0xFF) ((id % 65536) >>> 8) { s with rxbuf_len := 0 }
    with timeout_clk := CMD_TIMEOUT }

/-- The bytes stored one after the other from `rxbuf[rxbuf_len]` on. -/
def store : Driver → List Nat → Driver
  | s, [] => s
  | s, b :: bs =>
    store { s with rxbuf := Function.update s.rxbuf s.rxbuf_len b, rxbuf_len := s.rxbuf_len + 1 } bs

/-- A result of `c3_get_package` without the events to come and the timeout counter. -/
def coreR (r : Int × Option (Nat × Nat) × Driver) : Int × Option (Nat × Nat) × Driver :=
  (r.1, r.2.1, r.2.2.core)

/-- The state in which the loop ended, if it ended in one. -/
def PkgLoop.state : PkgLoop → Option Driver
  | PkgLoop.rejected s => some s
  | PkgLoop.left _ _ s => some s
  | PkgLoop.overrun => none

/-- The bytes `bs` arriving one after the other, with no tick in between. -/
def rxAll (bs : List Nat) : List Event := bs.map Event.rx

/-- The Data Package frame as the wire format states it: the package id and the payload
length, each little-endian in two bytes, the payload, and the additive checksum of header
and payload mod 256 in both trailer bytes. -/
def dataPackage (id : Nat) (payload : List Nat) : List Nat :=
  [id % 256, id / 256 % 256, payload.length % 256, payload.length / 256 % 256] ++ payload ++
    [(id % 256 + id / 256 % 256 + payload.length % 256 + payload.length / 256 % 256
        + payload.sum) % 256,
     (id % 256 + id / 256 % 256 + payload.length % 256 + payload.length / 256 % 256
        + payload.sum) % 256]

/-! ### Sequences of driver calls -/

/-- The peer answers the next call with the events `w`: they are what the driver meets
from now on. -/
def answer (w : List Event) (s : Driver) : Driver := { s with wire := w }

/-- The states the driver can be in: the start-up state, and every state that a driver
operation, a timer interrupt or a change of the events to come leads to from such a state.
A call of `c3_get_package` leads to the state in which its receive loop ends. -/
inductive Reachable (c : Ids) : Driver → Prop
  | start (w : List Event) : Reachable c (c3_start w)
  | peer (w : List Event) (s : Driver) : Reachable c s → Reachable c (answer w s)
  | tick (s : Driver) : Reachable c s → Reachable c (c3_tick s)
  | sync (s : Driver) : Reachable c s → Reachable c (c3_sync c s).2
  | setup (ct rr jr : Nat) (s : Driver) : Reachable c s → Reachable c (c3_setup c ct rr jr s).2
  | set_package_size (size : Nat) (s : Driver) :
      Reachable c s → Reachable c (c3_set_package_size c size s).2
  | snapshot (st skip_frame : Nat) (s : Driver) :
      Reachable c s → Reachable c (c3_snapshot c st skip_frame s).2
  | get_picture (pt : Nat) (s : Driver) : Reachable c s → Reachable c (c3_get_picture c pt s).2.2
  | get_package (id : Nat) (s s2 : Driver) : Reachable c s →
      (c3_get_package_loop s.wire 0 s.pkg_len (pkgEntry c id s)).state = some s2 → Reachable c s2
  | finish_picture (s : Driver) : Reachable c s → Reachable c (c3_finish_picture c s).2

/-- The ACK response to the command `cmd`. -/
def ackFor (c : Ids) (cmd : Nat) : List Nat := [0xAA, c.CMD_ACK, cmd, 0, 0, 0]

/-- No byte for `n` timer ticks. -/
def silence (n : Nat) : List Event := List.replicate n Event.tick

/-- Calls of `c3_get_package` with the ids `id`, `id + 1`, ..., each answered with the next
of the frames: the return codes, and the last state. -/
def getPackages (c : Ids) : List (List Nat) → Nat → Driver → Option (List Int × Driver)
  | [], _, s => some ([], s)
  | f :: fs, id, s =>
    match c3_get_package c id (answer (rxAll f) s) with
    | none => none
    | some r => (getPackages c fs (id + 1) r.2.2).map (fun x => (r.1 :: x.1, x.2))

/-- The scenario, `c3_sync`: the peer is silent for two command timeouts, then sends the ACK
for SYNC and its own SYNC. -/
def scenarioSync : Int × Driver :=
  c3_sync sampleIds (c3_start (silence (2 * CMD_TIMEOUT) ++
    rxAll (ackFor sampleIds sampleIds.CMD_SYNC) ++ rxAll [0xAA, sampleIds.CMD_SYNC, 0, 0, 0, 0]))

/-- The scenario, `c3_setup(1, 2, 3)`, ACKed. -/
def scenarioSetup : Int × Driver :=
  c3_setup sampleIds 1 2 3 (answer (rxAll (ackFor sampleIds sampleIds.CMD_INIT)) scenarioSync.2)

/-- The scenario, `c3_set_package_size(64)`, ACKed. -/
def scenarioSize : Int × Driver :=
  c3_set_package_size sampleIds 64
    (answer (rxAll (ackFor sampleIds sampleIds.CMD_SET_PKG_SIZE)) scenarioSetup.2)

/-- The scenario, `c3_snapshot(0, 0)`, ACKed. -/
def scenarioSnapshot : Int × Driver :=
  c3_snapshot sampleIds 0 0 (answer (rxAll (ackFor sampleIds sampleIds.CMD_SNAPSHOT)) scenarioSize.2)

/-- The scenario, `c3_get_picture(0)`: ACKed, then the DATA response with the length 512
(0x0200) in its bytes 3 and 4. -/
def scenarioPicture : Int × Option Nat × Driver :=
  c3_get_picture sampleIds 0
    (answer (rxAll (ackFor sampleIds sampleIds.CMD_GET_PICTURE ++
      [0xAA, sampleIds.CMD_DATA, 0x01, 0x00, 0x02, 0x00])) scenarioSnapshot.2)

/-- The Data Package frame with the checksum in the first trailer byte and 0 in the
second. -/
def dataPackageZ (id : Nat) (payload : List Nat) : List Nat :=
  [id % 256, id / 256 % 256, payload.length % 256, payload.length / 256 % 256] ++ payload ++
    [(id % 256 + id / 256 % 256 + payload.length % 256 + payload.length / 256 % 256
        + payload.sum) % 256, 0]

/-- The payload of package `k` in the scenario: `n` bytes. -/
def scenarioPayload (n k : Nat) : List Nat := (List.range n).map (fun i => (i + k) % 256)

/-! ## Field arithmetic on bytes -/

theorem shl1_xor (a b : Nat) : (a ^^^ b) <<< 1 = (a <<< 1) ^^^ (b <<< 1) := by
  apply Nat.eq_of_testBit_eq
  intro i
  simp only [Nat.testBit_shiftLeft, Nat.testBit_xor]
  cases decide (i ≥ 1) <;> simp

theorem testBit7_eq (a : Nat) (h : a < 256) : a.testBit 7 = decide (128 ≤ a) := by
  rw [Nat.testBit_to_div_mod]
  congr 1
  apply propext
  constructor <;> intro h1 <;> omega

theorem xor_byte {a b : Nat} (ha : a < 256) (hb : b < 256) : a ^^^ b < 256 :=
  Nat.xor_lt_two_pow (n := 8) ha hb

theorem hibit_xor {a b : Nat} (ha : a < 256) (hb : b < 256) :
    128 ≤ a ^^^ b ↔ ¬ (128 ≤ a ↔ 128 ≤ b) := by
  have h := testBit7_eq (a ^^^ b) (xor_byte ha hb)
  rw [Nat.testBit_xor, testBit7_eq a ha, testBit7_eq b hb] at h
  by_cases h1 : 128 ≤ a <;> by_cases h2 : 128 ≤ b <;> simp [h1, h2] at h <;> simp [h1, h2] <;> omega

theorem xtime_xor {a b : Nat} (ha : a < 256) (hb : b < 256) :
    xtime (a ^^^ b) = xtime a ^^^ xtime b := by
  have h := hibit_xor ha hb
  unfold xtime
  rw [shl1_xor]
  by_cases h1 : 128 ≤ a <;> by_cases h2 : 128 ≤ b <;> simp only [h1, h2, not_true, not_false_eq_true, iff_true, iff_false, true_iff, false_iff, iff_self] at h <;>
    simp only [h1, h2, h, if_true, if_false]
  · calc a <<< 1 ^^^ b <<< 1 = (a <<< 1 ^^^ b <<< 1) ^^^ (391 ^^^ 391) := by simp
      _ = a <<< 1 ^^^ 391 ^^^ (b <<< 1 ^^^ 391) := by ac_rfl
  · ac_rfl
  · ac_rfl

theorem xtime_zero : xtime 0 = 0 := by decide

theorem xtime_lt {a : Nat} (h : a < 256) : xtime a < 256 := by
  have key : ∀ x ∈ List.range 256, xtime x < 256 := by decide!
  exact key a (List.mem_range.2 h)

theorem iter_xtime_lt (k : Nat) {a : Nat} (h : a < 256) : xtime^[k] a < 256 := by
  induction k with
  | zero => simpa using h
  | succ k ih => rw [Function.iterate_succ_apply']; exact xtime_lt ih

theorem iter_xtime_zero (k : Nat) : xtime^[k] 0 = 0 := by
  induction k with
  | zero => rfl
  | succ k ih => rw [Function.iterate_succ_apply', ih, xtime_zero]

theorem iter_xtime_xor (k : Nat) {a b : Nat} (ha : a < 256) (hb : b < 256) :
    xtime^[k] (a ^^^ b) = xtime^[k] a ^^^ xtime^[k] b := by
  induction k with
  | zero => rfl
  | succ k ih =>
    rw [Function.iterate_succ_apply', Function.iterate_succ_apply', Function.iterate_succ_apply',
      ih, xtime_xor (iter_xtime_lt k ha) (iter_xtime_lt k hb)]

theorem gfMulBits_lt (k : Nat) {a : Nat} (b : Nat) (ha : a < 256) : gfMulBits a b k < 256 := by
  induction k with
  | zero => simp [gfMulBits]
  | succ k ih =>
    rw [gfMulBits]
    apply xor_byte ih
    split
    · exact iter_xtime_lt k ha
    · decide

theorem gfMul_lt {a : Nat} (b : Nat) (ha : a < 256) : gfMul a b < 256 := gfMulBits_lt 8 b ha

theorem gfMulBits_xtime (k : Nat) {a : Nat} (b : Nat) (ha : a < 256) :
    gfMulBits (xtime a) b k = xtime (gfMulBits a b k) := by
  induction k with
  | zero => simp [gfMulBits, xtime_zero]
  | succ k ih =>
    rw [gfMulBits, gfMulBits, ih]
    have h2 : (if b.testBit k then xtime^[k] a else 0) < 256 := by
      split
      · exact iter_xtime_lt k ha
      · decide
    rw [xtime_xor (gfMulBits_lt k b ha) h2]
    congr 1
    split
    · rw [← Function.iterate_succ_apply, Function.iterate_succ_apply']
    · exact xtime_zero.symm

theorem gfMulBits_xor_right (k a b c : Nat) :
    gfMulBits a (b ^^^ c) k = gfMulBits a b k ^^^ gfMulBits a c k := by
  induction k with
  | zero => simp [gfMulBits]
  | succ k ih =>
    rw [gfMulBits, gfMulBits, gfMulBits, ih, Nat.testBit_xor]
    cases b.testBit k <;> cases c.testBit k <;> simp
    · ac_rfl
    · ac_rfl
    · calc gfMulBits a b k ^^^ gfMulBits a c k
          = (gfMulBits a b k ^^^ gfMulBits a c k) ^^^ (xtime^[k] a ^^^ xtime^[k] a) := by simp
        _ = gfMulBits a b k ^^^ xtime^[k] a ^^^ (gfMulBits a c k ^^^ xtime^[k] a) := by ac_rfl

/-- Multiplication distributes over xor in its right argument. -/
theorem gfMul_xor_right (a b c : Nat) : gfMul a (b ^^^ c) = gfMul a b ^^^ gfMul a c :=
  gfMulBits_xor_right 8 a b c

theorem gfMulBits_zero_left (k b : Nat) : gfMulBits 0 b k = 0 := by
  induction k with
  | zero => rfl
  | succ k ih => rw [gfMulBits, ih, iter_xtime_zero]; simp

theorem gfMul_zero_left (b : Nat) : gfMul 0 b = 0 := gfMulBits_zero_left 8 b

theorem gfMul_zero_right (a : Nat) : gfMul a 0 = 0 := by
  simp [gfMul, gfMulBits]

theorem gfMul_one_left {b : Nat} (h : b < 256) : gfMul 1 b = b := by
  have key : ∀ x ∈ List.range 256, gfMul 1 x = x := by decide!
  exact key b (List.mem_range.2 h)

set_option maxRecDepth 100000 in
theorem alpha_to_facts : ∀ i ∈ List.range 255,
    xtime (alpha_to.getD i 0) = alpha_to.getD ((i + 1) % 255) 0 ∧ alpha_to.getD i 0 ≠ 0 ∧
      alpha_to.getD i 0 < 256 ∧ index_of.getD (alpha_to.getD i 0) 0 = i := by
  decide!

set_option maxRecDepth 100000 in
theorem index_of_facts : ∀ x ∈ List.range 256, x ≠ 0 →
    alpha_to.getD (index_of.getD x 0) 0 = x ∧ index_of.getD x 0 < 255 := by
  decide!

theorem alpha_to_zero : alpha_to.getD 0 0 = 1 := rfl

theorem alpha_to_lt {i : Nat} (hi : i < 255) : alpha_to.getD i 0 < 256 :=
  (alpha_to_facts i (List.mem_range.2 hi)).2.2.1

theorem alpha_to_ne_zero {i : Nat} (hi : i < 255) : alpha_to.getD i 0 ≠ 0 :=
  (alpha_to_facts i (List.mem_range.2 hi)).2.1

theorem index_of_alpha_to {i : Nat} (hi : i < 255) : index_of.getD (alpha_to.getD i 0) 0 = i :=
  (alpha_to_facts i (List.mem_range.2 hi)).2.2.2

theorem alpha_to_index_of {x : Nat} (hx : x < 256) (h0 : x ≠ 0) :
    alpha_to.getD (index_of.getD x 0) 0 = x :=
  (index_of_facts x (List.mem_range.2 hx) h0).1

theorem index_of_lt {x : Nat} (hx : x < 256) (h0 : x ≠ 0) : index_of.getD x 0 < 255 :=
  (index_of_facts x (List.mem_range.2 hx) h0).2

theorem iter_xtime_alpha (i : Nat) {j : Nat} (hj : j < 255) :
    xtime^[i] (alpha_to.getD j 0) = alpha_to.getD ((i + j) % 255) 0 := by
  induction i with
  | zero => rw [Nat.zero_add, Nat.mod_eq_of_lt hj]; rfl
  | succ i ih =>
    rw [Function.iterate_succ_apply', ih,
      (alpha_to_facts ((i + j) % 255) (List.mem_range.2 (Nat.mod_lt _ (by decide)))).1]
    congr 1
    omega

theorem gfMul_alpha_left {i : Nat} (hi : i < 255) {b : Nat} (hb : b < 256) :
    gfMul (alpha_to.getD i 0) b = xtime^[i] b := by
  induction i with
  | zero => rw [alpha_to_zero]; exact gfMul_one_left hb
  | succ i ih =>
    have hi1 : i < 255 := by omega
    have hstep := (alpha_to_facts i (List.mem_range.2 hi1)).1
    rw [Nat.mod_eq_of_lt hi] at hstep
    rw [← hstep, gfMul, gfMulBits_xtime 8 b (alpha_to_lt hi1), Function.iterate_succ_apply']
    congr 1
    exact ih hi1

theorem gfMul_alpha {i j : Nat} (hi : i < 255) (hj : j < 255) :
    gfMul (alpha_to.getD i 0) (alpha_to.getD j 0) = alpha_to.getD ((i + j) % 255) 0 := by
  rw [gfMul_alpha_left hi (alpha_to_lt hj), iter_xtime_alpha i hj]

/-- On bytes the shift-and-add product is the product the tables compute. -/
theorem gfMul_eq_tabMul {a b : Nat} (ha : a < 256) (hb : b < 256) : gfMul a b = tabMul a b := by
  unfold tabMul
  by_cases h1 : a = 0
  · simp [h1, gfMul_zero_left]
  by_cases h2 : b = 0
  · simp [h2, gfMul_zero_right]
  rw [if_neg (by simp [h1, h2])]
  conv_lhs => rw [← alpha_to_index_of ha h1, ← alpha_to_index_of hb h2]
  exact gfMul_alpha (index_of_lt ha h1) (index_of_lt hb h2)

theorem gfMul_comm {a b : Nat} (ha : a < 256) (hb : b < 256) : gfMul a b = gfMul b a := by
  rw [gfMul_eq_tabMul ha hb, gfMul_eq_tabMul hb ha]
  unfold tabMul
  rw [Nat.add_comm]
  by_cases h : a = 0 ∨ b = 0
  · rw [if_pos h, if_pos h.symm]
  · rw [if_neg h, if_neg (fun h2 => h h2.symm)]

theorem gfMul_ne_zero {a b : Nat} (ha : a < 256) (hb : b < 256) (h1 : a ≠ 0) (h2 : b ≠ 0) :
    gfMul a b ≠ 0 := by
  rw [gfMul_eq_tabMul ha hb]
  unfold tabMul
  rw [if_neg (by simp [h1, h2])]
  exact alpha_to_ne_zero (Nat.mod_lt _ (by decide))

theorem gfMul_assoc {a b c : Nat} (ha : a < 256) (hb : b < 256) (hc : c < 256) :
    gfMul (gfMul a b) c = gfMul a (gfMul b c) := by
  by_cases h1 : a = 0
  · simp [h1, gfMul_zero_left]
  by_cases h2 : b = 0
  · simp [h2, gfMul_zero_left, gfMul_zero_right]
  by_cases h3 : c = 0
  · simp [h3, gfMul_zero_right]
  have ea := alpha_to_index_of ha h1
  have eb := alpha_to_index_of hb h2
  have ec := alpha_to_index_of hc h3
  have la := index_of_lt ha h1
  have lb := index_of_lt hb h2
  have lc := index_of_lt hc h3
  rw [← ea, ← eb, ← ec, gfMul_alpha la lb, gfMul_alpha lb lc,
    gfMul_alpha (Nat.mod_lt _ (by decide)) lc, gfMul_alpha la (Nat.mod_lt _ (by decide))]
  congr 1
  omega

theorem gfMul_one_right {a : Nat} (ha : a < 256) : gfMul a 1 = a := by
  rw [gfMul_comm ha (by decide), gfMul_one_left ha]

theorem gfMul_xor_left {a b c : Nat} (ha : a < 256) (hb : b < 256) (hc : c < 256) :
    gfMul (a ^^^ b) c = gfMul a c ^^^ gfMul b c := by
  rw [gfMul_comm (xor_byte ha hb) hc, gfMul_xor_right, gfMul_comm hc ha, gfMul_comm hc hb]

theorem gfPow_lt (a n : Nat) : gfPow a n < 256 := by
  induction n with
  | zero => simp [gfPow]
  | succ n ih => exact gfMul_lt _ ih

/-! ## The field as a type -/

/-- An element of GF(2^8): a byte, added by xor and multiplied by `gfMul`. -/
structure GF256 where
  val : Nat
  isLt : val < 256
deriving DecidableEq

namespace GF256

theorem ext_val {a b : GF256} (h : a.val = b.val) : a = b := by
  cases a; cases b; simp_all

instance : Zero GF256 := ⟨⟨0, by decide⟩⟩
instance : One GF256 := ⟨⟨1, by decide⟩⟩
instance : Add GF256 := ⟨fun a b => ⟨a.val ^^^ b.val, xor_byte a.isLt b.isLt⟩⟩
instance : Neg GF256 := ⟨fun a => a⟩
instance : Mul GF256 := ⟨fun a b => ⟨gfMul a.val b.val, gfMul_lt _ a.isLt⟩⟩

theorem zero_val : (0 : GF256).val = 0 := rfl
theorem one_val : (1 : GF256).val = 1 := rfl
theorem add_val (a b : GF256) : (a + b).val = a.val ^^^ b.val := rfl
theorem neg_eq (a : GF256) : -a = a := rfl
theorem mul_val (a b : GF256) : (a * b).val = gfMul a.val b.val := rfl

instance : CommRing GF256 where
  add_assoc a b c := ext_val (by simp only [add_val, Nat.xor_assoc])
  zero_add a := ext_val (by simp only [add_val, zero_val, Nat.zero_xor])
  add_zero a := ext_val (by simp only [add_val, zero_val, Nat.xor_zero])
  add_comm a b := ext_val (by simp only [add_val, Nat.xor_comm])
  neg_add_cancel a := ext_val (by simp only [neg_eq, add_val, zero_val, Nat.xor_self])
  nsmul := nsmulRec
  zsmul := zsmulRec
  left_distrib a b c := ext_val (by simp only [add_val, mul_val, gfMul_xor_right])
  right_distrib a b c := ext_val (by
    simp only [add_val, mul_val, gfMul_xor_left a.isLt b.isLt c.isLt])
  zero_mul a := ext_val (by simp only [mul_val, zero_val, gfMul_zero_left])
  mul_zero a := ext_val (by simp only [mul_val, zero_val, gfMul_zero_right])
  mul_assoc a b c := ext_val (by simp only [mul_val, gfMul_assoc a.isLt b.isLt c.isLt])
  one_mul a := ext_val (by simp only [mul_val, one_val, gfMul_one_left a.isLt])
  mul_one a := ext_val (by simp only [mul_val, one_val, gfMul_one_right a.isLt])
  mul_comm a b := ext_val (by simp only [mul_val, gfMul_comm a.isLt b.isLt])

instance : Nontrivial GF256 := ⟨⟨0, 1, by decide⟩⟩

instance : NoZeroDivisors GF256 where
  eq_zero_or_eq_zero_of_mul_eq_zero := by
    intro a b h
    by_contra hne
    push_neg at hne
    have h1 : a.val ≠ 0 := fun e => hne.1 (ext_val e)
    have h2 : b.val ≠ 0 := fun e => hne.2 (ext_val e)
    exact gfMul_ne_zero a.isLt b.isLt h1 h2 (congrArg GF256.val h)

instance : IsDomain GF256 := NoZeroDivisors.to_isDomain GF256

theorem add_self (a : GF256) : a + a = 0 := ext_val (by simp only [add_val, zero_val, Nat.xor_self])

theorem sub_eq_add (a b : GF256) : a - b = a + b := by
  rw [sub_eq_add_neg, neg_eq]

/-- The byte `b` as a field element. -/
def ofNat (b : Nat) : GF256 := ⟨b % 256, Nat.mod_lt _ (by decide)⟩

theorem ofNat_val {b : Nat} (h : b < 256) : (ofNat b).val = b := Nat.mod_eq_of_lt h

theorem ofNat_xor {a b : Nat} (ha : a < 256) (hb : b < 256) :
    ofNat (a ^^^ b) = ofNat a + ofNat b :=
  ext_val (by rw [add_val, ofNat_val ha, ofNat_val hb, ofNat_val (xor_byte ha hb)])

theorem ofNat_gfMul {a b : Nat} (ha : a < 256) (hb : b < 256) :
    ofNat (gfMul a b) = ofNat a * ofNat b :=
  ext_val (by rw [mul_val, ofNat_val ha, ofNat_val hb, ofNat_val (gfMul_lt _ ha)])

theorem ofNat_gfPow {a : Nat} (ha : a < 256) (n : Nat) : ofNat (gfPow a n) = ofNat a ^ n := by
  induction n with
  | zero => rfl
  | succ n ih => rw [gfPow, ofNat_gfMul (gfPow_lt a n) ha, ih, pow_succ]

theorem ofNat_eq_zero {a : Nat} (ha : a < 256) : ofNat a = 0 ↔ a = 0 := by
  constructor
  · intro h
    have := congrArg GF256.val h
    rwa [ofNat_val ha] at this
  · intro h
    subst h
    rfl

theorem ofNat_inj {a b : Nat} (ha : a < 256) (hb : b < 256) (h : ofNat a = ofNat b) : a = b := by
  have := congrArg GF256.val h
  rwa [ofNat_val ha, ofNat_val hb] at this

end GF256

/-! ## The encoder step -/

theorem mod255Loop_eq (fuel : Nat) : ∀ x, x ≤ fuel → mod255Loop fuel x = x % 255 := by
  induction fuel with
  | zero =>
    intro x hx
    have : x = 0 := by omega
    subst this
    rfl
  | succ fuel ih =>
    intro x hx
    rw [mod255Loop]
    split
    · rename_i h
      have e1 : (x - 255) >>> 8 = (x - 255) / 256 := Nat.shiftRight_eq_div_pow _ 8
      have e2 : (x - 255) &&& 255 = (x - 255) % 256 := Nat.and_pow_two_sub_one_eq_mod _ 8
      rw [e1, e2, ih _ (by omega)]
      omega
    · omega

theorem mod255_eq (x : Nat) : mod255 x = x % 255 := mod255Loop_eq x x (Nat.le_refl x)

theorem getD_set_eq (p : List Nat) (j k v : Nat) :
    (p.set j v).getD k 0 = if k = j ∧ j < p.length then v else p.getD k 0 := by
  simp only [List.getD_eq_getElem?_getD, List.getElem?_set]
  by_cases h : j = k
  · subst h
    by_cases h2 : j < p.length
    · simp [h2]
    · have h4 : p[j]? = none := List.getElem?_eq_none (Nat.not_lt.1 h2)
      simp [h2, h4]
  · have h3 : ¬ k = j := fun e => h e.symm
    simp [h, h3]

theorem foldl_set_length (g : List Nat → Nat → Nat) (js : List Nat) (p : List Nat) :
    (js.foldl (fun q j => q.set j (g q j)) p).length = p.length := by
  induction js generalizing p with
  | nil => rfl
  | cons j js ih => rw [List.foldl_cons, ih, List.length_set]

theorem foldl_set_getD (f : Nat → Nat → Nat) (js : List Nat) (p : List Nat) (hnd : js.Nodup)
    (k : Nat) :
    (js.foldl (fun q j => q.set j (f j (q.getD j 0))) p).getD k 0 =
      if k ∈ js ∧ k < p.length then f k (p.getD k 0) else p.getD k 0 := by
  induction js generalizing p with
  | nil => simp
  | cons j js ih =>
    rw [List.foldl_cons, ih _ (List.nodup_cons.1 hnd).2, List.length_set]
    have hj : j ∉ js := (List.nodup_cons.1 hnd).1
    rw [getD_set_eq]
    by_cases h1 : k ∈ js
    · have h2 : k ≠ j := fun e => hj (e ▸ h1)
      simp [h1, h2]
    · by_cases h2 : k = j
      · subst h2
        simp [h1]
      · simp [h1, h2]

theorem poly_lt : ∀ k ∈ List.range 33, poly.getD k 0 < 255 := by decide

theorem genCoef_lt {k : Nat} (hk : k ≤ 32) : genCoef k < 256 :=
  alpha_to_lt (poly_lt k (List.mem_range.2 (by omega)))

theorem fb_term {x : Nat} (hx : x < 256) {k : Nat} (hk : k ≤ 32) :
    (if index_of.getD x 0 ≠ A0 then alpha_to.getD (mod255 (index_of.getD x 0 + poly.getD k 0)) 0
      else 0) = gfMul x (genCoef k) := by
  have hp := poly_lt k (List.mem_range.2 (by omega))
  by_cases h0 : x = 0
  · subst h0
    rw [gfMul_zero_left]
    rfl
  · have hl := index_of_lt hx h0
    have hne : index_of.getD x 0 ≠ A0 := by
      have : A0 = 255 := rfl
      omega
    rw [if_pos hne, mod255_eq, ← gfMul_alpha hl hp, alpha_to_index_of hx h0]
    rfl

theorem getD_shift (q : List Nat) (hq : q.length = 32) {j : Nat} (hj : j < 31) :
    ((q.drop 1).take 31 ++ q.drop 31).getD j 0 = q.getD (j + 1) 0 := by
  have h1 : j < ((q.drop 1).take 31).length := by
    rw [List.length_take, List.length_drop, hq]
    omega
  rw [List.getD_append _ _ _ _ h1]
  simp only [List.getD_eq_getElem?_getD, List.getElem?_take, List.getElem?_drop, hj, if_true]
  rw [Nat.add_comm]

theorem shift_length (q : List Nat) (hq : q.length = 32) :
    ((q.drop 1).take 31 ++ q.drop 31).length = 32 := by
  rw [List.length_append, List.length_take, List.length_drop, List.length_drop, hq]
  rfl

theorem feedback_xor_length (f : Nat) (p : List Nat) : (feedback_xor f p).length = p.length :=
  foldl_set_length _ _ _

theorem feedback_xor_getD (f : Nat) (p : List Nat) (hp : p.length = 32) {k : Nat}
    (h1 : 1 ≤ k) (h2 : k < 32) :
    (feedback_xor f p).getD k 0 =
      p.getD k 0 ^^^ alpha_to.getD (mod255 (f + poly.getD (32 - k) 0)) 0 := by
  unfold feedback_xor
  rw [foldl_set_getD (fun j v => v ^^^ alpha_to.getD (mod255 (f + poly.getD (NROOTS - j) 0)) 0)
    _ _ (List.nodup_range' 1 (NROOTS - 1))]
  have hmem : k ∈ List.range' 1 (NROOTS - 1) := by
    rw [List.mem_range'_1]
    exact ⟨h1, h2⟩
  rw [if_pos ⟨hmem, by omega⟩]
  rfl

theorem encode_step_length (p : List Nat) (d : Nat) (hp : p.length = 32) :
    (encode_step p d).length = 32 := by
  unfold encode_step
  simp only []
  have e : NROOTS - 1 = 31 := rfl
  rw [e]
  split <;> rw [List.length_set] <;> apply shift_length
  · rw [feedback_xor_length, hp]
  · exact hp

theorem encode_step_getD (p : List Nat) (d : Nat) (hp : p.length = 32) (hd : d < 256)
    (hp0 : p.getD 0 0 < 256) {j : Nat} (hj : j < 32) :
    (encode_step p d).getD j 0 =
      p.getD (j + 1) 0 ^^^ gfMul (d ^^^ p.getD 0 0) (genCoef (31 - j)) := by
  have hx : d ^^^ p.getD 0 0 < 256 := xor_byte hd hp0
  have e : NROOTS - 1 = 31 := rfl
  have hz : p.getD (31 + 1) 0 = 0 := List.getD_eq_default p 0 (by rw [hp])
  unfold encode_step feedback
  simp only []
  rw [e]
  by_cases hf : index_of.getD (d ^^^ p.getD 0 0) 0 ≠ A0
  · rw [if_pos hf, if_pos hf, getD_set_eq, shift_length _ (by rw [feedback_xor_length, hp])]
    by_cases h31 : j = 31
    · subst h31
      rw [if_pos ⟨rfl, by decide⟩, hz, Nat.zero_xor, ← fb_term hx (Nat.zero_le 32), if_pos hf]
    · rw [if_neg (fun h => h31 h.1), getD_shift _ (by rw [feedback_xor_length, hp]) (by omega),
        feedback_xor_getD _ _ hp (by omega) (by omega), ← fb_term hx (by omega), if_pos hf]
      have e2 : 32 - (j + 1) = 31 - j := by omega
      rw [e2]
  · rw [if_neg hf, if_neg hf, getD_set_eq, shift_length _ hp, ← fb_term hx (by omega), if_neg hf,
      Nat.xor_zero]
    by_cases h31 : j = 31
    · subst h31
      rw [if_pos ⟨rfl, by decide⟩, hz]
    · rw [if_neg (fun h => h31 h.1), getD_shift _ hp (by omega)]

theorem bytes_of_mem {l : List Nat} (h : ∀ b ∈ l, b < 256) : Bytes l := by
  intro j
  by_cases hj : j < l.length
  · rw [List.getD_eq_getElem _ _ hj]
    exact h _ (List.getElem_mem _)
  · rw [List.getD_eq_default _ _ (Nat.le_of_not_lt hj)]
    decide

theorem bytes_mem {l : List Nat} (h : Bytes l) : ∀ b ∈ l, b < 256 := by
  intro b hb
  obtain ⟨n, hn, rfl⟩ := List.getElem_of_mem hb
  have := h n
  rwa [List.getD_eq_getElem _ _ hn] at this

theorem encode_step_bytes (p : List Nat) (d : Nat) (hp : p.length = 32) (hd : d < 256)
    (hb : Bytes p) : Bytes (encode_step p d) := by
  intro j
  by_cases hj : j < 32
  · rw [encode_step_getD p d hp hd (hb 0) hj]
    exact xor_byte (hb _) (gfMul_lt _ (xor_byte hd (hb 0)))
  · rw [List.getD_eq_default _ _ (by rw [encode_step_length p d hp]; omega)]
    decide

namespace GF256

/-- The value at `x` of the polynomial whose coefficients are `l`, highest degree first. -/
def evalL : List GF256 → GF256 → GF256
  | [], _ => 0
  | c :: cs, x => c * x ^ cs.length + evalL cs x

theorem evalL_append (u v : List GF256) (x : GF256) :
    evalL (u ++ v) x = evalL u x * x ^ v.length + evalL v x := by
  induction u with
  | nil => simp [evalL]
  | cons c cs ih =>
    rw [List.cons_append, evalL, evalL, ih, List.length_append, pow_add]
    ring

theorem evalL_zipWith_add (u v : List GF256) (h : u.length = v.length) (x : GF256) :
    evalL (List.zipWith (· + ·) u v) x = evalL u x + evalL v x := by
  induction u generalizing v with
  | nil =>
    cases v with
    | nil => simp [evalL]
    | cons b bs => simp at h
  | cons a as ih =>
    cases v with
    | nil => simp at h
    | cons b bs =>
      have h2 : as.length = bs.length := by simpa using h
      rw [List.zipWith_cons_cons, evalL, evalL, evalL, ih bs h2, List.length_zipWith, h2,
        Nat.min_self]
      ring

theorem evalL_map_mul (c : GF256) (v : List GF256) (x : GF256) :
    evalL (v.map (c * ·)) x = c * evalL v x := by
  induction v with
  | nil => simp [evalL]
  | cons b bs ih =>
    rw [List.map_cons, evalL, evalL, ih, List.length_map]
    ring

theorem evalL_replicate_zero (n : Nat) (x : GF256) : evalL (List.replicate n 0) x = 0 := by
  induction n with
  | zero => rfl
  | succ n ih => rw [List.replicate_succ, evalL, ih]; simp

end GF256


theorem gfEval_lt (l : List Nat) (hl : Bytes l) (x : Nat) : gfEval l x < 256 := by
  induction l with
  | nil => simp [gfEval]
  | cons c cs ih =>
    rw [gfEval]
    have hc : c < 256 := hl 0
    exact xor_byte (gfMul_lt _ hc) (ih (fun j => hl (j + 1)))

theorem ofNat_gfEval (l : List Nat) (hl : Bytes l) {x : Nat} (hx : x < 256) :
    GF256.ofNat (gfEval l x) = GF256.evalL (l.map GF256.ofNat) (GF256.ofNat x) := by
  induction l with
  | nil => rfl
  | cons c cs ih =>
    have hc : c < 256 := hl 0
    have hcs : Bytes cs := fun j => hl (j + 1)
    rw [gfEval, List.map_cons, GF256.evalL, GF256.ofNat_xor (gfMul_lt _ hc) (gfEval_lt cs hcs x),
      GF256.ofNat_gfMul hc (gfPow_lt _ _), GF256.ofNat_gfPow hx, ih hcs, List.length_map]

theorem encode_step_map (p : List Nat) (d : Nat) (hp : p.length = 32) (hd : d < 256)
    (hb : Bytes p) :
    (encode_step p d).map GF256.ofNat =
      List.zipWith (· + ·) ((p.map GF256.ofNat).tail ++ [0])
        ((genTail.map GF256.ofNat).map ((GF256.ofNat d + GF256.ofNat (p.getD 0 0)) * ·)) := by
  have hlen := encode_step_length p d hp
  apply List.ext_getElem
  · simp [hlen, hp, genTail]
  · intro n h1 h2
    have hn : n < 32 := by simpa [hlen] using h1
    have hg := encode_step_getD p d hp hd (hb 0) hn
    rw [List.getD_eq_getElem _ _ (by omega)] at hg
    rw [List.getElem_map, hg, GF256.ofNat_xor (hb _) (gfMul_lt _ (xor_byte hd (hb 0))),
      GF256.ofNat_gfMul (xor_byte hd (hb 0)) (genCoef_lt (by omega)), GF256.ofNat_xor hd (hb 0)]
    simp only [List.getElem_zipWith, List.getElem_map, genTail, List.getElem_range]
    congr 1
    by_cases h31 : n < 31
    · rw [List.getElem_append_left (by simp [hp]; omega)]
      simp only [List.getElem_tail, List.getElem_map]
      rw [List.getD_eq_getElem _ _ (by omega)]
    · have e : n = 31 := by omega
      subst e
      rw [List.getElem_append_right (by simp [hp])]
      rw [List.getD_eq_default _ _ (by omega)]
      simp
      rfl

theorem gfPow_two (e : Nat) : gfPow 2 e = alpha_to.getD (e % 255) 0 := by
  induction e with
  | zero => rfl
  | succ e ih =>
    have h2 : (2 : Nat) = alpha_to.getD 1 0 := rfl
    rw [gfPow, ih]
    conv_lhs => rw [h2]
    rw [gfMul_alpha (Nat.mod_lt _ (by decide)) (by decide)]
    congr 1
    omega

set_option maxRecDepth 100000 in
theorem genTail_root : ∀ i ∈ List.range 32,
    gfEval (1 :: genTail) (alpha_to.getD ((PRIM * (FCR + i)) % 255) 0) = 0 := by
  decide!

theorem genTail_bytes : Bytes (1 :: genTail) := by
  apply bytes_of_mem
  decide

theorem genTail_length : genTail.length = 32 := rfl

theorem step_eval (p : List Nat) (d : Nat) (hp : p.length = 32) (hd : d < 256) (hb : Bytes p)
    (r : GF256) (hr : GF256.evalL ((1 :: genTail).map GF256.ofNat) r = 0) (S : GF256)
    (hinv : S * r ^ 32 + GF256.evalL (p.map GF256.ofNat) r = 0) :
    (S * r + GF256.ofNat d) * r ^ 32 + GF256.evalL ((encode_step p d).map GF256.ofNat) r = 0 := by
  rw [encode_step_map p d hp hd hb, GF256.evalL_zipWith_add _ _ (by simp [hp, genTail_length]),
    GF256.evalL_map_mul, GF256.evalL_append]
  obtain ⟨p0, t, rfl⟩ : ∃ p0 t, p = p0 :: t := by
    cases p with
    | nil => simp at hp
    | cons a t => exact ⟨a, t, rfl⟩
  have ht : t.length = 31 := by simpa using hp
  rw [List.map_cons, GF256.evalL, List.length_map, ht] at hinv
  rw [List.map_cons, GF256.evalL, List.length_map, genTail_length] at hr
  have h1 : GF256.ofNat 1 = 1 := rfl
  rw [h1, one_mul] at hr
  generalize GF256.evalL (genTail.map GF256.ofNat) r = g at hr ⊢
  simp only [List.map_cons, List.tail_cons, List.getD_cons_zero, List.length_singleton, pow_one,
    GF256.evalL, List.length_nil, pow_zero, mul_one, add_zero]
  generalize GF256.evalL (t.map GF256.ofNat) r = e at hinv ⊢
  linear_combination r * hinv + (GF256.ofNat d + GF256.ofNat p0) * hr
    - r ^ 32 * GF256.add_self (GF256.ofNat p0)

theorem foldl_range_getD (f : List Nat → Nat → List Nat) (data : List Nat) (p : List Nat) :
    (List.range data.length).foldl (fun q i => f q (data.getD i 0)) p = data.foldl f p := by
  have h : (List.range data.length).map (fun i => data.getD i 0) = data := by
    apply List.ext_getElem
    · simp
    · intro n h1 h2
      rw [List.getElem_map, List.getElem_range, List.getD_eq_getElem _ _ h2]
  conv_rhs => rw [← h]
  rw [List.foldl_map]

theorem encode_fold_inv (r : GF256) (hr : GF256.evalL ((1 :: genTail).map GF256.ofNat) r = 0) :
    ∀ (data p : List Nat) (S : GF256), Bytes data → p.length = 32 → Bytes p →
      S * r ^ 32 + GF256.evalL (p.map GF256.ofNat) r = 0 →
      (data.foldl encode_step p).length = 32 ∧ Bytes (data.foldl encode_step p) ∧
        (S * r ^ data.length + GF256.evalL (data.map GF256.ofNat) r) * r ^ 32 +
          GF256.evalL ((data.foldl encode_step p).map GF256.ofNat) r = 0 := by
  intro data
  induction data with
  | nil =>
    intro p S _ hp hb hinv
    refine ⟨hp, hb, ?_⟩
    simpa [GF256.evalL] using hinv
  | cons d ds ih =>
    intro p S hd hp hb hinv
    have hd0 : d < 256 := hd 0
    have hds : Bytes ds := fun j => hd (j + 1)
    have h := ih (encode_step p d) (S * r + GF256.ofNat d) hds (encode_step_length p d hp)
      (encode_step_bytes p d hp hd0 hb) (step_eval p d hp hd0 hb r hr S hinv)
    refine ⟨h.1, h.2.1, ?_⟩
    rw [List.foldl_cons, List.map_cons, GF256.evalL, List.length_map, List.length_cons]
    rw [← h.2.2]
    ring

theorem memset_parity (parity : List Nat) :
    (List.replicate NROOTS 0 ++ parity.drop NROOTS).take NROOTS = List.replicate 32 0 := by
  rw [List.take_left' (by simp)]
  rfl

theorem encode_rs_8_eq (data parity : List Nat) (pad : Nat) (h : data.length = 223 - pad) :
    encode_rs_8 data parity pad = data.foldl encode_step (List.replicate 32 0) := by
  unfold encode_rs_8 encode_loop
  simp only []
  have e : NN - NROOTS - pad = data.length := by rw [h]; rfl
  rw [memset_parity, e, foldl_range_getD]

theorem bytes_replicate_zero (n : Nat) : Bytes (List.replicate n 0) := by
  apply bytes_of_mem
  intro b hb
  rw [List.eq_of_mem_replicate hb]
  decide

theorem bytes_append {u v : List Nat} (hu : Bytes u) (hv : Bytes v) : Bytes (u ++ v) := by
  apply bytes_of_mem
  intro b hb
  rcases List.mem_append.1 hb with h | h
  · exact bytes_mem hu b h
  · exact bytes_mem hv b h

theorem root_eval (i : Nat) (hi : i < 32) :
    GF256.evalL ((1 :: genTail).map GF256.ofNat) (GF256.ofNat (gfPow 2 (PRIM * (FCR + i)))) = 0 := by
  rw [← ofNat_gfEval _ genTail_bytes (gfPow_lt _ _), gfPow_two,
    genTail_root i (List.mem_range.2 hi)]
  rfl

/-- What the encoder leaves in the parity buffer, for a message of bytes: 32 bytes that
complete the message to a word vanishing at `r`, for every root `r` of the generator. -/
theorem encode_rs_8_inv (m parity : List Nat) (pad : Nat) (hlen : m.length = 223 - pad)
    (hm : Bytes m) :
    (encode_rs_8 m parity pad).length = 32 ∧ Bytes (encode_rs_8 m parity pad) ∧
      ∀ i < 32, GF256.evalL ((m ++ encode_rs_8 m parity pad).map GF256.ofNat)
        (GF256.ofNat (gfPow 2 (PRIM * (FCR + i)))) = 0 := by
  rw [encode_rs_8_eq m parity pad hlen]
  have hz : ∀ r : GF256,
      0 * r ^ 32 + GF256.evalL ((List.replicate 32 0).map GF256.ofNat) r = 0 := by
    intro r
    rw [List.map_replicate, show GF256.ofNat 0 = 0 from rfl, GF256.evalL_replicate_zero,
      zero_mul, add_zero]
  have h0 := fun r hr => encode_fold_inv r hr m (List.replicate 32 0) 0 hm
    (List.length_replicate 32 0) (bytes_replicate_zero 32) (hz r)
  refine ⟨(h0 _ (root_eval 0 (by decide))).1, (h0 _ (root_eval 0 (by decide))).2.1, ?_⟩
  intro i hi
  have h := (h0 _ (root_eval i hi)).2.2
  rw [List.map_append, GF256.evalL_append, List.length_map, (h0 _ (root_eval i hi)).1]
  rw [zero_mul, zero_add] at h
  exact h

/-! ## Minimum distance -/

/-- Weights `y` on at most `N` distinct points `X` whose first `N` power sums vanish are zero. -/
theorem vanishing_of_power_sums {R : Type} [CommRing R] [IsDomain R] (S : Finset Nat)
    (X y : Nat → R) (hX : ∀ a ∈ S, ∀ b ∈ S, X a = X b → a = b) (N : Nat) (hcard : S.card ≤ N)
    (hsum : ∀ i < N, ∑ k ∈ S, y k * X k ^ i = 0) : ∀ k ∈ S, y k = 0 := by
  intro k0 hk0
  let q : Polynomial R := ∏ j ∈ S.erase k0, (Polynomial.X - Polynomial.C (X j))
  have hdeg : q.natDegree < N := by
    have h1 : q.natDegree ≤ ∑ j ∈ S.erase k0, (Polynomial.X - Polynomial.C (X j)).natDegree :=
      Polynomial.natDegree_prod_le _ _
    have h2 : ∑ j ∈ S.erase k0, (Polynomial.X - Polynomial.C (X j)).natDegree
        = (S.erase k0).card := by
      simp
    have h3 : (S.erase k0).card < S.card := Finset.card_erase_lt_of_mem hk0
    omega
  have hzero : ∑ k ∈ S, y k * q.eval (X k) = 0 := by
    have h1 : ∀ k ∈ S, y k * q.eval (X k)
        = ∑ i ∈ Finset.range N, q.coeff i * (y k * X k ^ i) := by
      intro k _
      rw [Polynomial.eval_eq_sum_range' hdeg, Finset.mul_sum]
      apply Finset.sum_congr rfl
      intro i _
      ring
    rw [Finset.sum_congr rfl h1, Finset.sum_comm]
    apply Finset.sum_eq_zero
    intro i hi
    rw [← Finset.mul_sum, hsum i (Finset.mem_range.1 hi), mul_zero]
  have hsingle : ∑ k ∈ S, y k * q.eval (X k) = y k0 * q.eval (X k0) := by
    apply Finset.sum_eq_single_of_mem k0 hk0
    intro k hk hne
    have : q.eval (X k) = 0 := by
      rw [Polynomial.eval_prod]
      apply Finset.prod_eq_zero (Finset.mem_erase.2 ⟨hne, hk⟩)
      simp
    rw [this, mul_zero]
  have hne : q.eval (X k0) ≠ 0 := by
    rw [Polynomial.eval_prod, Finset.prod_ne_zero_iff]
    intro j hj
    have hj2 := Finset.mem_erase.1 hj
    simp only [Polynomial.eval_sub, Polynomial.eval_X, Polynomial.eval_C]
    intro h
    exact hj2.1 ((hX k0 hk0 j hj2.2 (sub_eq_zero.1 h)).symm)
  rw [hsingle] at hzero
  rcases mul_eq_zero.1 hzero with h | h
  · exact h
  · exact absurd h hne

namespace GF256

theorem evalL_eq_sum (l : List GF256) (x : GF256) :
    evalL l x = ∑ k ∈ Finset.range l.length, l.getD k 0 * x ^ (l.length - 1 - k) := by
  induction l with
  | nil => simp [evalL]
  | cons c cs ih =>
    rw [evalL, ih, List.length_cons, Finset.sum_range_succ', add_comm]
    congr 1
    apply Finset.sum_congr rfl
    intro k hk
    have hk2 := Finset.mem_range.1 hk
    rw [List.getD_cons_succ]
    congr 2
    omega

theorem two_pow (e : Nat) : (ofNat 2) ^ e = ofNat (alpha_to.getD (e % 255) 0) := by
  rw [← ofNat_gfPow (by decide), gfPow_two]

theorem two_pow_ne_zero (e : Nat) : (ofNat 2) ^ e ≠ 0 := by
  apply pow_ne_zero
  decide

theorem two_pow_inj {a b : Nat} (ha : a < 255) (hb : b < 255)
    (h : (ofNat 2) ^ (11 * a) = (ofNat 2) ^ (11 * b)) : a = b := by
  rw [two_pow, two_pow] at h
  have h1 : (11 * a) % 255 < 255 := Nat.mod_lt _ (by decide)
  have h2 : (11 * b) % 255 < 255 := Nat.mod_lt _ (by decide)
  have h3 := ofNat_inj (alpha_to_lt h1) (alpha_to_lt h2) h
  have h4 := congrArg (fun v => index_of.getD v 0) h3
  simp only [index_of_alpha_to h1, index_of_alpha_to h2] at h4
  omega

/-- A word of at most 255 symbols with at most 32 nonzero symbols that vanishes at the 32
roots of the generator polynomial is zero. -/
theorem bch_bound (D : List GF256) (hn : D.length ≤ 255)
    (hw : ((List.range D.length).filter (fun k => D.getD k 0 ≠ 0)).length ≤ 32)
    (hroots : ∀ i < 32, evalL D ((ofNat 2) ^ (PRIM * (FCR + i))) = 0) :
    ∀ k, D.getD k 0 = 0 := by
  let S : Finset Nat := (Finset.range D.length).filter (fun k => D.getD k 0 ≠ 0)
  let X : Nat → GF256 := fun k => (ofNat 2) ^ (11 * (D.length - 1 - k))
  let y : Nat → GF256 := fun k => D.getD k 0 * X k ^ 112
  have hcard : S.card ≤ 32 := hw
  have hX : ∀ a ∈ S, ∀ b ∈ S, X a = X b → a = b := by
    intro a ha b hb h
    have ha2 := Finset.mem_range.1 (Finset.mem_filter.1 ha).1
    have hb2 := Finset.mem_range.1 (Finset.mem_filter.1 hb).1
    have := two_pow_inj (a := D.length - 1 - a) (b := D.length - 1 - b) (by omega) (by omega) h
    omega
  have hsum : ∀ i < 32, ∑ k ∈ S, y k * X k ^ i = 0 := by
    intro i hi
    have h := hroots i hi
    rw [evalL_eq_sum] at h
    rw [← h]
    rw [Finset.sum_filter_of_ne]
    · apply Finset.sum_congr rfl
      intro k _
      simp only [y, X]
      rw [mul_assoc, ← pow_add, ← pow_mul, ← pow_mul]
      congr 2
      have e1 : PRIM = 11 := rfl
      have e2 : FCR = 112 := rfl
      rw [e1, e2]
      ring
    · intro k _ hne h0
      apply hne
      simp only [y]
      rw [h0, zero_mul, zero_mul]
  have hv := vanishing_of_power_sums S X y hX 32 hcard hsum
  intro k
  by_contra hk
  have hkn : k < D.length := by
    by_contra h2
    exact hk (List.getD_eq_default _ _ (Nat.le_of_not_lt h2))
  have hmem : k ∈ S := Finset.mem_filter.2 ⟨Finset.mem_range.2 hkn, hk⟩
  have h0 := hv k hmem
  simp only [y, X] at h0
  rcases mul_eq_zero.1 h0 with h | h
  · exact hk h
  · exact two_pow_ne_zero _ (pow_eq_zero_iff (by decide) |>.1 h)

end GF256


theorem filter_length_le_add (l : List Nat) (p q s : Nat → Bool)
    (h : ∀ k, p k = true → q k = true ∨ s k = true) :
    (l.filter p).length ≤ (l.filter q).length + (l.filter s).length := by
  induction l with
  | nil => simp
  | cons a l ih =>
    simp only [List.filter_cons]
    by_cases hp : p a = true
    · rcases h a hp with hq | hs
      · by_cases hs : s a = true <;> simp [hp, hq, hs] <;> omega
      · by_cases hq : q a = true <;> simp [hp, hq, hs] <;> omega
    · by_cases hq : q a = true <;> by_cases hs : s a = true <;> simp [hp, hq, hs] <;> omega

theorem hammingDist_triangle (r a b : List Nat) (h : r.length = a.length) :
    hammingDist a b ≤ hammingDist r a + hammingDist r b := by
  unfold hammingDist
  rw [h]
  apply filter_length_le_add
  intro k hk
  simp only [decide_eq_true_eq] at hk ⊢
  by_contra hc
  push_neg at hc
  exact hk (hc.1.symm.trans hc.2)

theorem getD_zipWith_add (u v : List Nat) (h : u.length = v.length) (k : Nat) :
    (List.zipWith (· + ·) (u.map GF256.ofNat) (v.map GF256.ofNat)).getD k 0 =
      GF256.ofNat (u.getD k 0) + GF256.ofNat (v.getD k 0) := by
  by_cases hk : k < u.length
  · rw [List.getD_eq_getElem _ _ (by simp [← h, hk]), List.getD_eq_getElem _ _ hk,
      List.getD_eq_getElem _ _ (h ▸ hk)]
    simp
  · have hk2 : u.length ≤ k := Nat.le_of_not_lt hk
    rw [List.getD_eq_default _ _ (by simp [← h, hk2]), List.getD_eq_default _ _ hk2,
      List.getD_eq_default _ _ (h ▸ hk2)]
    rfl

theorem ofNat_add_eq_zero {a b : Nat} (ha : a < 256) (hb : b < 256) :
    GF256.ofNat a + GF256.ofNat b = 0 ↔ a = b := by
  constructor
  · intro h
    have h2 : GF256.ofNat a = GF256.ofNat b := by
      have := congrArg (· + GF256.ofNat b) h
      simp only [add_assoc, GF256.add_self, add_zero, zero_add] at this
      exact this
    exact GF256.ofNat_inj ha hb h2
  · intro h
    rw [h, GF256.add_self]

/-- Two codewords of the same pad that differ in at most 32 positions carry the same message. -/
theorem min_distance (pad : Nat) (m1 m2 parity1 parity2 : List Nat) (hpad : pad ≤ 223)
    (h1 : m1.length = 223 - pad) (h2 : m2.length = 223 - pad) (hb1 : Bytes m1) (hb2 : Bytes m2)
    (hd : hammingDist (m1 ++ encode_rs_8 m1 parity1 pad) (m2 ++ encode_rs_8 m2 parity2 pad) ≤ 32) :
    m1 = m2 := by
  obtain ⟨l1, b1, r1⟩ := encode_rs_8_inv m1 parity1 pad h1 hb1
  obtain ⟨l2, b2, r2⟩ := encode_rs_8_inv m2 parity2 pad h2 hb2
  generalize hc1 : m1 ++ encode_rs_8 m1 parity1 pad = c1 at *
  generalize hc2 : m2 ++ encode_rs_8 m2 parity2 pad = c2 at *
  have n1 : c1.length = 255 - pad := by rw [← hc1, List.length_append, h1, l1]; omega
  have n2 : c2.length = 255 - pad := by rw [← hc2, List.length_append, h2, l2]; omega
  have hlen : c1.length = c2.length := n1.trans n2.symm
  have B1 : Bytes c1 := hc1 ▸ bytes_append hb1 b1
  have B2 : Bytes c2 := hc2 ▸ bytes_append hb2 b2
  have hD := GF256.bch_bound (List.zipWith (· + ·) (c1.map GF256.ofNat) (c2.map GF256.ofNat))
    (by simp [← hlen, n1]) (by
      have e : (List.zipWith (· + ·) (c1.map GF256.ofNat) (c2.map GF256.ofNat)).length
          = c1.length := by simp [← hlen]
      rw [e]
      unfold hammingDist at hd
      have e2 : (List.range c1.length).filter (fun k =>
          decide ((List.zipWith (· + ·) (c1.map GF256.ofNat) (c2.map GF256.ofNat)).getD k 0 ≠ 0))
          = (List.range c1.length).filter (fun k => decide (c1.getD k 0 ≠ c2.getD k 0)) := by
        apply List.filter_congr
        intro k _
        rw [getD_zipWith_add c1 c2 hlen k]
        simp only [ne_eq, ofNat_add_eq_zero (B1 k) (B2 k)]
      rw [e2]
      exact hd) (by
      intro i hi
      rw [GF256.evalL_zipWith_add _ _ (by simp [hlen]), ← GF256.ofNat_gfPow (by decide),
        r1 i hi, r2 i hi, add_zero])
  have hc : c1 = c2 := by
    apply List.ext_getElem hlen
    intro k hk1 hk2
    have h := hD k
    rw [getD_zipWith_add c1 c2 hlen k, ofNat_add_eq_zero (B1 k) (B2 k),
      List.getD_eq_getElem _ _ hk1, List.getD_eq_getElem _ _ hk2] at h
    exact h
  rw [← hc1, ← hc2] at hc
  exact List.append_inj_left hc (h1.trans h2.symm)

/-! ## Zero data -/

theorem encode_step_zero : encode_step (List.replicate 32 0) 0 = List.replicate 32 0 := by
  decide

theorem foldl_zeros (n : Nat) :
    (List.replicate n 0).foldl encode_step (List.replicate 32 0) = List.replicate 32 0 := by
  induction n with
  | zero => rfl
  | succ n ih => rw [List.replicate_succ (n := n), List.foldl_cons, encode_step_zero, ih]

theorem foldl_length (data p : List Nat) (hp : p.length = 32) :
    (data.foldl encode_step p).length = 32 := by
  induction data generalizing p with
  | nil => exact hp
  | cons d ds ih => exact ih _ (encode_step_length p d hp)

theorem getD_replicate_zero (k i : Nat) : (List.replicate k 0).getD i 0 = 0 := by
  by_cases h : i < k
  · rw [List.getD_eq_getElem _ _ (by simpa using h), List.getElem_replicate]
  · rw [List.getD_eq_default _ _ (by simpa using h)]

theorem encode_loop_zeros (k n : Nat) :
    encode_loop (List.replicate k 0) n (List.replicate 32 0) = List.replicate 32 0 := by
  unfold encode_loop
  induction n with
  | zero => rfl
  | succ n ih =>
    rw [List.range_succ, List.foldl_append, ih, List.foldl_cons, List.foldl_nil,
      getD_replicate_zero, encode_step_zero]

/-- C1: for every pad in 0..222 and every message `m` of 223 - pad bytes, the 255-symbol word
(pad zero bytes) ++ m ++ (the 32 parity bytes that `encode_rs_8` produces), read as the
polynomial c(x) = Σ c[k] x^(254-k) over GF(2^8) with field polynomial 0x187, vanishes at
alpha^(PRIM*(FCR+i)) for every i in 0..31, where alpha = 2 and `alpha_to` is its power table. -/
theorem encode_rs_8_codeword (pad : Nat) (m parity : List Nat) (hpad : pad ≤ 222)
    (hlen : m.length = 223 - pad) (hm : ∀ b ∈ m, b < 256) (i : Nat) (hi : i < 32) :
    (encode_rs_8 m parity pad).length = NROOTS ∧
    (List.replicate pad 0 ++ m ++ encode_rs_8 m parity pad).length = NN ∧
    (∀ e, alpha_to.getD (e % 255) 0 = gfPow 2 e) ∧
    gfEval (List.replicate pad 0 ++ m ++ encode_rs_8 m parity pad)
      (gfPow 2 (PRIM * (FCR + i))) = 0 := by
  obtain ⟨h1, h2, h3⟩ := encode_rs_8_inv m parity pad hlen (bytes_of_mem hm)
  refine ⟨h1, ?_, fun e => (gfPow_two e).symm, ?_⟩
  · rw [List.length_append, List.length_append, List.length_replicate, hlen, h1]
    have : NN = 255 := rfl
    omega
  · have hb : Bytes (List.replicate pad 0 ++ m ++ encode_rs_8 m parity pad) :=
      bytes_append (bytes_append (bytes_replicate_zero pad) (bytes_of_mem hm)) h2
    have hx : gfPow 2 (PRIM * (FCR + i)) < 256 := gfPow_lt _ _
    rw [← GF256.ofNat_eq_zero (gfEval_lt _ hb _), ofNat_gfEval _ hb hx, List.append_assoc,
      List.map_append, GF256.evalL_append, List.map_replicate, h3 i hi]
    rw [show GF256.ofNat 0 = 0 from rfl, GF256.evalL_replicate_zero]
    simp

theorem encode_rs_8_codeword_witness :
    (222 ≤ 222 ∧ [7].length = 223 - 222 ∧ ∀ b ∈ [7], b < 256) ∧
    gfEval (List.replicate 222 0 ++ [7] ++ encode_rs_8 [7] [] 222)
      (gfPow 2 (PRIM * (FCR + 31))) = 0 :=
  ⟨by decide,
    (encode_rs_8_codeword 222 [7] [] (by decide) (by decide) (by decide) 31 (by decide)).2.2.2⟩

/-- C2: for every pad in 0..222 and all messages `m1`, `m2` of 223 - pad bytes: a word `r` of
255 - pad bytes within Hamming distance NROOTS/2 = 16 of the codewords of both determines the
message (`m1 = m2`); and the codewords of two distinct messages differ in at least 33
positions. A codeword is the message followed by the parity bytes `encode_rs_8` produces. -/
theorem encode_rs_8_corrects_16 (pad : Nat) (m1 m2 parity1 parity2 : List Nat) (hpad : pad ≤ 222)
    (h1 : m1.length = 223 - pad) (h2 : m2.length = 223 - pad)
    (hb1 : ∀ b ∈ m1, b < 256) (hb2 : ∀ b ∈ m2, b < 256) :
    (∀ r : List Nat, r.length = 255 - pad →
      hammingDist r (m1 ++ encode_rs_8 m1 parity1 pad) ≤ NROOTS / 2 →
      hammingDist r (m2 ++ encode_rs_8 m2 parity2 pad) ≤ NROOTS / 2 → m1 = m2) ∧
    (m1 ≠ m2 →
      33 ≤ hammingDist (m1 ++ encode_rs_8 m1 parity1 pad) (m2 ++ encode_rs_8 m2 parity2 pad)) := by
  have key := min_distance pad m1 m2 parity1 parity2 (by omega) h1 h2 (bytes_of_mem hb1)
    (bytes_of_mem hb2)
  constructor
  · intro r hr d1 d2
    apply key
    have hl : r.length = (m1 ++ encode_rs_8 m1 parity1 pad).length := by
      rw [List.length_append, h1, (encode_rs_8_inv m1 parity1 pad h1 (bytes_of_mem hb1)).1, hr]
      omega
    have ht := hammingDist_triangle r _ (m2 ++ encode_rs_8 m2 parity2 pad) hl
    have e : NROOTS / 2 = 16 := rfl
    rw [e] at d1 d2
    omega
  · intro hne
    by_contra hlt
    exact hne (key (by omega))

theorem encode_rs_8_corrects_16_witness :
    33 ≤ hammingDist ([1] ++ encode_rs_8 [1] [] 222) ([2] ++ encode_rs_8 [2] [] 222) :=
  (encode_rs_8_corrects_16 222 [1] [2] [] [] (by decide) (by decide) (by decide) (by decide)
    (by decide)).2 (by decide)

/-- C3: pad stands for implicit leading zeros. For every pad in 0..223 and every message `m`
of 223 - pad bytes, `encode_rs_8(m, pad)` leaves the same 32 parity bytes as
`encode_rs_8((pad zero bytes) ++ m, 0)`, whatever the two parity buffers held before. -/
theorem encode_rs_8_pad_zeros (pad : Nat) (m parity parity2 : List Nat) (hpad : pad ≤ 223)
    (hlen : m.length = 223 - pad) :
    (encode_rs_8 m parity pad).length = NROOTS ∧
    encode_rs_8 m parity pad = encode_rs_8 (List.replicate pad 0 ++ m) parity2 0 := by
  have h2 : (List.replicate pad 0 ++ m).length = 223 - 0 := by
    rw [List.length_append, List.length_replicate, hlen]
    omega
  rw [encode_rs_8_eq m parity pad hlen, encode_rs_8_eq _ parity2 0 h2, List.foldl_append,
    foldl_zeros]
  exact ⟨foldl_length m _ (List.length_replicate 32 0), rfl⟩

theorem encode_rs_8_pad_zeros_witness :
    encode_rs_8 [1, 2, 3] [9, 9] 220 = encode_rs_8 (List.replicate 220 0 ++ [1, 2, 3]) [] 0 :=
  (encode_rs_8_pad_zeros 220 [1, 2, 3] [9, 9] [] (by decide) (by decide)).2

/-- C4: encoding an all-zero message yields all-zero parity. For every pad (pad = 0 is the
full-length message of 223 zero bytes; likewise every pad in 0..223 with 223 - pad zero
bytes) and whatever the parity buffer held before the call, `encode_rs_8` leaves 32 zero
bytes, and in every iteration of the loop the feedback term is the zero sentinel `A0`. -/
theorem encode_rs_8_zero_message (pad : Nat) (parity : List Nat) :
    encode_rs_8 (List.replicate (223 - pad) 0) parity pad = List.replicate NROOTS 0 ∧
    ∀ n, n < 223 - pad →
      feedback
        (encode_loop (List.replicate (223 - pad) 0) n
          ((List.replicate NROOTS 0 ++ parity.drop NROOTS).take NROOTS))
        ((List.replicate (223 - pad) 0).getD n 0) = A0 := by
  constructor
  · rw [encode_rs_8_eq _ parity pad (List.length_replicate _ _), foldl_zeros]
    rfl
  · intro n _
    rw [memset_parity, encode_loop_zeros, getD_replicate_zero]
    rfl

theorem encode_rs_8_zero_message_witness :
    encode_rs_8 (List.replicate (223 - 0) 0) [1, 2, 3] 0 = List.replicate NROOTS 0 :=
  (encode_rs_8_zero_message 0 [1, 2, 3]).1

set_option maxRecDepth 100000 in
/-- C5: the table `poly` holds, in index form, the coefficients of the product over
i = 0..31 of (x + alpha_to[(PRIM*(FCR+i)) mod 255]) computed in GF(2^8) with field
polynomial 0x187: `alpha_to[poly[k]]` is the coefficient of x^k for every k in 0..32; the
polynomial is monic (`poly[32] = 0`, coefficient 1), and no entry of `poly` is the zero
sentinel 255. -/
theorem poly_is_generator :
    (∀ k, k ≤ 32 → alpha_to.getD (poly.getD k 0) 0 = genPoly.getD k 0) ∧
    genPoly.length = 33 ∧ poly.length = 33 ∧
    poly.getD 32 0 = 0 ∧ genPoly.getD 32 0 = 1 ∧
    (∀ k, k ≤ 32 → poly.getD k 0 ≠ A0) := by
  have h1 : ∀ k ∈ List.range 33, alpha_to.getD (poly.getD k 0) 0 = genPoly.getD k 0 := by
    decide!
  have h2 : ∀ k ∈ List.range 33, poly.getD k 0 ≠ A0 := by decide
  refine ⟨fun k hk => h1 k (List.mem_range.2 (by omega)), by decide!, rfl, rfl, by decide!,
    fun k hk => h2 k (List.mem_range.2 (by omega))⟩

/-- C6: `alpha_to` and `index_of` are mutually inverse with a reserved zero sentinel:
`index_of[alpha_to[i]] = i` for every exponent i in 0..254; `alpha_to[index_of[x]] = x` and
`index_of[x] < 255` for every field element x in 1..255; `index_of[0] = 255 = A0` and
`alpha_to[255] = 0`. -/
theorem alpha_to_index_of_inverse :
    (∀ i, i < 255 → index_of.getD (alpha_to.getD i 0) 0 = i) ∧
    (∀ x, 1 ≤ x → x ≤ 255 →
      alpha_to.getD (index_of.getD x 0) 0 = x ∧ index_of.getD x 0 < 255) ∧
    index_of.getD 0 0 = A0 ∧ A0 = 255 ∧ alpha_to.getD 255 0 = 0 := by
  refine ⟨fun i hi => index_of_alpha_to hi, fun x h1 h2 => ?_, rfl, rfl, rfl⟩
  exact ⟨alpha_to_index_of (by omega) (by omega), index_of_lt (by omega) (by omega)⟩

/-! ## The receive loop and the receive window -/

theorem window_fst (t n : Nat) (w : List Event) :
    (window t n w).1 = (arrivals t w).take n := by
  induction w generalizing t n with
  | nil =>
    cases t <;> cases n <;> simp [window, arrivals]
  | cons e es ih =>
    cases t with
    | zero => cases n <;> simp [window, arrivals]
    | succ t =>
      cases n with
      | zero => simp [window]
      | succ n =>
        cases e with
        | tick => simp only [window, arrivals]; exact ih t (n + 1)
        | rx b => simp only [window, arrivals, List.take_succ_cons]; rw [ih (t + 1) n]

/-- What the loop of `c3_rx` does to a state that still wants `n ≥ 1` bytes of its six. -/
theorem c3_rx_loop_spec (w : List Event) : ∀ (s : Driver) (n : Nat), 1 ≤ n →
    s.rxbuf_len + n = 6 →
    (c3_rx_loop w s).wire = (window s.timeout_clk n w).2 ∧
    (c3_rx_loop w s).rxbuf_len = s.rxbuf_len + (window s.timeout_clk n w).1.length ∧
    (∀ i, i < s.rxbuf_len → (c3_rx_loop w s).rxbuf i = s.rxbuf i) ∧
    (∀ i, i < (window s.timeout_clk n w).1.length →
      (c3_rx_loop w s).rxbuf (s.rxbuf_len + i) = (window s.timeout_clk n w).1.getD i 0) ∧
    (c3_rx_loop w s).sent = s.sent ∧ (c3_rx_loop w s).pkg_len = s.pkg_len := by
  induction w with
  | nil =>
    intro s n hn _
    obtain ⟨m, rfl⟩ : ∃ m, n = m + 1 := ⟨n - 1, by omega⟩
    cases h : s.timeout_clk <;> simp [c3_rx_loop, window]
  | cons e es ih =>
    intro s n hn hlen
    obtain ⟨m, rfl⟩ : ∃ m, n = m + 1 := ⟨n - 1, by omega⟩
    cases h : s.timeout_clk with
    | zero => simp [c3_rx_loop, window, h]
    | succ t =>
      cases e with
      | tick =>
        have hs : (c3_tick s).timeout_clk = t := by simp [c3_tick, h]
        have h2 := ih (c3_tick s) (m + 1) hn (by simpa [c3_tick, h] using hlen)
        rw [hs] at h2
        simpa [c3_rx_loop, window, h, c3_tick] using h2
      | rx b =>
        have hl : s.rxbuf_len < 6 := by omega
        have hmod : (s.rxbuf_len + 1) % 256 = s.rxbuf_len + 1 := Nat.mod_eq_of_lt (by omega)
        by_cases h6 : s.rxbuf_len + 1 = 6
        · have hm : m = 0 := by omega
          subst hm
          simp only [c3_rx_loop, h, window, hmod, h6]
          refine ⟨by simp, by simp; omega, ?_, ?_, by simp, by simp⟩
          · intro i hi
            simp [Function.update, show i ≠ s.rxbuf_len by omega]
          · intro i hi
            have hi0 : i = 0 := by simpa using hi
            subst hi0
            simp
        · have hm : 1 ≤ m := by omega
          have h2 := ih { s with rxbuf := Function.update s.rxbuf s.rxbuf_len (b % 256),
                                 rxbuf_len := (s.rxbuf_len + 1) % 256 } m hm
            (by simp only [hmod]; omega)
          simp only [hmod, h] at h2
          obtain ⟨e1, e2, e3, e4, e5, e6⟩ := h2
          simp only [c3_rx_loop, h, window, hmod, h6]
          refine ⟨by simpa using e1, by simp [e2]; omega, ?_, ?_, by simpa using e5,
            by simpa using e6⟩
          · intro i hi
            have := e3 i (by omega)
            simpa [Function.update, show i ≠ s.rxbuf_len by omega] using this
          · intro i hi
            cases i with
            | zero =>
              have := e3 s.rxbuf_len (by omega)
              simpa using this
            | succ j =>
              have := e4 j (by simpa using hi)
              simpa [Nat.add_assoc, Nat.add_comm 1 j] using this

theorem rxPacket_length_le (t : Nat) (w : List Event) : (rxPacket t w).length ≤ 6 := by
  unfold rxPacket
  rw [window_fst, List.length_take]
  omega

theorem c3_rx_spec (t : Nat) (s : Driver) :
    (c3_rx t s).1 = (if (rxPacket t s.wire).length = 6 ∧ (rxPacket t s.wire).getD 0 0 = 0xAA
      then (rxPacket t s.wire).getD 1 0 else 0) ∧
    (c3_rx t s).2.wire = rxRest t s.wire ∧
    (c3_rx t s).2.rxbuf_len = (rxPacket t s.wire).length ∧
    (∀ i, i < (rxPacket t s.wire).length →
      (c3_rx t s).2.rxbuf i = (rxPacket t s.wire).getD i 0) ∧
    (c3_rx t s).2.sent = s.sent ∧ (c3_rx t s).2.pkg_len = s.pkg_len := by
  have h := c3_rx_loop_spec s.wire { s with rxbuf_len := 0, timeout_clk := t % 256 } 6
    (by decide) (by simp)
  simp only [Nat.zero_add] at h
  obtain ⟨e1, e2, _, e4, e5, e6⟩ := h
  have hle := rxPacket_length_le t s.wire
  unfold rxPacket rxRest at *
  unfold c3_rx
  simp only []
  by_cases h6 : (window (t % 256) 6 s.wire).1.length = 6
  · have r0 := e4 0 (by omega)
    have r1 := e4 1 (by omega)
    rw [if_neg (by rw [e2, h6]; simp)]
    by_cases hA : (window (t % 256) 6 s.wire).1.getD 0 0 = 0xAA
    · rw [if_neg (by rw [r0, hA]; simp), if_pos ⟨h6, hA⟩]
      exact ⟨r1, e1, e2, e4, e5, e6⟩
    · rw [if_pos (by rw [r0]; exact hA), if_neg (fun h => hA h.2)]
      exact ⟨rfl, e1, e2, e4, e5, e6⟩
  · rw [if_pos (by rw [e2]; exact h6), if_neg (fun h => h6 h.1)]
    exact ⟨rfl, e1, e2, e4, e5, e6⟩

theorem c3_tx_sent (cmd a1 a2 a3 a4 : Nat) (s : Driver) :
    (c3_tx cmd a1 a2 a3 a4 s).sent
      = s.sent ++ frame (cmd % 256) (a1 % 256) (a2 % 256) (a3 % 256) (a4 % 256) := by
  simp [c3_tx, tx_byte, frame]

theorem c3_tx_rest (cmd a1 a2 a3 a4 : Nat) (s : Driver) :
    (c3_tx cmd a1 a2 a3 a4 s).wire = s.wire ∧ (c3_tx cmd a1 a2 a3 a4 s).pkg_len = s.pkg_len ∧
    (c3_tx cmd a1 a2 a3 a4 s).rxbuf = s.rxbuf ∧
    (c3_tx cmd a1 a2 a3 a4 s).rxbuf_len = s.rxbuf_len := by
  simp [c3_tx, tx_byte]

theorem isAckFor_iff (c : Ids) (cmd : Nat) (p : List Nat) :
    isAckFor c cmd p ↔
      p.length = 6 ∧ p.getD 0 0 = 0xAA ∧ p.getD 1 0 = c.CMD_ACK ∧ p.getD 2 0 = cmd := by
  unfold isAckFor isResponse
  tauto

/-- What `c3_cmd` returns and leaves behind, in terms of the packet received in its window. -/
theorem c3_cmd_spec (c : Ids) (hack : 0 < c.CMD_ACK) (cmd a1 a2 a3 a4 : Nat) (s : Driver) :
    (c3_cmd c cmd a1 a2 a3 a4 s).1
      = (if isAckFor c (cmd % 256) (rxPacket CMD_TIMEOUT s.wire) then 0 else -1) ∧
    (c3_cmd c cmd a1 a2 a3 a4 s).2.wire = rxRest CMD_TIMEOUT s.wire ∧
    (c3_cmd c cmd a1 a2 a3 a4 s).2.sent
      = s.sent ++ frame (cmd % 256) (a1 % 256) (a2 % 256) (a3 % 256) (a4 % 256) ∧
    (c3_cmd c cmd a1 a2 a3 a4 s).2.pkg_len = s.pkg_len := by
  obtain ⟨w1, w2, w3, w4⟩ := c3_tx_rest cmd a1 a2 a3 a4 s
  obtain ⟨e0, e1, e2, e4, e5, e6⟩ := c3_rx_spec CMD_TIMEOUT (c3_tx cmd a1 a2 a3 a4 s)
  rw [w1] at e0 e1 e2 e4
  rw [c3_tx_sent] at e5
  rw [w2] at e6
  unfold c3_cmd
  simp only []
  have hiff := isAckFor_iff c (cmd % 256) (rxPacket CMD_TIMEOUT s.wire)
  generalize rxPacket CMD_TIMEOUT s.wire = p at *
  generalize c3_rx CMD_TIMEOUT (c3_tx cmd a1 a2 a3 a4 s) = res at *
  obtain ⟨r, s2⟩ := res
  simp only at e0 e1 e2 e4 e5 e6 ⊢
  by_cases hp : p.length = 6 ∧ p.getD 0 0 = 0xAA
  · rw [if_pos hp] at e0
    have r2 := e4 2 (by omega)
    by_cases hok : p.getD 1 0 = c.CMD_ACK ∧ p.getD 2 0 = cmd % 256
    · rw [if_neg (by rw [e0, r2, hok.1, hok.2]; simp),
        if_pos (hiff.2 ⟨hp.1, hp.2, hok.1, hok.2⟩)]
      exact ⟨rfl, e1, e5, e6⟩
    · rw [if_pos (by rw [e0, r2]; tauto), if_neg (fun h => hok ⟨(hiff.1 h).2.2.1, (hiff.1 h).2.2.2⟩)]
      exact ⟨rfl, e1, e5, e6⟩
  · rw [if_neg hp] at e0
    rw [if_pos (Or.inl (by rw [e0]; omega)),
      if_neg (fun h => hp ⟨(hiff.1 h).1, (hiff.1 h).2.1⟩)]
    exact ⟨rfl, e1, e5, e6⟩

theorem take_getD (l : List Nat) {n i : Nat} (h : i < n) : (l.take n).getD i 0 = l.getD i 0 := by
  simp only [List.getD_eq_getElem?_getD, List.getElem?_take, h, if_true]

theorem rxPacket_cmd (w : List Event) :
    rxPacket CMD_TIMEOUT w = (arrivals CMD_TIMEOUT w).take 6 := by
  unfold rxPacket
  rw [window_fst]
  rfl

theorem isAckFor_rxPacket (c : Ids) (cmd : Nat) (w : List Event) :
    isAckFor c cmd (rxPacket CMD_TIMEOUT w) ↔
      6 ≤ (arrivals CMD_TIMEOUT w).length ∧ (arrivals CMD_TIMEOUT w).getD 0 0 = 0xAA ∧
        (arrivals CMD_TIMEOUT w).getD 1 0 = c.CMD_ACK ∧ (arrivals CMD_TIMEOUT w).getD 2 0 = cmd := by
  rw [isAckFor_iff, rxPacket_cmd, take_getD _ (by decide), take_getD _ (by decide),
    take_getD _ (by decide), List.length_take]
  constructor
  · rintro ⟨h1, h2⟩
    exact ⟨by omega, h2⟩
  · rintro ⟨h1, h2⟩
    exact ⟨by omega, h2⟩

/-- One iteration of the loop of `c3_sync` against one attempt of the handshake. -/
theorem c3_sync_loop_step (c : Ids) (hA : 0 < c.CMD_ACK) (hS : 0 < c.CMD_SYNC)
    (hA2 : c.CMD_ACK < 256) (hS2 : c.CMD_SYNC < 256) (n : Nat) (s : Driver) :
    ((syncAttempt c s.wire).1 = true →
      (c3_sync_loop c (n + 1) s).1 = 0 ∧
      (c3_sync_loop c (n + 1) s).2.sent
        = s.sent ++ frame c.CMD_SYNC 0 0 0 0 ++ frame c.CMD_ACK c.CMD_SYNC 0 0 0) ∧
    ((syncAttempt c s.wire).1 = false →
      ∃ s2 : Driver, s2.wire = (syncAttempt c s.wire).2 ∧
        s2.sent = s.sent ++ frame c.CMD_SYNC 0 0 0 0 ∧
        c3_sync_loop c (n + 1) s = c3_sync_loop c n s2) := by
  obtain ⟨k0, k1, k2, _⟩ := c3_cmd_spec c hA c.CMD_SYNC 0 0 0 0 s
  rw [Nat.mod_eq_of_lt hS2] at k0 k2
  have hw : ∀ w, rxPacket CMD_TIMEOUT w = (window CMD_TIMEOUT 6 w).1 := fun _ => rfl
  have hr : ∀ w, rxRest CMD_TIMEOUT w = (window CMD_TIMEOUT 6 w).2 := fun _ => rfl
  rw [hw] at k0
  rw [hr] at k1
  rw [c3_sync_loop]
  unfold syncAttempt
  generalize c3_cmd c c.CMD_SYNC 0 0 0 0 s = res at *
  obtain ⟨r, s1⟩ := res
  simp only at k0 k1 k2 ⊢
  by_cases hack : isAckFor c c.CMD_SYNC (window CMD_TIMEOUT 6 s.wire).1
  · rw [if_pos hack] at k0
    rw [if_pos hack]
    subst k0
    obtain ⟨e0, e1, _, _, e5, _⟩ := c3_rx_spec CMD_TIMEOUT s1
    rw [hw, k1] at e0
    rw [hr, k1] at e1
    rw [k2] at e5
    generalize c3_rx CMD_TIMEOUT s1 = res2 at *
    obtain ⟨r2, s2⟩ := res2
    simp only at e0 e1 e5 ⊢
    generalize (window CMD_TIMEOUT 6 (window CMD_TIMEOUT 6 s.wire).2).1 = p2 at *
    by_cases hsync : isResponse c.CMD_SYNC p2
    · have hr2 : r2 = c.CMD_SYNC := by
        rw [e0, if_pos ⟨hsync.1, hsync.2.1⟩, hsync.2.2]
      have hd : decide (isResponse c.CMD_SYNC p2) = true := decide_eq_true hsync
      rw [hd, if_neg (by simp), if_neg (by simp [hr2])]
      refine ⟨fun _ => ⟨rfl, ?_⟩, fun h => absurd h (by simp)⟩
      rw [c3_tx_sent, e5, Nat.mod_eq_of_lt hA2, Nat.mod_eq_of_lt hS2]
    · have hr2 : r2 ≠ c.CMD_SYNC := by
        intro h
        apply hsync
        by_cases hp : p2.length = 6 ∧ p2.getD 0 0 = 170
        · rw [if_pos hp] at e0
          exact ⟨hp.1, hp.2, by rw [← e0, h]⟩
        · rw [if_neg hp] at e0
          omega
      have hd : decide (isResponse c.CMD_SYNC p2) = false := decide_eq_false hsync
      rw [hd, if_neg (by simp), if_pos hr2]
      exact ⟨fun h => absurd h (by simp), fun _ => ⟨s2, e1, e5, rfl⟩⟩
  · rw [if_neg hack] at k0
    rw [if_neg hack]
    subst k0
    rw [if_pos (by simp)]
    exact ⟨fun h => absurd h (by simp), fun _ => ⟨s1, k1, k2, rfl⟩⟩

theorem syncFrames_succ (c : Ids) (k : Nat) :
    syncFrames c (k + 1) = frame c.CMD_SYNC 0 0 0 0 ++ syncFrames c k := by
  simp [syncFrames, List.replicate_succ]

theorem c3_sync_loop_spec (c : Ids) (hA : 0 < c.CMD_ACK) (hS : 0 < c.CMD_SYNC)
    (hA2 : c.CMD_ACK < 256) (hS2 : c.CMD_SYNC < 256) (n : Nat) : ∀ s : Driver,
    (∀ k, firstSync c n s.wire = some k →
      1 ≤ k ∧ k ≤ n ∧ (c3_sync_loop c n s).1 = 0 ∧
      (c3_sync_loop c n s).2.sent = s.sent ++ syncFrames c k ++ frame c.CMD_ACK c.CMD_SYNC 0 0 0) ∧
    (firstSync c n s.wire = none →
      (c3_sync_loop c n s).1 = -1 ∧ (c3_sync_loop c n s).2.sent = s.sent ++ syncFrames c n) := by
  induction n with
  | zero =>
    intro s
    simp [firstSync, c3_sync_loop, syncFrames]
  | succ n ih =>
    intro s
    obtain ⟨h1, h2⟩ := c3_sync_loop_step c hA hS hA2 hS2 n s
    rw [firstSync]
    cases hatt : (syncAttempt c s.wire).1 with
    | true =>
      obtain ⟨r1, r2⟩ := h1 hatt
      simp only [if_true, Option.some.injEq, forall_eq', false_implies, and_true, reduceCtorEq]
      refine ⟨by omega, by omega, r1, ?_⟩
      rw [r2, syncFrames_succ]
      simp [syncFrames]
    | false =>
      obtain ⟨s2, w2, t2, e2⟩ := h2 hatt
      obtain ⟨i1, i2⟩ := ih s2
      rw [w2] at i1 i2
      rw [e2]
      simp only [Bool.false_eq_true, if_false, Option.map_eq_some', Option.map_eq_none']
      constructor
      · rintro k ⟨j, hj, rfl⟩
        obtain ⟨a1, a2, a3, a4⟩ := i1 j hj
        refine ⟨by omega, by omega, a3, ?_⟩
        rw [a4, t2, syncFrames_succ]
        simp
      · intro hnone
        obtain ⟨b1, b2⟩ := i2 hnone
        refine ⟨b1, ?_⟩
        rw [b2, t2, syncFrames_succ]
        simp

/-! ## Properties of the camera link driver -/

/-- C7: `c3_cmd` accepts exactly a matching ACK. With the peer modelled as the bytes it
delivers before the command timeout expires (`arrivals CMD_TIMEOUT`), for every command
byte `cmd` and all arguments `c3_cmd` returns 0 if and only if six bytes were delivered
(at least six arrived in time), the first is the sync marker 0xAA, the second is `CMD_ACK`
and the third equals `cmd`; in every other case it returns -1. The identifier `CMD_ACK` is
a parameter, taken nonzero. -/
theorem c3_cmd_accepts_exactly_ack (c : Ids) (hack : 0 < c.CMD_ACK) (cmd a1 a2 a3 a4 : Nat)
    (hcmd : cmd < 256) (s : Driver) :
    ((c3_cmd c cmd a1 a2 a3 a4 s).1 = 0 ↔
      (6 ≤ (arrivals CMD_TIMEOUT s.wire).length ∧ (arrivals CMD_TIMEOUT s.wire).getD 0 0 = 0xAA ∧
        (arrivals CMD_TIMEOUT s.wire).getD 1 0 = c.CMD_ACK ∧
        (arrivals CMD_TIMEOUT s.wire).getD 2 0 = cmd)) ∧
    ((c3_cmd c cmd a1 a2 a3 a4 s).1 ≠ 0 → (c3_cmd c cmd a1 a2 a3 a4 s).1 = -1) := by
  obtain ⟨h, _⟩ := c3_cmd_spec c hack cmd a1 a2 a3 a4 s
  rw [Nat.mod_eq_of_lt hcmd] at h
  rw [h, ← isAckFor_rxPacket]
  by_cases hk : isAckFor c cmd (rxPacket CMD_TIMEOUT s.wire)
  · simp [hk]
  · simp [hk]

theorem c3_cmd_accepts_exactly_ack_witness :
    (0 < sampleIds.CMD_ACK ∧ 1 < 256) ∧
    (c3_cmd sampleIds 1 0 1 2 3
      (c3_start [Event.rx 0xAA, Event.tick, Event.rx 0x0E, Event.rx 1, Event.rx 0, Event.rx 0,
        Event.rx 0])).1 = 0 ∧
    (c3_cmd sampleIds 1 0 1 2 3
      (c3_start [Event.rx 0xAA, Event.rx 0x0F, Event.rx 1, Event.rx 0, Event.rx 0,
        Event.rx 0])).1 = -1 :=
  ⟨by decide,
    (c3_cmd_accepts_exactly_ack sampleIds (by decide) 1 0 1 2 3 (by decide) _).1.2 (by decide),
    (c3_cmd_accepts_exactly_ack sampleIds (by decide) 1 0 1 2 3 (by decide) _).2 (by decide)⟩

/-- C8: `c3_sync` owns a bounded retry of at most 60 attempts. If attempt `k` is the first
of the 60 in which the SYNC command is answered by an ACK echoing SYNC and that ACK is
followed by a SYNC-type response, then `1 ≤ k ≤ 60`, `c3_sync` returns 0 and has transmitted
exactly `k` SYNC command frames followed by the one frame `[0xAA, CMD_ACK, CMD_SYNC, 0, 0, 0]`.
It returns -1 if and only if none of the 60 attempts completes that exchange, and then it
has transmitted exactly 60 SYNC frames and no ACK. The identifiers are parameters, taken to
be nonzero bytes. -/
theorem c3_sync_bounded_retry (c : Ids) (hv : c.valid) (s : Driver) :
    (∀ k, firstSync c 60 s.wire = some k →
      1 ≤ k ∧ k ≤ 60 ∧ (c3_sync c s).1 = 0 ∧
      (c3_sync c s).2.sent = s.sent ++ syncFrames c k ++ frame c.CMD_ACK c.CMD_SYNC 0 0 0) ∧
    ((c3_sync c s).1 = -1 ↔ firstSync c 60 s.wire = none) ∧
    (firstSync c 60 s.wire = none → (c3_sync c s).2.sent = s.sent ++ syncFrames c 60) := by
  obtain ⟨-, -, -, -, -, ⟨hS, hS2⟩, hA, hA2⟩ := hv
  obtain ⟨h1, h2⟩ := c3_sync_loop_spec c hA hS hA2 hS2 60 s
  refine ⟨h1, ⟨fun hr => ?_, fun hn => (h2 hn).1⟩, fun hn => (h2 hn).2⟩
  cases hf : firstSync c 60 s.wire with
  | none => rfl
  | some k =>
    have := (h1 k hf).2.2.1
    unfold c3_sync at hr
    rw [this] at hr
    exact absurd hr (by decide)

theorem c3_sync_bounded_retry_witness :
    (c3_sync sampleIds (c3_start
      [Event.tick, Event.tick, Event.tick, Event.tick,
       Event.tick, Event.tick, Event.tick, Event.tick,
       Event.rx 0xAA, Event.rx 0x0E, Event.rx 0x0D, Event.rx 0, Event.rx 0, Event.rx 0,
       Event.rx 0xAA, Event.rx 0x0D, Event.rx 0, Event.rx 0, Event.rx 0, Event.rx 0])).1 = 0 ∧
    (c3_sync sampleIds (c3_start
      [Event.tick, Event.tick, Event.tick, Event.tick,
       Event.tick, Event.tick, Event.tick, Event.tick,
       Event.rx 0xAA, Event.rx 0x0E, Event.rx 0x0D, Event.rx 0, Event.rx 0, Event.rx 0,
       Event.rx 0xAA, Event.rx 0x0D, Event.rx 0, Event.rx 0, Event.rx 0, Event.rx 0])).2.sent
      = [] ++ syncFrames sampleIds 3 ++ frame 0x0E 0x0D 0 0 0 :=
  ⟨((c3_sync_bounded_retry sampleIds (by decide) _).1 3 (by decide)).2.2.1,
    ((c3_sync_bounded_retry sampleIds (by decide) _).1 3 (by decide)).2.2.2⟩

/-- C9: `c3_set_package_size` is guarded and atomic. For every `size` greater than the
buffer capacity `RXBUF_LEN = 64` it returns -1 and leaves the whole state as it was (no byte
transmitted, `pkg_len` unchanged). For every `size ≤ 64` it transmits the SET_PKG_SIZE
frame; when the response (the first six bytes that arrive before the command timeout) is
an ACK for SET_PKG_SIZE it returns 0 and `pkg_len` becomes `size`; otherwise (rejection or
timeout) it returns -1 and `pkg_len` is unchanged. -/
theorem c3_set_package_size_guarded (c : Ids) (hv : c.valid) (size : Nat) (hs : size < 65536)
    (s : Driver) :
    (RXBUF_LEN < size →
      (c3_set_package_size c size s).1 = -1 ∧ (c3_set_package_size c size s).2 = s) ∧
    (size ≤ RXBUF_LEN →
      (c3_set_package_size c size s).2.sent
        = s.sent ++ frame c.CMD_SET_PKG_SIZE 0x08 (size % 256) (size / 256) 0 ∧
      (isAckFor c c.CMD_SET_PKG_SIZE ((arrivals CMD_TIMEOUT s.wire).take 6) →
        (c3_set_package_size c size s).1 = 0 ∧ (c3_set_package_size c size s).2.pkg_len = size) ∧
      (¬ isAckFor c c.CMD_SET_PKG_SIZE ((arrivals CMD_TIMEOUT s.wire).take 6) →
        (c3_set_package_size c size s).1 = -1 ∧
        (c3_set_package_size c size s).2.pkg_len = s.pkg_len)) := by
  obtain ⟨-, -, -, ⟨-, hP2⟩, -, -, hA, -⟩ := hv
  have e64 : RXBUF_LEN = 64 := rfl
  unfold c3_set_package_size
  simp only [Nat.mod_eq_of_lt hs]
  constructor
  · intro h
    rw [if_pos h]
    exact ⟨rfl, rfl⟩
  · intro h
    rw [if_neg (by omega)]
    have m1 : size &&& 0xFF = size % 256 := Nat.and_pow_two_sub_one_eq_mod size 8
    have m2 : size >>> 8 = size / 256 := Nat.shiftRight_eq_div_pow size 8
    rw [m1, m2]
    obtain ⟨k0, -, k2, k3⟩ := c3_cmd_spec c hA c.CMD_SET_PKG_SIZE 0x08 (size % 256) (size / 256) 0 s
    rw [Nat.mod_eq_of_lt hP2, rxPacket_cmd] at k0
    rw [Nat.mod_eq_of_lt hP2, Nat.mod_mod, Nat.mod_eq_of_lt (show size / 256 < 256 by omega)]
      at k2
    have k2b : (c3_cmd c c.CMD_SET_PKG_SIZE 8 (size % 256) (size / 256) 0 s).2.sent =
        s.sent ++ frame c.CMD_SET_PKG_SIZE 8 (size % 256) (size / 256) 0 := k2
    generalize c3_cmd c c.CMD_SET_PKG_SIZE 0x08 (size % 256) (size / 256) 0 s = res at *
    obtain ⟨r, s1⟩ := res
    simp only at k0 k2b k3 ⊢
    by_cases hk : isAckFor c c.CMD_SET_PKG_SIZE ((arrivals CMD_TIMEOUT s.wire).take 6)
    · rw [if_pos hk] at k0
      subst k0
      rw [if_pos rfl]
      exact ⟨k2b, fun _ => ⟨rfl, Nat.mod_eq_of_lt (by omega)⟩, fun h2 => absurd hk h2⟩
    · rw [if_neg hk] at k0
      subst k0
      rw [if_neg (by decide)]
      exact ⟨k2b, fun h2 => absurd h2 hk, fun _ => ⟨rfl, k3⟩⟩

theorem c3_set_package_size_guarded_witness :
    ((c3_set_package_size sampleIds 65 (c3_start [])).1 = -1 ∧
      (c3_set_package_size sampleIds 65 (c3_start [])).2 = c3_start []) ∧
    ((c3_set_package_size sampleIds 32 (c3_start
        [Event.rx 0xAA, Event.rx 0x0E, Event.rx 0x06, Event.rx 0, Event.rx 0, Event.rx 0])).1 = 0 ∧
      (c3_set_package_size sampleIds 32 (c3_start
        [Event.rx 0xAA, Event.rx 0x0E, Event.rx 0x06, Event.rx 0, Event.rx 0, Event.rx 0])).2.pkg_len
        = 32) :=
  ⟨(c3_set_package_size_guarded sampleIds (by decide) 65 (by decide) _).1 (by decide),
    ((c3_set_package_size_guarded sampleIds (by decide) 32 (by decide) _).2 (by decide)).2.1
      (by decide)⟩

/-- C10, evaluated where it fails: started at `pkg_len = 64`, the header bytes
`0xFB 0x00 0xFA 0xFF` declare the payload length L = 0xFFFA = 65530, so L + 6 = 65536
exceeds `pkg_len`; the 16-bit size wraps to 0, the guard `s > pkg_len` does not fire, and
`c3_get_package` returns 0 (success) with length 4. -/
theorem c3_get_package_oversize_accepted :
    (c3_start []).pkg_len = 64 ∧ 0xFA + 0xFF * 256 + 6 > 64 ∧
    (c3_get_package sampleIds 0
      (c3_start [Event.rx 0xFB, Event.rx 0x00, Event.rx 0xFA, Event.rx 0xFF])).map
        (fun r => (r.1, r.2.1)) = some (0, some (0, 4)) := by
  decide

/-! ## mod255 and linearity of the encoder -/

theorem mod255Loop_div (fuel : Nat) : ∀ x, x / 255 ≤ fuel → mod255Loop fuel x = x % 255 := by
  induction fuel with
  | zero =>
    intro x hx
    have : x < 255 := by omega
    rw [mod255Loop, Nat.mod_eq_of_lt this]
  | succ fuel ih =>
    intro x hx
    rw [mod255Loop]
    split
    · have e1 : (x - 255) >>> 8 = (x - 255) / 256 := Nat.shiftRight_eq_div_pow _ 8
      have e2 : (x - 255) &&& 255 = (x - 255) % 256 := Nat.and_pow_two_sub_one_eq_mod _ 8
      rw [e1, e2, ih _ (by omega)]
      omega
    · omega

/-- C18: `mod255` is an exact reduction. For every `x ≥ 0` the loop ends (on `x / 255`
iterations at most, so the bound `x` of the model is never used up) and returns `x mod 255`,
a value in 0..254; and for every argument the encoder passes (a feedback in 0..254 plus an
entry of `poly`, hence below 510) one iteration of the loop body at most gives the result. -/
theorem mod255_exact :
    (∀ x, mod255 x = x % 255 ∧ mod255 x < 255) ∧
    (∀ fuel x, x / 255 ≤ fuel → mod255Loop fuel x = x % 255) ∧
    (∀ x, x < 510 → mod255Loop 1 x = x % 255) ∧
    (∀ fb k, fb ≤ 254 → k ≤ 32 →
      fb + poly.getD k 0 < 510 ∧
      mod255Loop 1 (fb + poly.getD k 0) = (fb + poly.getD k 0) % 255) := by
  refine ⟨fun x => ?_, fun fuel x h => mod255Loop_div fuel x h,
    fun x hx => mod255Loop_div 1 x (by omega), fun fb k hfb hk => ?_⟩
  · rw [mod255_eq]
    exact ⟨rfl, Nat.mod_lt _ (by decide)⟩
  · have hp := poly_lt k (List.mem_range.2 (by omega))
    exact ⟨by omega, mod255Loop_div 1 _ (by omega)⟩

theorem getD_xor (u v : List Nat) (h : u.length = v.length) (k : Nat) :
    (List.zipWith (· ^^^ ·) u v).getD k 0 = u.getD k 0 ^^^ v.getD k 0 := by
  by_cases hk : k < u.length
  · rw [List.getD_eq_getElem _ _ (by simp [← h, hk]), List.getD_eq_getElem _ _ hk,
      List.getD_eq_getElem _ _ (h ▸ hk)]
    simp
  · have hk2 : u.length ≤ k := Nat.le_of_not_lt hk
    rw [List.getD_eq_default _ _ (by simp [← h, hk2]), List.getD_eq_default _ _ hk2,
      List.getD_eq_default _ _ (h ▸ hk2)]
    rfl

theorem ext_getD (u v : List Nat) (hlen : u.length = v.length)
    (h : ∀ j, j < u.length → u.getD j 0 = v.getD j 0) : u = v := by
  apply List.ext_getElem hlen
  intro n h1 h2
  have := h n h1
  rwa [List.getD_eq_getElem _ _ h1, List.getD_eq_getElem _ _ h2] at this

theorem bytes_xor {u v : List Nat} (h : u.length = v.length) (hu : Bytes u) (hv : Bytes v) :
    Bytes (List.zipWith (· ^^^ ·) u v) := by
  intro j
  rw [getD_xor u v h]
  exact xor_byte (hu j) (hv j)

theorem encode_step_xor (p q : List Nat) (d e : Nat) (hp : p.length = 32) (hq : q.length = 32)
    (bp : Bytes p) (bq : Bytes q) (hd : d < 256) (he : e < 256) :
    encode_step (List.zipWith (· ^^^ ·) p q) (d ^^^ e) =
      List.zipWith (· ^^^ ·) (encode_step p d) (encode_step q e) := by
  have hpq : p.length = q.length := hp.trans hq.symm
  have hl : (List.zipWith (· ^^^ ·) p q).length = 32 := by simp [hp, hq]
  have l1 := encode_step_length p d hp
  have l2 := encode_step_length q e hq
  apply ext_getD
  · rw [encode_step_length _ _ hl]
    simp [l1, l2]
  · intro j hj
    rw [encode_step_length _ _ hl] at hj
    rw [encode_step_getD _ _ hl (xor_byte hd he) (bytes_xor hpq bp bq 0) hj,
      getD_xor _ _ (l1.trans l2.symm), encode_step_getD p d hp hd (bp 0) hj,
      encode_step_getD q e hq he (bq 0) hj, getD_xor p q hpq, getD_xor p q hpq]
    have e1 : d ^^^ e ^^^ (p.getD 0 0 ^^^ q.getD 0 0) = (d ^^^ p.getD 0 0) ^^^ (e ^^^ q.getD 0 0) := by
      ac_rfl
    rw [e1, gfMul_xor_left (xor_byte hd (bp 0)) (xor_byte he (bq 0)) (genCoef_lt (by omega))]
    ac_rfl

theorem foldl_bytes (data p : List Nat) (hd : Bytes data) (hp : p.length = 32) (bp : Bytes p) :
    Bytes (data.foldl encode_step p) := by
  induction data generalizing p with
  | nil => exact bp
  | cons d ds ih =>
    exact ih _ (fun j => hd (j + 1)) (encode_step_length p d hp) (encode_step_bytes p d hp (hd 0) bp)

theorem foldl_xor (a : List Nat) : ∀ (b p q : List Nat), a.length = b.length → Bytes a → Bytes b →
    p.length = 32 → q.length = 32 → Bytes p → Bytes q →
    (List.zipWith (· ^^^ ·) a b).foldl encode_step (List.zipWith (· ^^^ ·) p q) =
      List.zipWith (· ^^^ ·) (a.foldl encode_step p) (b.foldl encode_step q) := by
  induction a with
  | nil =>
    intro b p q hab _ _ _ _ _ _
    cases b with
    | nil => rfl
    | cons y ys => simp at hab
  | cons x xs ih =>
    intro b p q hab ha hb hp hq bp bq
    cases b with
    | nil => simp at hab
    | cons y ys =>
      have hx : x < 256 := ha 0
      have hy : y < 256 := hb 0
      rw [List.zipWith_cons_cons, List.foldl_cons, List.foldl_cons, List.foldl_cons,
        encode_step_xor p q x y hp hq bp bq hx hy]
      exact ih ys _ _ (by simpa using hab) (fun j => ha (j + 1)) (fun j => hb (j + 1))
        (encode_step_length p x hp) (encode_step_length q y hq)
        (encode_step_bytes p x hp hx bp) (encode_step_bytes q y hq hy bq)

/-- C19: the encoder is linear over GF(2). For every pad (in particular every pad in 0..223)
and all messages `a`, `b` of 223 - pad bytes, `encode_rs_8(a XOR b, pad)` equals `encode_rs_8(a, pad) XOR
encode_rs_8(b, pad)`, bytewise over the 32 parity bytes, whatever the parity buffers held
before the calls. -/
theorem encode_rs_8_linear (pad : Nat) (a b parity parity1 parity2 : List Nat)
    (ha : a.length = 223 - pad) (hb : b.length = 223 - pad)
    (ba : ∀ x ∈ a, x < 256) (bb : ∀ x ∈ b, x < 256) :
    (encode_rs_8 (List.zipWith (· ^^^ ·) a b) parity pad).length = NROOTS ∧
    encode_rs_8 (List.zipWith (· ^^^ ·) a b) parity pad =
      List.zipWith (· ^^^ ·) (encode_rs_8 a parity1 pad) (encode_rs_8 b parity2 pad) := by
  have hab : (List.zipWith (· ^^^ ·) a b).length = 223 - pad := by simp [ha, hb]
  rw [encode_rs_8_eq _ parity pad hab, encode_rs_8_eq a parity1 pad ha,
    encode_rs_8_eq b parity2 pad hb]
  have hz : List.replicate 32 0 =
      List.zipWith (· ^^^ ·) (List.replicate 32 0) (List.replicate 32 0) := by decide
  refine ⟨foldl_length _ _ (List.length_replicate 32 0), ?_⟩
  conv_lhs => rw [hz]
  exact foldl_xor a b _ _ (ha.trans hb.symm) (bytes_of_mem ba) (bytes_of_mem bb)
    (List.length_replicate 32 0) (List.length_replicate 32 0) (bytes_replicate_zero 32)
    (bytes_replicate_zero 32)

theorem encode_rs_8_linear_witness :
    encode_rs_8 (List.zipWith (· ^^^ ·) [1, 2, 3] [4, 5, 6]) [] 220 =
      List.zipWith (· ^^^ ·) (encode_rs_8 [1, 2, 3] [] 220) (encode_rs_8 [4, 5, 6] [] 220) :=
  (encode_rs_8_linear 220 [1, 2, 3] [4, 5, 6] [] [] [] (by decide) (by decide) (by decide)
    (by decide)).2

/-! ## The package loop -/

theorem c3_get_package_eq (c : Ids) (id : Nat) (s : Driver) :
    c3_get_package c id s
      = pkgFinish (c3_get_package_loop s.wire 0 s.pkg_len (pkgEntry c id s)) := by
  unfold c3_get_package pkgEntry
  simp only [c3_tx, tx_byte]
  cases c3_get_package_loop s.wire 0 s.pkg_len _ <;> rfl

theorem c3_get_package_loop_core (w : List Event) : ∀ (checksum size : Nat) (s : Driver),
    (c3_get_package_loop w checksum size s).core
      = pkgBytes (arrivals s.timeout_clk w) checksum size s.core := by
  induction w with
  | nil =>
    intro ck size s
    cases h : s.timeout_clk with
    | zero => simp [c3_get_package_loop, arrivals, pkgBytes, PkgLoop.core, Driver.core, h]
    | succ t =>
      by_cases h2 : s.rxbuf_len < size <;>
        simp [c3_get_package_loop, arrivals, pkgBytes, PkgLoop.core, Driver.core, h, h2]
  | cons e es ih =>
    intro ck size s
    cases h : s.timeout_clk with
    | zero => simp [c3_get_package_loop, arrivals, pkgBytes, PkgLoop.core, Driver.core, h]
    | succ t =>
      cases e with
      | tick =>
        have hs : (c3_tick s).timeout_clk = t := by simp [c3_tick, h]
        have hc : (c3_tick s).core = s.core := by simp [c3_tick, h, Driver.core]
        by_cases h2 : s.rxbuf_len < size
        · have := ih ck size (c3_tick s)
          rw [hs, hc] at this
          simpa [c3_get_package_loop, arrivals, h, h2] using this
        · have h3 : pkgBytes (arrivals t es) ck size s.core = PkgLoop.left ck size s.core := by
            cases arrivals t es with
            | nil => rfl
            | cons b bs => simp [pkgBytes, Driver.core, h2]
          simp only [c3_get_package_loop, arrivals, h, h2, PkgLoop.core]
          simpa [Driver.core] using h3.symm
      | rx b =>
        by_cases h2 : s.rxbuf_len < size
        · by_cases h3 : RXBUF_LEN ≤ s.rxbuf_len
          · simp [c3_get_package_loop, arrivals, pkgBytes, h, h2, h3, PkgLoop.core, Driver.core]
          · by_cases h4 : (s.rxbuf_len + 1) % 256 = 4
            · by_cases h5 : (Function.update s.rxbuf s.rxbuf_len (b % 256) 2
                  + (Function.update s.rxbuf s.rxbuf_len (b % 256) 3 <<< 8) + 6) % 65536 > s.pkg_len
              · simp [c3_get_package_loop, arrivals, pkgBytes, h, h2, h3, h4, h5, PkgLoop.core,
                  Driver.core]
              · have := ih ((ck + b % 256) % 256)
                  ((Function.update s.rxbuf s.rxbuf_len (b % 256) 2
                    + (Function.update s.rxbuf s.rxbuf_len (b % 256) 3 <<< 8) + 6) % 65536)
                  { s with rxbuf := Function.update s.rxbuf s.rxbuf_len (b % 256),
                           rxbuf_len := (s.rxbuf_len + 1) % 256 }
                simp only [h] at this
                simpa [c3_get_package_loop, arrivals, pkgBytes, h, h2, h3, h4, h5, Driver.core]
                  using this
            · have := ih ((ck + b % 256) % 256) size
                { s with rxbuf := Function.update s.rxbuf s.rxbuf_len (b % 256),
                         rxbuf_len := (s.rxbuf_len + 1) % 256 }
              simp only [h] at this
              simpa [c3_get_package_loop, arrivals, pkgBytes, h, h2, h3, h4, Driver.core]
                using this
        · simp [c3_get_package_loop, arrivals, pkgBytes, h, h2, PkgLoop.core, Driver.core]

theorem pkgFinish_core (r : PkgLoop) : (pkgFinish r).map coreR = pkgFinish r.core := by
  cases r with
  | overrun => rfl
  | rejected s => rfl
  | left ck size s =>
    simp only [pkgFinish, PkgLoop.core]
    have e1 : s.core.rxbuf_len = s.rxbuf_len := rfl
    have e2 : s.core.rxbuf = s.rxbuf := rfl
    rw [e1, e2]
    split
    · rfl
    · split
      · rfl
      · split <;> rfl

theorem c3_get_package_core (c : Ids) (id : Nat) (s : Driver) :
    (c3_get_package c id s).map coreR
      = pkgFinish (pkgBytes (arrivals CMD_TIMEOUT s.wire) 0 s.pkg_len (pkgEntry c id s).core) := by
  rw [c3_get_package_eq, pkgFinish_core, c3_get_package_loop_core]
  rfl

theorem pkgEntry_core (c : Ids) (id : Nat) (s : Driver) :
    (pkgEntry c id s).core.rxbuf = s.rxbuf ∧ (pkgEntry c id s).core.rxbuf_len = 0 ∧
    (pkgEntry c id s).core.pkg_len = s.pkg_len ∧
    (pkgEntry c id s).core.sent
      = s.sent ++ frame (c.CMD_ACK % 256) 0 0 ((id % 65536) % 256) ((id % 65536) / 256 % 256) := by
  refine ⟨rfl, rfl, rfl, ?_⟩
  have m1 : (id % 65536) &&& 0xFF = (id % 65536) % 256 := Nat.and_pow_two_sub_one_eq_mod _ 8
  have m2 : (id % 65536) >>> 8 = (id % 65536) / 256 := Nat.shiftRight_eq_div_pow _ 8
  simp only [pkgEntry, Driver.core, c3_tx_sent, m1, m2, Nat.mod_mod]

theorem store_fields (bs : List Nat) : ∀ s : Driver,
    (store s bs).rxbuf_len = s.rxbuf_len + bs.length ∧ (store s bs).pkg_len = s.pkg_len ∧
    (store s bs).sent = s.sent ∧ (store s bs).wire = s.wire ∧
    (store s bs).timeout_clk = s.timeout_clk ∧
    (∀ i, i < s.rxbuf_len → (store s bs).rxbuf i = s.rxbuf i) ∧
    (∀ i, s.rxbuf_len + bs.length ≤ i → (store s bs).rxbuf i = s.rxbuf i) ∧
    (∀ j, j < bs.length → (store s bs).rxbuf (s.rxbuf_len + j) = bs.getD j 0) := by
  induction bs with
  | nil =>
    intro s
    simp [store]
  | cons b bs ih =>
    intro s
    obtain ⟨h1, h2, h3, h4, h5, h6, h7, h8⟩ := ih
      { s with rxbuf := Function.update s.rxbuf s.rxbuf_len b, rxbuf_len := s.rxbuf_len + 1 }
    simp only at h1 h2 h3 h4 h5 h6 h7 h8
    rw [store]
    refine ⟨by rw [h1, List.length_cons]; omega, h2, h3, h4, h5, ?_, ?_, ?_⟩
    · intro i hi
      rw [h6 i (by omega), Function.update_noteq (by omega)]
    · intro i hi
      rw [List.length_cons] at hi
      rw [h7 i (by omega), Function.update_noteq (by omega)]
    · intro j hj
      cases j with
      | zero =>
        have := h6 s.rxbuf_len (by omega)
        simpa using this
      | succ k =>
        have := h8 k (by simpa using hj)
        rw [List.getD_cons_succ, ← this]
        congr 1
        omega

/-- Bytes that neither complete the header nor reach the size are stored and summed. -/
theorem pkgBytes_absorb (bs : List Nat) : ∀ (rest : List Nat) (ck size : Nat) (s : Driver),
    ck < 256 → s.rxbuf_len + bs.length ≤ size → size ≤ 64 →
    (4 ≤ s.rxbuf_len ∨ s.rxbuf_len + bs.length < 4) →
    pkgBytes (bs ++ rest) ck size s = pkgBytes rest ((ck + bs.sum) % 256) size (store s bs) := by
  induction bs with
  | nil =>
    intro rest ck size s hck _ _ _
    rw [List.nil_append, List.sum_nil, Nat.add_zero, Nat.mod_eq_of_lt hck]
    rfl
  | cons b bs ih =>
    intro rest ck size s hck h1 h2 h3
    rw [List.length_cons] at h1 h3
    have e64 : RXBUF_LEN = 64 := rfl
    have hm : (s.rxbuf_len + 1) % 256 = s.rxbuf_len + 1 := Nat.mod_eq_of_lt (by omega)
    rw [List.cons_append, pkgBytes, if_neg (by omega), if_neg (by omega), hm,
      if_neg (by omega), store]
    have := ih rest ((ck + b) % 256) size
      { s with rxbuf := Function.update s.rxbuf s.rxbuf_len b, rxbuf_len := s.rxbuf_len + 1 }
      (Nat.mod_lt _ (by decide)) (by simp only; omega) h2 (by simp only; omega)
    rw [this, List.sum_cons]
    congr 1
    omega

/-- The fourth byte completes the header: the size is recomputed and tested. -/
theorem pkgBytes_header (b : Nat) (rest : List Nat) (ck size : Nat) (s : Driver)
    (h3 : s.rxbuf_len = 3) (hs : 3 < size) :
    pkgBytes (b :: rest) ck size s =
      if (s.rxbuf 2 + (b <<< 8) + 6) % 65536 > s.pkg_len then PkgLoop.rejected (store s [b])
      else pkgBytes rest ((ck + b) % 256) ((s.rxbuf 2 + (b <<< 8) + 6) % 65536) (store s [b]) := by
  have e64 : RXBUF_LEN = 64 := rfl
  have u2 : Function.update s.rxbuf s.rxbuf_len b 2 = s.rxbuf 2 :=
    Function.update_noteq (by omega) _ _
  have u3 : Function.update s.rxbuf s.rxbuf_len b 3 = b := by
    rw [h3, Function.update_same]
  rw [pkgBytes, if_neg (by omega), if_neg (by omega), if_pos (by rw [h3]), u2, u3]
  simp only [store, h3]

theorem arrivals_lt (w : List Event) : ∀ (t b : Nat), b ∈ arrivals t w → b < 256 := by
  induction w with
  | nil =>
    intro t b hb
    cases t <;> simp [arrivals] at hb
  | cons e es ih =>
    intro t b hb
    cases t with
    | zero => simp [arrivals] at hb
    | succ t =>
      cases e with
      | tick => exact ih t b (by simpa [arrivals] using hb)
      | rx x =>
        simp only [arrivals, List.mem_cons] at hb
        rcases hb with h | h
        · rw [h]
          exact Nat.mod_lt _ (by decide)
        · exact ih (t + 1) b h

theorem store_append (a : List Nat) : ∀ (b : List Nat) (s : Driver),
    store (store s a) b = store s (a ++ b) := by
  induction a with
  | nil => intro b s; rfl
  | cons x xs ih =>
    intro b s
    rw [store, ih, List.cons_append, store]

theorem pkgBytes_full (rest : List Nat) (ck size : Nat) (s : Driver) (h : ¬ s.rxbuf_len < size) :
    pkgBytes rest ck size s = PkgLoop.left ck size s := by
  cases rest with
  | nil => rfl
  | cons r rs => rw [pkgBytes, if_pos h]

/-- The loop on a frame that fits: all of it is stored and summed, and the loop is left with
the size the header declares. -/
theorem pkgBytes_frame (E : Driver) (h0 h1 l0 l1 t0 t1 : Nat) (payload rest : List Nat)
    (q2 : E.rxbuf_len = 0) (hp : E.pkg_len ≤ 64) (hL : l0 + 256 * l1 = payload.length)
    (hfit : payload.length + 6 ≤ E.pkg_len) :
    pkgBytes ([h0, h1, l0, l1] ++ payload ++ [t0, t1] ++ rest) 0 E.pkg_len E
      = PkgLoop.left ((h0 + h1 + l0 + l1 + payload.sum + t0 + t1) % 256) (payload.length + 6)
          (store E ([h0, h1, l0, l1] ++ payload ++ [t0, t1])) := by
  have hsplit : [h0, h1, l0, l1] ++ payload ++ [t0, t1] ++ rest
      = [h0, h1, l0] ++ (l1 :: ((payload ++ [t0, t1]) ++ rest)) := by simp
  have hjoin : [h0, h1, l0] ++ [l1] ++ (payload ++ [t0, t1])
      = [h0, h1, l0, l1] ++ payload ++ [t0, t1] := by simp
  obtain ⟨a1, a2, -, -, -, -, -, a8⟩ := store_fields [h0, h1, l0] E
  have hl2 : (store E [h0, h1, l0]).rxbuf 2 = l0 := by
    have := a8 2 (by simp)
    rwa [q2] at this
  have hshift : l1 <<< 8 = 256 * l1 := by rw [Nat.shiftLeft_eq]; omega
  have hsz : (l0 + 256 * l1 + 6) % 65536 = payload.length + 6 := by omega
  have step1 := pkgBytes_absorb [h0, h1, l0] (l1 :: ((payload ++ [t0, t1]) ++ rest)) 0 E.pkg_len E
    (by decide) (by rw [q2]; simp; omega) hp (Or.inr (by rw [q2]; simp))
  have step2 := pkgBytes_header l1 ((payload ++ [t0, t1]) ++ rest) ((0 + [h0, h1, l0].sum) % 256)
    E.pkg_len (store E [h0, h1, l0]) (by rw [a1, q2]; rfl) (by omega)
  rw [hl2, hshift, hsz, a2, if_neg (by omega), store_append] at step2
  have step3 := pkgBytes_absorb (payload ++ [t0, t1]) rest
    (((0 + [h0, h1, l0].sum) % 256 + l1) % 256) (payload.length + 6)
    (store E ([h0, h1, l0] ++ [l1])) (Nat.mod_lt _ (by decide))
    (by rw [(store_fields _ E).1, q2]; simp; omega) (by omega)
    (Or.inl (by rw [(store_fields _ E).1, q2]; simp))
  rw [store_append, hjoin] at step3
  have hlen : (store E ([h0, h1, l0, l1] ++ payload ++ [t0, t1])).rxbuf_len = payload.length + 6 := by
    rw [(store_fields _ E).1, q2]
    simp
  have step4 := pkgBytes_full rest
    ((((0 + [h0, h1, l0].sum) % 256 + l1) % 256 + (payload ++ [t0, t1]).sum) % 256)
    (payload.length + 6) (store E ([h0, h1, l0, l1] ++ payload ++ [t0, t1])) (by rw [hlen]; omega)
  have hsum : (((0 + [h0, h1, l0].sum) % 256 + l1) % 256 + (payload ++ [t0, t1]).sum) % 256
      = (h0 + h1 + l0 + l1 + payload.sum + t0 + t1) % 256 := by
    simp only [List.sum_cons, List.sum_nil, List.sum_append]
    omega
  rw [hsplit, step1, step2, step3, step4, hsum]

theorem store_view (E : Driver) (f : List Nat) (q2 : E.rxbuf_len = 0) :
    (List.range f.length).map (store E f).rxbuf = f := by
  obtain ⟨-, -, -, -, -, -, -, f8⟩ := store_fields f E
  apply List.ext_getElem
  · simp
  · intro n hn1 hn2
    have := f8 n hn2
    rw [q2, Nat.zero_add] at this
    rw [List.getElem_map, List.getElem_range, this, List.getD_eq_getElem _ _ hn2]

/-- The checksum test on a frame that was stored completely. -/
theorem pkgFinish_frame (E : Driver) (h0 h1 l0 l1 t0 t1 : Nat) (payload : List Nat)
    (q2 : E.rxbuf_len = 0) (hfit : payload.length + 6 ≤ 64) (ht0 : t0 < 256) :
    pkgFinish (PkgLoop.left ((h0 + h1 + l0 + l1 + payload.sum + t0 + t1) % 256)
        (payload.length + 6) (store E ([h0, h1, l0, l1] ++ payload ++ [t0, t1])))
      = some (if t0 = (h0 + h1 + l0 + l1 + payload.sum + t1) % 256 then 0 else -1,
          if t0 = (h0 + h1 + l0 + l1 + payload.sum + t1) % 256
            then some (0, payload.length + 6) else none,
          store E ([h0, h1, l0, l1] ++ payload ++ [t0, t1])) := by
  obtain ⟨f1, -, -, -, -, -, -, f8⟩ := store_fields ([h0, h1, l0, l1] ++ payload ++ [t0, t1]) E
  have flen : ([h0, h1, l0, l1] ++ payload ++ [t0, t1]).length = payload.length + 6 := by simp
  rw [q2, Nat.zero_add, flen] at f1
  have ht : (store E ([h0, h1, l0, l1] ++ payload ++ [t0, t1])).rxbuf (payload.length + 4) = t0 := by
    have := f8 (payload.length + 4) (by rw [flen]; omega)
    rw [q2, Nat.zero_add] at this
    rw [this, List.getD_append_right _ _ _ _ (by simp)]
    have : payload.length + 4 - ([h0, h1, l0, l1] ++ payload).length = 0 := by simp
    rw [this]
    rfl
  have e64 : RXBUF_LEN = 64 := rfl
  rw [pkgFinish, if_neg (by rw [f1]; omega), if_neg (by rw [f1]; omega), f1,
    show payload.length + 6 - 2 = payload.length + 4 from rfl, ht]
  by_cases hc : t0 = (h0 + h1 + l0 + l1 + payload.sum + t1) % 256
  · rw [if_neg (by omega), if_pos hc, if_pos hc]
  · rw [if_pos (by omega), if_neg hc, if_neg hc]

/-- What `c3_get_package` does with a Data Package frame that arrives completely before the
timeout and fits `pkg_len`: the whole frame is stored from `rxbuf[0]` on, and the call
succeeds exactly when the second-to-last byte equals the sum of all the other bytes. -/
theorem c3_get_package_frame (c : Ids) (id : Nat) (s : Driver) (h0 h1 l0 l1 t0 t1 : Nat)
    (payload rest : List Nat) (hp : s.pkg_len ≤ 64) (hL : l0 + 256 * l1 = payload.length)
    (hfit : payload.length + 6 ≤ s.pkg_len)
    (hA : arrivals CMD_TIMEOUT s.wire = [h0, h1, l0, l1] ++ payload ++ [t0, t1] ++ rest) :
    ∃ s2 : Driver,
      c3_get_package c id s = some
        (if t0 = (h0 + h1 + l0 + l1 + payload.sum + t1) % 256 then 0 else -1,
         if t0 = (h0 + h1 + l0 + l1 + payload.sum + t1) % 256
           then some (0, payload.length + 6) else none, s2) ∧
      s2.rxbuf_len = payload.length + 6 ∧
      (List.range (payload.length + 6)).map s2.rxbuf = [h0, h1, l0, l1] ++ payload ++ [t0, t1] ∧
      s2.pkg_len = s.pkg_len ∧
      s2.sent = s.sent ++ frame (c.CMD_ACK % 256) 0 0 ((id % 65536) % 256) ((id % 65536) / 256 % 256) := by
  have ht0 : t0 < 256 := arrivals_lt s.wire CMD_TIMEOUT t0 (by rw [hA]; simp)
  obtain ⟨q1, q2, q3, q4⟩ := pkgEntry_core c id s
  have key := c3_get_package_core c id s
  generalize (pkgEntry c id s).core = E at q1 q2 q3 q4 key
  have hloop := pkgBytes_frame E h0 h1 l0 l1 t0 t1 payload rest q2 (q3 ▸ hp) hL (q3 ▸ hfit)
  rw [q3] at hloop
  rw [hA, hloop, pkgFinish_frame E h0 h1 l0 l1 t0 t1 payload q2 (by omega) ht0] at key
  obtain ⟨f1, f2, f3, -, -, -, -, -⟩ := store_fields ([h0, h1, l0, l1] ++ payload ++ [t0, t1]) E
  have flen : ([h0, h1, l0, l1] ++ payload ++ [t0, t1]).length = payload.length + 6 := by simp
  have hview := store_view E ([h0, h1, l0, l1] ++ payload ++ [t0, t1]) q2
  rw [flen] at hview
  rw [q2, Nat.zero_add, flen] at f1
  obtain ⟨r, hr, hr2⟩ := Option.map_eq_some'.1 key
  obtain ⟨rc, out, s2⟩ := r
  simp only [coreR, Prod.mk.injEq] at hr2
  obtain ⟨k1, k2, k3⟩ := hr2
  refine ⟨s2, ?_, ?_, ?_, ?_, ?_⟩
  · rw [hr, k1, k2]
  · rw [← f1, ← k3]; rfl
  · rw [← hview, ← k3]; rfl
  · rw [← q3, ← f2, ← k3]; rfl
  · rw [← q4, ← f3, ← k3]; rfl

/-! ## Properties of `c3_get_package` -/

/-- C11, as stated, fails: the frame `[1, 0, 1, 0, 7, 9, 9]` (id 1, one payload byte 7, both
trailer bytes equal to the sum 9 of header and payload, as the wire format states) arrives
completely with `pkg_len = 64`, and `c3_get_package` returns -1. -/
theorem c3_get_package_rejects_duplicated_checksum :
    dataPackage 1 [7] = [1, 0, 1, 0, 7, 9, 9] ∧ (1 + 0 + 1 + 0 + 7) % 256 = 9 ∧
    (c3_get_package sampleIds 1 (c3_start (rxAll (dataPackage 1 [7])))).map
      (fun r => (r.1, r.2.1)) = some (-1, none) := by
  decide

/-- C11, amended: the additive checksum that `c3_get_package` validates covers every byte of
the frame but the checksum byte itself. For every Data Package frame
`[idLow, idHigh, lenLow, lenHigh] ++ payload ++ [t0, t1]` that arrives completely before the
timeout and whose total length is within `pkg_len` (itself within the buffer),
`c3_get_package` returns 0 if and only if `t0` equals the sum of the four header bytes, all
payload bytes and the last trailer byte `t1`, mod 256, and returns -1 otherwise. So a frame
whose last trailer byte is 0 is accepted exactly when `t0` is the sum of header and payload,
and a frame with both trailer bytes equal to that sum is accepted only if the sum is 0. -/
theorem c3_get_package_checksum (c : Ids) (id : Nat) (s : Driver)
    (idLow idHigh lenLow lenHigh t0 t1 : Nat) (payload rest : List Nat)
    (hp : s.pkg_len ≤ RXBUF_LEN) (hL : lenLow + 256 * lenHigh = payload.length)
    (hfit : payload.length + 6 ≤ s.pkg_len)
    (hA : arrivals CMD_TIMEOUT s.wire
      = [idLow, idHigh, lenLow, lenHigh] ++ payload ++ [t0, t1] ++ rest) :
    ((c3_get_package c id s).map (fun r => r.1) = some 0 ↔
      t0 = (idLow + idHigh + lenLow + lenHigh + payload.sum + t1) % 256) ∧
    ((c3_get_package c id s).map (fun r => r.1) ≠ some 0 →
      (c3_get_package c id s).map (fun r => r.1) = some (-1)) ∧
    (t1 = 0 → ((c3_get_package c id s).map (fun r => r.1) = some 0 ↔
      t0 = (idLow + idHigh + lenLow + lenHigh + payload.sum) % 256)) ∧
    (t0 = (idLow + idHigh + lenLow + lenHigh + payload.sum) % 256 → t1 = t0 →
      ((c3_get_package c id s).map (fun r => r.1) = some 0 ↔
        (idLow + idHigh + lenLow + lenHigh + payload.sum) % 256 = 0)) := by
  obtain ⟨s2, h, -⟩ := c3_get_package_frame c id s idLow idHigh lenLow lenHigh t0 t1 payload rest
    hp hL hfit hA
  have ht0 : t0 < 256 := arrivals_lt s.wire CMD_TIMEOUT t0 (by rw [hA]; simp)
  rw [h]
  simp only [Option.map_some', Option.some.injEq]
  by_cases hc : t0 = (idLow + idHigh + lenLow + lenHigh + payload.sum + t1) % 256
  · rw [if_pos hc]
    refine ⟨by simp [hc], by simp, fun h1 => ?_, fun h1 h2 => ?_⟩
    · subst h1
      simp only [true_iff]
      simpa using hc
    · simp only [true_iff]
      omega
  · rw [if_neg hc]
    refine ⟨by simp [hc], by simp, fun h1 => ?_, fun h1 h2 => ?_⟩
    · subst h1
      have : ¬ t0 = (idLow + idHigh + lenLow + lenHigh + payload.sum) % 256 := by simpa using hc
      simp [this]
    · have : ¬ (idLow + idHigh + lenLow + lenHigh + payload.sum) % 256 = 0 := by omega
      simp [this]

theorem c3_get_package_checksum_witness :
    (c3_get_package sampleIds 1
      (c3_start (rxAll [1, 0, 1, 0, 7, 9, 0]))).map (fun r => r.1) = some 0 :=
  ((c3_get_package_checksum sampleIds 1 (c3_start (rxAll [1, 0, 1, 0, 7, 9, 0])) 1 0 1 0 9 0 [7] []
    (by decide) (by decide) (by decide) (by decide)).1).2 (by decide)

theorem xor_pow_ne (t k : Nat) : t ^^^ 2 ^ k ≠ t := by
  intro h
  have h2 : t ^^^ (t ^^^ 2 ^ k) = t ^^^ t := by rw [h]
  rw [Nat.xor_cancel_left, Nat.xor_self] at h2
  exact absurd h2 (Nat.two_pow_pos k).ne'

/-- C12, evaluated where it fails (the defect of C10): with `pkg_len = 64`, the Data Package
frame with header `0xFB 0x00 0xFA 0xFF` (declared payload length 65530), 65530 zero payload
bytes and both trailer bytes equal to the checksum 0xF4 is accepted, because the 16-bit size
wraps to 0 and the loop ends after the header; the frame with one bit of its trailer
checksum byte flipped (0xF5 in place of 0xF4), everything else identical, is accepted as
well. The same happens with `pkg_len = 2`, installed by an ACKed `c3_set_package_size(2)`:
the loop ends after two bytes, so the frame `[5, 5, 0, 0, 10, 10]` and the frame
`[5, 5, 0, 0, 11, 10]` are both accepted. On the frames that arrive completely and fit
`pkg_len` the claim holds: if the frame is accepted, the frame with bit `k` of `t0` flipped
is rejected. -/
theorem c3_get_package_accepts_flipped_trailer :
    ((0xFB + 0x00 + 0xFA + 0xFF + 65530 * 0) % 256 = 0xF4 ∧ 0xF4 ^^^ 1 = 0xF5 ∧
      (c3_get_package sampleIds 0xFB (c3_start (rxAll
        ([0xFB, 0x00, 0xFA, 0xFF] ++ List.replicate 65530 0 ++ [0xF4, 0xF4])))).map
          (fun r => (r.1, r.2.1)) = some (0, some (0, 4)) ∧
      (c3_get_package sampleIds 0xFB (c3_start (rxAll
        ([0xFB, 0x00, 0xFA, 0xFF] ++ List.replicate 65530 0 ++ [0xF5, 0xF4])))).map
          (fun r => (r.1, r.2.1)) = some (0, some (0, 4))) ∧
    ((c3_set_package_size sampleIds 2 (c3_start (rxAll [0xAA, 0x0E, 0x06, 0, 0, 0]))).2.pkg_len
        = 2 ∧
      (c3_get_package sampleIds 0x0505 (answer (rxAll [5, 5, 0, 0, 10, 10])
        (c3_set_package_size sampleIds 2 (c3_start (rxAll [0xAA, 0x0E, 0x06, 0, 0, 0]))).2)).map
          (fun r => (r.1, r.2.1)) = some (0, some (0, 2)) ∧
      (c3_get_package sampleIds 0x0505 (answer (rxAll [5, 5, 0, 0, 11, 10])
        (c3_set_package_size sampleIds 2 (c3_start (rxAll [0xAA, 0x0E, 0x06, 0, 0, 0]))).2)).map
          (fun r => (r.1, r.2.1)) = some (0, some (0, 2))) ∧
    (∀ (c : Ids) (id : Nat) (s s2 : Driver) (idLow idHigh lenLow lenHigh t0 t1 k : Nat)
      (payload rest : List Nat),
      s.pkg_len ≤ RXBUF_LEN → s2.pkg_len = s.pkg_len →
      lenLow + 256 * lenHigh = payload.length → payload.length + 6 ≤ s.pkg_len →
      arrivals CMD_TIMEOUT s.wire
        = [idLow, idHigh, lenLow, lenHigh] ++ payload ++ [t0, t1] ++ rest →
      arrivals CMD_TIMEOUT s2.wire
        = [idLow, idHigh, lenLow, lenHigh] ++ payload ++ [t0 ^^^ 2 ^ k, t1] ++ rest →
      (c3_get_package c id s).map (fun r => r.1) = some 0 →
      (c3_get_package c id s2).map (fun r => r.1) = some (-1)) := by
  refine ⟨by decide!, by decide, ?_⟩
  intro c id s s2 idLow idHigh lenLow lenHigh t0 t1 k payload rest hp hp2 hL hfit hA hA2 h0
  obtain ⟨x, h, -⟩ := c3_get_package_frame c id s idLow idHigh lenLow lenHigh t0 t1
    payload rest hp hL hfit hA
  obtain ⟨x2, h2, -⟩ := c3_get_package_frame c id s2 idLow idHigh lenLow lenHigh (t0 ^^^ 2 ^ k) t1
    payload rest (by rw [hp2]; exact hp) hL (by rw [hp2]; exact hfit) hA2
  rw [h] at h0
  rw [h2]
  by_cases hc : t0 = (idLow + idHigh + lenLow + lenHigh + payload.sum + t1) % 256
  · have hne : ¬ t0 ^^^ 2 ^ k = (idLow + idHigh + lenLow + lenHigh + payload.sum + t1) % 256 := by
      rw [← hc]
      exact xor_pow_ne t0 k
    simp [hne]
  · simp [hc] at h0

/-- C20, evaluated where it fails: from the start-up state `c3_set_package_size(0)`, ACKed
by the camera, returns 0 and installs `pkg_len = 0`; in the next `c3_get_package` the loop is
left at once with `rxbuf_len = 0`, the incomplete-package test `rxbuf_len < s` is 0 < 0, and
the checksum test reads `rxbuf[rxbuf_len - 2]`, index -2: outside `rxbuf` (the model has no
result there). -/
theorem c3_get_package_reads_before_rxbuf :
    (c3_set_package_size sampleIds 0
      (c3_start (rxAll [0xAA, 0x0E, 0x06, 0, 0, 0]))).1 = 0 ∧
    (c3_set_package_size sampleIds 0
      (c3_start (rxAll [0xAA, 0x0E, 0x06, 0, 0, 0]))).2.pkg_len = 0 ∧
    (c3_get_package_loop [] 0 0
      (pkgEntry sampleIds 0 (c3_set_package_size sampleIds 0
        (c3_start (rxAll [0xAA, 0x0E, 0x06, 0, 0, 0]))).2)).state.map
          (fun s => s.rxbuf_len) = some 0 ∧
    (c3_get_package sampleIds 0 (c3_set_package_size sampleIds 0
      (c3_start (rxAll [0xAA, 0x0E, 0x06, 0, 0, 0]))).2).isNone = true := by
  decide

/-! ## What the driver keeps and where it stores -/

theorem c3_cmd_state (c : Ids) (cmd a1 a2 a3 a4 : Nat) (s : Driver) :
    (c3_cmd c cmd a1 a2 a3 a4 s).2 = (c3_rx CMD_TIMEOUT (c3_tx cmd a1 a2 a3 a4 s)).2 := by
  unfold c3_cmd
  simp only []
  split <;> rfl

/-- The loop of `c3_rx`, entered below six bytes, stores below index 6 only. -/
theorem c3_rx_loop_high (w : List Event) : ∀ s : Driver, s.rxbuf_len < 6 →
    ∀ i, 6 ≤ i → (c3_rx_loop w s).rxbuf i = s.rxbuf i := by
  induction w with
  | nil =>
    intro s _ i _
    rfl
  | cons e es ih =>
    intro s hl i hi
    by_cases h : s.timeout_clk = 0
    · simp [c3_rx_loop, h]
    · cases e with
      | tick =>
        have h2 := ih (c3_tick s) (by simpa [c3_tick, h] using hl) i hi
        simp only [c3_rx_loop, h, if_false]
        rw [h2]
        simp [c3_tick, h]
      | rx b =>
        have hmod : (s.rxbuf_len + 1) % 256 = s.rxbuf_len + 1 := Nat.mod_eq_of_lt (by omega)
        have hne : i ≠ s.rxbuf_len := by omega
        simp only [c3_rx_loop, h, if_false, hmod]
        by_cases h6 : s.rxbuf_len + 1 = 6
        · rw [if_pos h6]
          simp [Function.update, hne]
        · rw [if_neg h6]
          have h2 := ih { s with rxbuf := Function.update s.rxbuf s.rxbuf_len (b % 256),
                                 rxbuf_len := (s.rxbuf_len + 1) % 256 }
            (by simp only [hmod]; omega) i hi
          simp only [hmod] at h2
          rw [h2]
          simp [Function.update, hne]

theorem c3_rx_state (t : Nat) (s : Driver) :
    (c3_rx t s).2 = c3_rx_loop s.wire { s with rxbuf_len := 0, timeout_clk := t % 256 } := by
  unfold c3_rx
  simp only []
  split
  · rfl
  · split <;> rfl

/-- What `c3_rx` keeps: `pkg_len`, the bytes sent, and `rxbuf` from index 6 on; it leaves
at most six bytes in the buffer. -/
theorem c3_rx_keeps (t : Nat) (s : Driver) :
    (c3_rx t s).2.pkg_len = s.pkg_len ∧ (c3_rx t s).2.sent = s.sent ∧
    (c3_rx t s).2.rxbuf_len ≤ 6 ∧ (∀ i, 6 ≤ i → (c3_rx t s).2.rxbuf i = s.rxbuf i) := by
  obtain ⟨-, -, e2, -, e5, e6⟩ := c3_rx_spec t s
  refine ⟨e6, e5, by rw [e2]; exact rxPacket_length_le t s.wire, ?_⟩
  intro i hi
  rw [c3_rx_state]
  exact c3_rx_loop_high s.wire _ (by simp) i hi

theorem c3_cmd_keeps (c : Ids) (cmd a1 a2 a3 a4 : Nat) (s : Driver) :
    (c3_cmd c cmd a1 a2 a3 a4 s).2.pkg_len = s.pkg_len ∧
    (c3_cmd c cmd a1 a2 a3 a4 s).2.sent
      = s.sent ++ frame (cmd % 256) (a1 % 256) (a2 % 256) (a3 % 256) (a4 % 256) ∧
    (c3_cmd c cmd a1 a2 a3 a4 s).2.rxbuf_len ≤ 6 ∧
    (∀ i, 6 ≤ i → (c3_cmd c cmd a1 a2 a3 a4 s).2.rxbuf i = s.rxbuf i) := by
  obtain ⟨-, w2, w3, -⟩ := c3_tx_rest cmd a1 a2 a3 a4 s
  obtain ⟨k1, k2, k3, k4⟩ := c3_rx_keeps CMD_TIMEOUT (c3_tx cmd a1 a2 a3 a4 s)
  rw [c3_cmd_state]
  rw [w2] at k1
  rw [c3_tx_sent] at k2
  rw [w3] at k4
  exact ⟨k1, k2, k3, k4⟩

theorem c3_sync_loop_keeps (c : Ids) (n : Nat) : ∀ s : Driver,
    (c3_sync_loop c n s).2.pkg_len = s.pkg_len ∧
    ((c3_sync_loop c n s).2.rxbuf_len ≤ 6 ∨ (c3_sync_loop c n s).2.rxbuf_len = s.rxbuf_len) ∧
    (∀ i, 6 ≤ i → (c3_sync_loop c n s).2.rxbuf i = s.rxbuf i) := by
  induction n with
  | zero =>
    intro s
    exact ⟨rfl, Or.inr rfl, fun _ _ => rfl⟩
  | succ n ih =>
    intro s
    obtain ⟨k1, -, k3, k4⟩ := c3_cmd_keeps c c.CMD_SYNC 0 0 0 0 s
    rw [c3_sync_loop]
    generalize c3_cmd c c.CMD_SYNC 0 0 0 0 s = res at *
    obtain ⟨r, s1⟩ := res
    simp only at k1 k3 k4 ⊢
    by_cases hr : r ≠ 0
    · rw [if_pos hr]
      obtain ⟨i1, i2, i3⟩ := ih s1
      refine ⟨by rw [i1, k1], Or.inl (by omega), fun i hi => by rw [i3 i hi, k4 i hi]⟩
    · rw [if_neg hr]
      obtain ⟨j1, -, j3, j4⟩ := c3_rx_keeps CMD_TIMEOUT s1
      generalize c3_rx CMD_TIMEOUT s1 = res2 at *
      obtain ⟨r2, s2⟩ := res2
      simp only at j1 j3 j4 ⊢
      by_cases hr2 : r2 ≠ c.CMD_SYNC
      · rw [if_pos hr2]
        obtain ⟨i1, i2, i3⟩ := ih s2
        refine ⟨by rw [i1, j1, k1], Or.inl (by omega),
          fun i hi => by rw [i3 i hi, j4 i hi, k4 i hi]⟩
      · rw [if_neg hr2]
        obtain ⟨-, w2, w3, w4⟩ := c3_tx_rest c.CMD_ACK c.CMD_SYNC 0 0 0 s2
        simp only
        refine ⟨by rw [w2, j1, k1], Or.inl (by rw [w4]; exact j3),
          fun i hi => by rw [w3, j4 i hi, k4 i hi]⟩

theorem core_state (r : PkgLoop) : r.core.state = r.state.map Driver.core := by
  cases r <;> rfl

/-- The loop of `c3_get_package` leaves `pkg_len` and the bytes sent as they were. -/
theorem pkgBytes_keeps (bs : List Nat) : ∀ (ck size : Nat) (s s2 : Driver),
    (pkgBytes bs ck size s).state = some s2 → s2.pkg_len = s.pkg_len ∧ s2.sent = s.sent := by
  induction bs with
  | nil =>
    intro ck size s s2 h
    simp only [pkgBytes, PkgLoop.state, Option.some.injEq] at h
    subst h
    exact ⟨rfl, rfl⟩
  | cons b bs ih =>
    intro ck size s s2 h
    rw [pkgBytes] at h
    split at h
    · simp only [PkgLoop.state, Option.some.injEq] at h
      subst h
      exact ⟨rfl, rfl⟩
    · split at h
      · simp [PkgLoop.state] at h
      · split at h
        · split at h
          · simp only [PkgLoop.state, Option.some.injEq] at h
            subst h
            exact ⟨rfl, rfl⟩
          · have h2 := ih _ _ _ s2 h
            exact h2
        · have h2 := ih _ _ _ s2 h
          exact h2

/-- The loop of `c3_get_package`, entered with `s ≤ pkg_len ≤ RXBUF_LEN` and the buffer
within its capacity, stores no byte outside `rxbuf` and ends within the capacity. -/
theorem pkgBytes_safe (bs : List Nat) : ∀ (ck size : Nat) (s : Driver),
    s.pkg_len ≤ RXBUF_LEN → size ≤ s.pkg_len → s.rxbuf_len ≤ RXBUF_LEN →
    pkgBytes bs ck size s ≠ PkgLoop.overrun ∧
    ∀ s2, (pkgBytes bs ck size s).state = some s2 →
      s2.rxbuf_len ≤ RXBUF_LEN ∧ ∀ i, RXBUF_LEN ≤ i → s2.rxbuf i = s.rxbuf i := by
  have e64 : RXBUF_LEN = 64 := rfl
  induction bs with
  | nil =>
    intro ck size s _ _ hl
    refine ⟨by simp [pkgBytes], fun s2 h => ?_⟩
    simp only [pkgBytes, PkgLoop.state, Option.some.injEq] at h
    subst h
    exact ⟨hl, fun _ _ => rfl⟩
  | cons b bs ih =>
    intro ck size s hp hs hl
    rw [pkgBytes]
    by_cases hg : ¬ s.rxbuf_len < size
    · rw [if_pos hg]
      refine ⟨by simp, fun s2 h => ?_⟩
      simp only [PkgLoop.state, Option.some.injEq] at h
      subst h
      exact ⟨hl, fun _ _ => rfl⟩
    · rw [if_neg hg, if_neg (by omega)]
      have hmod : (s.rxbuf_len + 1) % 256 = s.rxbuf_len + 1 := Nat.mod_eq_of_lt (by omega)
      have hup : ∀ i, RXBUF_LEN ≤ i → Function.update s.rxbuf s.rxbuf_len b i = s.rxbuf i := by
        intro i hi
        simp [Function.update, show i ≠ s.rxbuf_len by omega]
      split
      · split
        · refine ⟨by simp, fun s2 h => ?_⟩
          simp only [PkgLoop.state, Option.some.injEq] at h
          subst h
          exact ⟨by simp only [hmod]; omega, hup⟩
        · rename_i hsz
          obtain ⟨i1, i2⟩ := ih ((ck + b) % 256)
            ((Function.update s.rxbuf s.rxbuf_len b 2
              + (Function.update s.rxbuf s.rxbuf_len b 3 <<< 8) + 6) % 65536)
            { s with rxbuf := Function.update s.rxbuf s.rxbuf_len b,
                     rxbuf_len := (s.rxbuf_len + 1) % 256 } hp (by simpa using hsz)
            (by simp only [hmod]; omega)
          refine ⟨i1, fun s2 h => ?_⟩
          obtain ⟨j1, j2⟩ := i2 s2 h
          exact ⟨j1, fun i hi => by rw [j2 i hi]; exact hup i hi⟩
      · obtain ⟨i1, i2⟩ := ih ((ck + b) % 256) size
            { s with rxbuf := Function.update s.rxbuf s.rxbuf_len b,
                     rxbuf_len := (s.rxbuf_len + 1) % 256 } hp hs
            (by simp only [hmod]; omega)
        refine ⟨i1, fun s2 h => ?_⟩
        obtain ⟨j1, j2⟩ := i2 s2 h
        exact ⟨j1, fun i hi => by rw [j2 i hi]; exact hup i hi⟩

/-- The loop of `c3_get_package`, on the events: `pkg_len` and the bytes sent are kept. -/
theorem c3_get_package_loop_keeps (w : List Event) (ck size : Nat) (s s2 : Driver)
    (h : (c3_get_package_loop w ck size s).state = some s2) :
    s2.pkg_len = s.pkg_len ∧ s2.sent = s.sent := by
  have hc := c3_get_package_loop_core w ck size s
  have h2 : (pkgBytes (arrivals s.timeout_clk w) ck size s.core).state = some s2.core := by
    rw [← hc, core_state, h]
    rfl
  exact pkgBytes_keeps _ _ _ s.core s2.core h2

theorem c3_get_package_loop_safe (w : List Event) (ck size : Nat) (s : Driver)
    (hp : s.pkg_len ≤ RXBUF_LEN) (hs : size ≤ s.pkg_len) (hl : s.rxbuf_len ≤ RXBUF_LEN) :
    c3_get_package_loop w ck size s ≠ PkgLoop.overrun ∧
    ∀ s2, (c3_get_package_loop w ck size s).state = some s2 →
      s2.rxbuf_len ≤ RXBUF_LEN ∧ ∀ i, RXBUF_LEN ≤ i → s2.rxbuf i = s.rxbuf i := by
  have hc := c3_get_package_loop_core w ck size s
  obtain ⟨i1, i2⟩ := pkgBytes_safe (arrivals s.timeout_clk w) ck size s.core hp hs hl
  constructor
  · intro h
    rw [h] at hc
    exact i1 hc.symm
  · intro s2 h
    have h2 : (pkgBytes (arrivals s.timeout_clk w) ck size s.core).state = some s2.core := by
      rw [← hc, core_state, h]
      rfl
    exact i2 s2.core h2

theorem pkgFinish_state (r : PkgLoop) (x : Int × Option (Nat × Nat) × Driver)
    (h : pkgFinish r = some x) : r.state = some x.2.2 := by
  cases r with
  | overrun => simp [pkgFinish] at h
  | rejected s =>
    simp only [pkgFinish, Option.some.injEq] at h
    subst h
    rfl
  | left ck size s =>
    simp only [pkgFinish] at h
    split at h
    · simp only [Option.some.injEq] at h
      subst h
      rfl
    · split at h
      · simp at h
      · split at h
        · simp only [Option.some.injEq] at h
          subst h
          rfl
        · simp only [Option.some.injEq] at h
          subst h
          rfl

/-! ## Frames transmitted -/

theorem c3_get_picture_sent (c : Ids) (pt : Nat) (s : Driver) :
    (c3_get_picture c pt s).2.2.sent = s.sent ++ frame (c.CMD_GET_PICTURE % 256) (pt % 256) 0 0 0 ∧
    (c3_get_picture c pt s).2.2.pkg_len = s.pkg_len ∧
    (c3_get_picture c pt s).2.2.rxbuf_len ≤ 6 ∧
    (∀ i, 6 ≤ i → (c3_get_picture c pt s).2.2.rxbuf i = s.rxbuf i) := by
  obtain ⟨k1, k2, k3, k4⟩ := c3_cmd_keeps c c.CMD_GET_PICTURE pt 0 0 0 s
  unfold c3_get_picture
  generalize c3_cmd c c.CMD_GET_PICTURE pt 0 0 0 s = res at *
  obtain ⟨r, s1⟩ := res
  simp only at k1 k2 k3 k4 ⊢
  by_cases hr : r ≠ 0
  · rw [if_pos hr]
    exact ⟨k2, k1, k3, k4⟩
  · rw [if_neg hr]
    obtain ⟨j1, j2, j3, j4⟩ := c3_rx_keeps PIC_TIMEOUT s1
    generalize c3_rx PIC_TIMEOUT s1 = res2 at *
    obtain ⟨r2, s2⟩ := res2
    simp only at j1 j2 j3 j4 ⊢
    split
    · exact ⟨by rw [j2]; exact k2, by rw [j1, k1], j3, fun i hi => by rw [j4 i hi, k4 i hi]⟩
    · exact ⟨by rw [j2]; exact k2, by rw [j1, k1], j3, fun i hi => by rw [j4 i hi, k4 i hi]⟩

theorem c3_get_package_sent (c : Ids) (id : Nat) (s : Driver)
    (r : Int × Option (Nat × Nat) × Driver) (h : c3_get_package c id s = some r) :
    r.2.2.sent = (pkgEntry c id s).sent ∧ r.2.2.pkg_len = s.pkg_len := by
  rw [c3_get_package_eq] at h
  have h2 := pkgFinish_state _ r h
  obtain ⟨k1, k2⟩ := c3_get_package_loop_keeps _ _ _ _ _ h2
  obtain ⟨-, w2, -, -⟩ := c3_tx_rest c.CMD_ACK 0 0 ((id % 65536) &&& 0xFF) ((id % 65536) >>> 8)
    { s with rxbuf_len := 0 }
  exact ⟨k2, by rw [k1]; exact w2⟩

theorem pkgEntry_sent (c : Ids) (id : Nat) (s : Driver) :
    (pkgEntry c id s).sent
      = s.sent ++ frame (c.CMD_ACK % 256) 0 0 ((id % 65536) % 256) ((id % 65536) / 256 % 256) := by
  have h := (pkgEntry_core c id s).2.2.2
  exact h

/-- C16: every frame the driver transmits is the 6-byte command frame
`[0xAA, cmd, arg1, arg2, arg3, arg4]`, 16-bit arguments split little-endian. In every state,
for byte arguments and 16-bit `skip_frame` and `id`: `c3_setup(ct, rr, jr)` appends
`[0xAA, CMD_INIT, 0, ct, rr, jr]` to the bytes sent; `c3_set_package_size(s)` with `s ≤ 64`
appends `[0xAA, CMD_SET_PKG_SIZE, 0x08, s mod 256, s div 256, 0]`; `c3_snapshot(st, skip)`
appends `[0xAA, CMD_SNAPSHOT, st, skip mod 256, skip div 256, 0]`; `c3_get_picture(pt)`
appends `[0xAA, CMD_GET_PICTURE, pt, 0, 0, 0]`; `c3_get_package(id)` has sent
`[0xAA, CMD_ACK, 0, 0, id mod 256, id div 256]` when it enters its receive loop and nothing
more when it returns; `c3_finish_picture` appends `[0xAA, CMD_ACK, 0, 0, 0xF0, 0xF0]`,
returns 0 and consumes no event (it awaits no response). Each function sends nothing else;
`c3_sync` sends at most 60 frames `[0xAA, CMD_SYNC, 0, 0, 0, 0]`, followed on success by
`[0xAA, CMD_ACK, CMD_SYNC, 0, 0, 0]`. The identifiers are parameters, taken to be nonzero
bytes. -/
theorem c3_frames_sent (c : Ids) (hv : c.valid) (s : Driver) :
    (∀ ct rr jr, ct < 256 → rr < 256 → jr < 256 →
      (c3_setup c ct rr jr s).2.sent = s.sent ++ [0xAA, c.CMD_INIT, 0, ct, rr, jr]) ∧
    (∀ size, size ≤ 64 →
      (c3_set_package_size c size s).2.sent
        = s.sent ++ [0xAA, c.CMD_SET_PKG_SIZE, 0x08, size % 256, size / 256, 0]) ∧
    (∀ st skip, st < 256 → skip < 65536 →
      (c3_snapshot c st skip s).2.sent
        = s.sent ++ [0xAA, c.CMD_SNAPSHOT, st, skip % 256, skip / 256, 0]) ∧
    (∀ pt, pt < 256 →
      (c3_get_picture c pt s).2.2.sent = s.sent ++ [0xAA, c.CMD_GET_PICTURE, pt, 0, 0, 0]) ∧
    (∀ id, id < 65536 →
      (pkgEntry c id s).sent = s.sent ++ [0xAA, c.CMD_ACK, 0, 0, id % 256, id / 256] ∧
      ∀ r, c3_get_package c id s = some r →
        r.2.2.sent = s.sent ++ [0xAA, c.CMD_ACK, 0, 0, id % 256, id / 256]) ∧
    ((c3_finish_picture c s).1 = 0 ∧
      (c3_finish_picture c s).2.sent = s.sent ++ [0xAA, c.CMD_ACK, 0, 0, 0xF0, 0xF0] ∧
      (c3_finish_picture c s).2.wire = s.wire) ∧
    (∃ k, k ≤ 60 ∧
      ((c3_sync c s).2.sent
          = s.sent ++ (List.replicate k [0xAA, c.CMD_SYNC, 0, 0, 0, 0]).flatten
            ++ [0xAA, c.CMD_ACK, c.CMD_SYNC, 0, 0, 0] ∨
        (c3_sync c s).2.sent
          = s.sent ++ (List.replicate k [0xAA, c.CMD_SYNC, 0, 0, 0, 0]).flatten)) := by
  have hsync := c3_sync_loop_spec c hv.2.2.2.2.2.2.1 hv.2.2.2.2.2.1.1 hv.2.2.2.2.2.2.2
    hv.2.2.2.2.2.1.2 60 s
  obtain ⟨⟨-, hI⟩, ⟨-, hG⟩, ⟨-, hN⟩, ⟨-, hP⟩, -, -, -, hA⟩ := hv
  refine ⟨?_, ?_, ?_, ?_, ?_, ?_, ?_⟩
  rotate_left 6
  · cases hf : firstSync c 60 s.wire with
    | none => exact ⟨60, Nat.le_refl 60, Or.inr (hsync.2 hf).2⟩
    | some k => exact ⟨k, (hsync.1 k hf).2.1, Or.inl (hsync.1 k hf).2.2.2⟩
  · intro ct rr jr h1 h2 h3
    have h := (c3_cmd_keeps c c.CMD_INIT 0 ct rr jr s).2.1
    rw [Nat.mod_eq_of_lt hI, Nat.mod_eq_of_lt h1, Nat.mod_eq_of_lt h2, Nat.mod_eq_of_lt h3] at h
    exact h
  · intro size hs
    have e64 : RXBUF_LEN = 64 := rfl
    unfold c3_set_package_size
    simp only [Nat.mod_eq_of_lt (show size < 65536 by omega)]
    rw [if_neg (by omega)]
    have m1 : size &&& 0xFF = size % 256 := Nat.and_pow_two_sub_one_eq_mod size 8
    have m2 : size >>> 8 = size / 256 := Nat.shiftRight_eq_div_pow size 8
    rw [m1, m2]
    have h := (c3_cmd_keeps c c.CMD_SET_PKG_SIZE 0x08 (size % 256) (size / 256) 0 s).2.1
    rw [Nat.mod_eq_of_lt hP, Nat.mod_mod, Nat.mod_eq_of_lt (show size / 256 < 256 by omega)] at h
    generalize c3_cmd c c.CMD_SET_PKG_SIZE 0x08 (size % 256) (size / 256) 0 s = res at *
    obtain ⟨r, s1⟩ := res
    simp only at h ⊢
    split
    · exact h
    · exact h
  · intro st skip h1 h2
    unfold c3_snapshot
    simp only [Nat.mod_eq_of_lt h2]
    have m1 : skip &&& 0xFF = skip % 256 := Nat.and_pow_two_sub_one_eq_mod skip 8
    have m2 : skip >>> 8 = skip / 256 := Nat.shiftRight_eq_div_pow skip 8
    rw [m1, m2]
    have h := (c3_cmd_keeps c c.CMD_SNAPSHOT st (skip % 256) (skip / 256) 0 s).2.1
    rw [Nat.mod_eq_of_lt hN, Nat.mod_eq_of_lt h1, Nat.mod_mod,
      Nat.mod_eq_of_lt (show skip / 256 < 256 by omega)] at h
    exact h
  · intro pt h1
    have h := (c3_get_picture_sent c pt s).1
    rw [Nat.mod_eq_of_lt hG, Nat.mod_eq_of_lt h1] at h
    exact h
  · intro id h1
    have h := pkgEntry_sent c id s
    rw [Nat.mod_eq_of_lt hA, Nat.mod_eq_of_lt h1,
      Nat.mod_eq_of_lt (show id / 256 < 256 by omega)] at h
    refine ⟨h, fun r hr => ?_⟩
    rw [(c3_get_package_sent c id s r hr).1]
    exact h
  · refine ⟨rfl, ?_, (c3_tx_rest _ _ _ _ _ s).1⟩
    have h := c3_tx_sent c.CMD_ACK 0 0 0xF0 0xF0 s
    rw [Nat.mod_eq_of_lt hA] at h
    exact h

theorem c3_frames_sent_witness :
    (c3_setup sampleIds 1 2 3 (c3_start [])).2.sent = [] ++ [0xAA, 0x01, 0, 1, 2, 3] ∧
    (c3_snapshot sampleIds 0 0x1234 (c3_start [])).2.sent
      = [] ++ [0xAA, 0x05, 0, 0x1234 % 256, 0x1234 / 256, 0] :=
  ⟨(c3_frames_sent sampleIds (by decide) (c3_start [])).1 1 2 3 (by decide) (by decide)
      (by decide),
    (c3_frames_sent sampleIds (by decide) (c3_start [])).2.2.1 0 0x1234 (by decide) (by decide)⟩

/-! ## The order of commands -/

theorem c3_cmd_rc (c : Ids) (hack : 0 < c.CMD_ACK) (cmd a1 a2 a3 a4 : Nat) (hcmd : cmd < 256)
    (s : Driver) :
    ((c3_cmd c cmd a1 a2 a3 a4 s).1 = 0 ↔ isAckFor c cmd ((arrivals CMD_TIMEOUT s.wire).take 6)) ∧
    ((c3_cmd c cmd a1 a2 a3 a4 s).1 ≠ 0 ↔
      ¬ isAckFor c cmd ((arrivals CMD_TIMEOUT s.wire).take 6)) := by
  obtain ⟨h, -⟩ := c3_cmd_spec c hack cmd a1 a2 a3 a4 s
  rw [Nat.mod_eq_of_lt hcmd, rxPacket_cmd] at h
  rw [h]
  by_cases hk : isAckFor c cmd ((arrivals CMD_TIMEOUT s.wire).take 6)
  · simp [hk]
  · simp [hk]

theorem c3_get_picture_rc (c : Ids) (hv : c.valid) (pt : Nat) (s : Driver) :
    (c3_get_picture c pt s).1 = 0 ↔
      isAckFor c c.CMD_GET_PICTURE ((arrivals CMD_TIMEOUT s.wire).take 6) ∧
      isResponse c.CMD_DATA (rxPacket PIC_TIMEOUT (rxRest CMD_TIMEOUT s.wire)) := by
  obtain ⟨-, ⟨-, hG⟩, -, -, ⟨hD, -⟩, -, hA, -⟩ := hv
  obtain ⟨k0, k1, -, -⟩ := c3_cmd_spec c hA c.CMD_GET_PICTURE pt 0 0 0 s
  rw [Nat.mod_eq_of_lt hG, rxPacket_cmd] at k0
  unfold c3_get_picture
  generalize c3_cmd c c.CMD_GET_PICTURE pt 0 0 0 s = res at *
  obtain ⟨r, s1⟩ := res
  simp only at k0 k1 ⊢
  by_cases hk : isAckFor c c.CMD_GET_PICTURE ((arrivals CMD_TIMEOUT s.wire).take 6)
  · rw [if_pos hk] at k0
    subst k0
    rw [if_neg (by simp)]
    obtain ⟨e0, -⟩ := c3_rx_spec PIC_TIMEOUT s1
    rw [k1] at e0
    generalize c3_rx PIC_TIMEOUT s1 = res2 at *
    obtain ⟨r2, s2⟩ := res2
    simp only at e0 ⊢
    generalize rxPacket PIC_TIMEOUT (rxRest CMD_TIMEOUT s.wire) = p at *
    by_cases hd : isResponse c.CMD_DATA p
    · have hr2 : r2 = c.CMD_DATA := by rw [e0, if_pos ⟨hd.1, hd.2.1⟩, hd.2.2]
      rw [if_neg (by simp [hr2])]
      simp [hk, hd]
    · have hr2 : r2 ≠ c.CMD_DATA := by
        intro h
        apply hd
        by_cases hp : p.length = 6 ∧ p.getD 0 0 = 170
        · rw [if_pos hp] at e0
          exact ⟨hp.1, hp.2, by rw [← e0, h]⟩
        · rw [if_neg hp] at e0
          omega
      rw [if_pos hr2]
      simp [hd]
  · rw [if_neg hk] at k0
    subst k0
    rw [if_pos (by simp)]
    simp [hk]

/-- C14, as stated, fails: the setup command issued in the start-up state, before any
`c3_sync` has been called, and answered with the ACK for INIT returns 0 (it is accepted); and
`c3_get_package` called in the start-up state, with no `c3_get_picture` before it, returns 0
on the frame `[0, 0, 1, 0, 7, 8, 0]`. -/
theorem c3_setup_accepted_without_sync :
    (c3_setup sampleIds 1 2 3 (c3_start (rxAll [0xAA, 0x0E, 0x01, 0, 0, 0]))).1 = 0 ∧
    (c3_get_package sampleIds 0 (c3_start (rxAll [0, 0, 1, 0, 7, 8, 0]))).map (fun r => r.1)
      = some 0 := by
  decide

/-- C14, amended: the driver enforces no command order. In every driver state, also one
reached without a successful `c3_sync` and one in which no `c3_get_picture` has succeeded,
`c3_setup`, `c3_set_package_size` (for a size within the capacity) and `c3_snapshot` return
0 exactly when the first six bytes that arrive before the command timeout are the ACK for
the command; `c3_get_picture` returns 0 exactly when that ACK is followed, within the picture
timeout, by a DATA response; and `c3_get_package` returns 0 on a Data Package frame that
arrives completely and fits the current `pkg_len` (itself within the buffer) exactly when
the trailer byte `t0` is the sum of header, payload and `t1` mod 256. The identifiers are
parameters, taken to be nonzero bytes. -/
theorem c3_commands_unordered (c : Ids) (hv : c.valid) (s : Driver) :
    (∀ ct rr jr, (c3_setup c ct rr jr s).1 = 0 ↔
      isAckFor c c.CMD_INIT ((arrivals CMD_TIMEOUT s.wire).take 6)) ∧
    (∀ size, size ≤ RXBUF_LEN → ((c3_set_package_size c size s).1 = 0 ↔
      isAckFor c c.CMD_SET_PKG_SIZE ((arrivals CMD_TIMEOUT s.wire).take 6))) ∧
    (∀ st skip, (c3_snapshot c st skip s).1 = 0 ↔
      isAckFor c c.CMD_SNAPSHOT ((arrivals CMD_TIMEOUT s.wire).take 6)) ∧
    (∀ pt, (c3_get_picture c pt s).1 = 0 ↔
      isAckFor c c.CMD_GET_PICTURE ((arrivals CMD_TIMEOUT s.wire).take 6) ∧
      isResponse c.CMD_DATA (window PIC_TIMEOUT 6 (window CMD_TIMEOUT 6 s.wire).2).1) ∧
    (∀ (id idLow idHigh lenLow lenHigh t0 t1 : Nat) (payload rest : List Nat),
      s.pkg_len ≤ RXBUF_LEN → lenLow + 256 * lenHigh = payload.length →
      payload.length + 6 ≤ s.pkg_len →
      arrivals CMD_TIMEOUT s.wire
        = [idLow, idHigh, lenLow, lenHigh] ++ payload ++ [t0, t1] ++ rest →
      ((c3_get_package c id s).map (fun r => r.1) = some 0 ↔
        t0 = (idLow + idHigh + lenLow + lenHigh + payload.sum + t1) % 256)) := by
  have hv2 := hv
  obtain ⟨⟨-, hI⟩, -, ⟨-, hN⟩, ⟨-, hP⟩, -, -, hA, -⟩ := hv2
  refine ⟨?_, ?_, ?_, ?_, ?_⟩
  · intro ct rr jr
    exact (c3_cmd_rc c hA c.CMD_INIT 0 ct rr jr hI s).1
  · intro size hs
    have e64 : RXBUF_LEN = 64 := rfl
    have h := c3_cmd_rc c hA c.CMD_SET_PKG_SIZE 0x08 ((size % 65536) &&& 0xFF)
      ((size % 65536) >>> 8) 0 hP s
    unfold c3_set_package_size
    simp only []
    rw [if_neg (by omega)]
    generalize c3_cmd c c.CMD_SET_PKG_SIZE 0x08 ((size % 65536) &&& 0xFF)
      ((size % 65536) >>> 8) 0 s = res at *
    obtain ⟨r, s1⟩ := res
    simp only at h ⊢
    split
    · exact h.1
    · exact h.1
  · intro st skip
    exact (c3_cmd_rc c hA c.CMD_SNAPSHOT st _ _ 0 hN s).1
  · intro pt
    exact c3_get_picture_rc c hv pt s
  · intro id idLow idHigh lenLow lenHigh t0 t1 payload rest hp hL hfit hArr
    obtain ⟨s2, h, -⟩ := c3_get_package_frame c id s idLow idHigh lenLow lenHigh t0 t1
      payload rest hp hL hfit hArr
    rw [h]
    by_cases hc : t0 = (idLow + idHigh + lenLow + lenHigh + payload.sum + t1) % 256
    · simp [hc]
    · simp [hc]

theorem c3_commands_unordered_witness :
    (c3_setup sampleIds 1 2 3 (c3_start (rxAll [0xAA, 0x0E, 0x01, 0, 0, 0]))).1 = 0 ∧
    ¬ (c3_snapshot sampleIds 0 0 (c3_start (rxAll [0xAA, 0x0E, 0x01, 0, 0, 0]))).1 = 0 :=
  ⟨((c3_commands_unordered sampleIds (by decide)
      (c3_start (rxAll [0xAA, 0x0E, 0x01, 0, 0, 0]))).1 1 2 3).2 (by decide),
    fun h => absurd (((c3_commands_unordered sampleIds (by decide)
      (c3_start (rxAll [0xAA, 0x0E, 0x01, 0, 0, 0]))).2.2.1 0 0).1 h) (by decide)⟩

/-! ## The capacity of the receive buffer -/

/-- Every reachable state has `pkg_len` and `rxbuf_len` within the capacity, and nothing
stored from index `RXBUF_LEN` on. -/
theorem reachable_inv (c : Ids) (s : Driver) (h : Reachable c s) :
    s.pkg_len ≤ RXBUF_LEN ∧ s.rxbuf_len ≤ RXBUF_LEN ∧ ∀ i, RXBUF_LEN ≤ i → s.rxbuf i = 0 := by
  have e64 : RXBUF_LEN = 64 := rfl
  induction h with
  | start w => exact ⟨Nat.le_refl 64, Nat.zero_le 64, fun _ _ => rfl⟩
  | peer w s _ ih => exact ih
  | tick s _ ih =>
    unfold c3_tick
    split
    · exact ih
    · exact ih
  | sync s _ ih =>
    obtain ⟨i1, i2, i3⟩ := ih
    obtain ⟨k1, k2, k3⟩ := c3_sync_loop_keeps c 60 s
    unfold c3_sync
    refine ⟨by rw [k1]; exact i1, ?_, fun i hi => by rw [k3 i (by omega)]; exact i3 i hi⟩
    rcases k2 with k2 | k2
    · omega
    · rw [k2]; exact i2
  | setup ct rr jr s _ ih =>
    obtain ⟨i1, i2, i3⟩ := ih
    obtain ⟨k1, -, k3, k4⟩ := c3_cmd_keeps c c.CMD_INIT 0 ct rr jr s
    unfold c3_setup
    exact ⟨by rw [k1]; exact i1, by omega, fun i hi => by rw [k4 i (by omega)]; exact i3 i hi⟩
  | set_package_size size s _ ih =>
    obtain ⟨i1, i2, i3⟩ := ih
    unfold c3_set_package_size
    simp only []
    split
    · exact ⟨i1, i2, i3⟩
    · rename_i hs
      obtain ⟨k1, -, k3, k4⟩ := c3_cmd_keeps c c.CMD_SET_PKG_SIZE 0x08 ((size % 65536) &&& 0xFF)
        ((size % 65536) >>> 8) 0 s
      generalize c3_cmd c c.CMD_SET_PKG_SIZE 0x08 ((size % 65536) &&& 0xFF)
        ((size % 65536) >>> 8) 0 s = res at *
      obtain ⟨r, s1⟩ := res
      simp only at k1 k3 k4 ⊢
      have k3b : s1.rxbuf_len ≤ RXBUF_LEN := by omega
      split
      · refine ⟨?_, k3b, fun i hi => (k4 i (by omega)).trans (i3 i hi)⟩
        show size % 65536 % 256 ≤ RXBUF_LEN
        omega
      · exact ⟨by rw [← k1] at i1; exact i1, k3b,
          fun i hi => (k4 i (by omega)).trans (i3 i hi)⟩
  | snapshot st skip_frame s _ ih =>
    obtain ⟨i1, i2, i3⟩ := ih
    obtain ⟨k1, -, k3, k4⟩ := c3_cmd_keeps c c.CMD_SNAPSHOT st ((skip_frame % 65536) &&& 0xFF)
      ((skip_frame % 65536) >>> 8) 0 s
    have k3b : (c3_cmd c c.CMD_SNAPSHOT st ((skip_frame % 65536) &&& 0xFF)
      ((skip_frame % 65536) >>> 8) 0 s).2.rxbuf_len ≤ RXBUF_LEN := by omega
    have e : c3_snapshot c st skip_frame s = c3_cmd c c.CMD_SNAPSHOT st
      ((skip_frame % 65536) &&& 0xFF) ((skip_frame % 65536) >>> 8) 0 s := rfl
    rw [e]
    exact ⟨by rw [k1]; exact i1, k3b, fun i hi => (k4 i (by omega)).trans (i3 i hi)⟩
  | get_picture pt s _ ih =>
    obtain ⟨i1, i2, i3⟩ := ih
    obtain ⟨-, k1, k3, k4⟩ := c3_get_picture_sent c pt s
    exact ⟨by rw [k1]; exact i1, by omega, fun i hi => by rw [k4 i (by omega)]; exact i3 i hi⟩
  | get_package id s s2 _ hs ih =>
    obtain ⟨i1, i2, i3⟩ := ih
    obtain ⟨-, w2, w3, w4⟩ := c3_tx_rest c.CMD_ACK 0 0 ((id % 65536) &&& 0xFF)
      ((id % 65536) >>> 8) { s with rxbuf_len := 0 }
    have p1 : (pkgEntry c id s).pkg_len = s.pkg_len := w2
    have p2 : (pkgEntry c id s).rxbuf = s.rxbuf := w3
    have p3 : (pkgEntry c id s).rxbuf_len = 0 := w4
    obtain ⟨k1, -⟩ := c3_get_package_loop_keeps _ _ _ _ _ hs
    obtain ⟨-, k3⟩ := c3_get_package_loop_safe s.wire 0 s.pkg_len (pkgEntry c id s)
      (by rw [p1]; exact i1) (by rw [p1]) (by rw [p3]; omega)
    obtain ⟨j1, j2⟩ := k3 s2 hs
    exact ⟨by rw [k1, p1]; exact i1, j1, fun i hi => by rw [j2 i hi, p2]; exact i3 i hi⟩
  | finish_picture s _ ih =>
    obtain ⟨i1, i2, i3⟩ := ih
    obtain ⟨-, w2, w3, w4⟩ := c3_tx_rest c.CMD_ACK 0 0 0xF0 0xF0 s
    unfold c3_finish_picture
    exact ⟨by rw [w2]; exact i1, by rw [w4]; exact i2, fun i hi => by rw [w3]; exact i3 i hi⟩

/-- C17: the receive buffer never exceeds its capacity. In every state `s` reachable from
the start-up state (`rxbuf_len = 0`, `pkg_len = 64`) by any sequence of driver operations
against any events from the peer, `pkg_len ≤ 64` and `rxbuf_len ≤ 64` hold and no cell from
index 64 on was ever written. From such a state a `c3_rx` with any timeout stores below index
6 only (every cell from index 6 on keeps its value), and the receive loop of a
`c3_get_package` with any id stores no byte at an index of 64 or more: it does not overrun,
every cell from index 64 on keeps its value, and a returning call ends in a reachable
state. -/
theorem rxbuf_within_capacity (c : Ids) (s : Driver) (h : Reachable c s) :
    s.pkg_len ≤ RXBUF_LEN ∧ s.rxbuf_len ≤ RXBUF_LEN ∧ (∀ i, RXBUF_LEN ≤ i → s.rxbuf i = 0) ∧
    (∀ t, (c3_rx t s).2.rxbuf_len ≤ 6 ∧ ∀ i, 6 ≤ i → (c3_rx t s).2.rxbuf i = s.rxbuf i) ∧
    (∀ id, c3_get_package_loop s.wire 0 s.pkg_len (pkgEntry c id s) ≠ PkgLoop.overrun ∧
      (∀ s2, (c3_get_package_loop s.wire 0 s.pkg_len (pkgEntry c id s)).state = some s2 →
        s2.rxbuf_len ≤ RXBUF_LEN ∧ ∀ i, RXBUF_LEN ≤ i → s2.rxbuf i = s.rxbuf i) ∧
      (∀ r, c3_get_package c id s = some r → Reachable c r.2.2)) := by
  obtain ⟨i1, i2, i3⟩ := reachable_inv c s h
  refine ⟨i1, i2, i3, fun t => ⟨(c3_rx_keeps t s).2.2.1, (c3_rx_keeps t s).2.2.2⟩, fun id => ?_⟩
  obtain ⟨-, w2, w3, w4⟩ := c3_tx_rest c.CMD_ACK 0 0 ((id % 65536) &&& 0xFF)
    ((id % 65536) >>> 8) { s with rxbuf_len := 0 }
  have p1 : (pkgEntry c id s).pkg_len = s.pkg_len := w2
  have p2 : (pkgEntry c id s).rxbuf = s.rxbuf := w3
  have p3 : (pkgEntry c id s).rxbuf_len = 0 := w4
  obtain ⟨k1, k3⟩ := c3_get_package_loop_safe s.wire 0 s.pkg_len (pkgEntry c id s)
    (by rw [p1]; exact i1) (by rw [p1]) (by rw [p3]; omega)
  refine ⟨k1, fun s2 hs => ?_, fun r hr => ?_⟩
  · obtain ⟨j1, j2⟩ := k3 s2 hs
    exact ⟨j1, fun i hi => by rw [j2 i hi, p2]⟩
  · rw [c3_get_package_eq] at hr
    exact Reachable.get_package id s r.2.2 h (pkgFinish_state _ r hr)

theorem rxbuf_within_capacity_witness :
    Reachable sampleIds
      (c3_set_package_size sampleIds 32 (c3_start (rxAll [0xAA, 0x0E, 0x06, 0, 0, 0]))).2 ∧
    (c3_set_package_size sampleIds 32 (c3_start (rxAll [0xAA, 0x0E, 0x06, 0, 0, 0]))).2.pkg_len
      ≤ RXBUF_LEN ∧
    (c3_set_package_size sampleIds 32 (c3_start (rxAll [0xAA, 0x0E, 0x06, 0, 0, 0]))).2.rxbuf_len
      ≤ RXBUF_LEN :=
  ⟨Reachable.set_package_size 32 _ (Reachable.start _),
    (rxbuf_within_capacity sampleIds _ (Reachable.set_package_size 32 _ (Reachable.start _))).1,
    (rxbuf_within_capacity sampleIds _ (Reachable.set_package_size 32 _ (Reachable.start _))).2.1⟩

/-! ## The end-to-end scenario -/

set_option maxRecDepth 100000 in
/-- C15, as stated, fails: in the scenario, after `c3_sync`, `c3_setup(1, 2, 3)`,
`c3_set_package_size(64)`, `c3_snapshot(0, 0)` and `c3_get_picture(0)` have returned 0, the
first `c3_get_package` (id 0), answered with the Data Package frame of a 128-byte payload in
the stated wire format (134 bytes, both trailer bytes the checksum), returns -1, not 0: the
declared size exceeds `pkg_len = 64`. -/
theorem scenario_first_package_rejected :
    scenarioPicture.1 = 0 ∧ scenarioPicture.2.2.pkg_len = 64 ∧
    (scenarioPayload 128 0).length = 128 ∧ (dataPackage 0 (scenarioPayload 128 0)).length = 134 ∧
    (c3_get_package sampleIds 0
      (answer (rxAll (dataPackage 0 (scenarioPayload 128 0))) scenarioPicture.2.2)).map
        (fun r => r.1) = some (-1) := by
  decide!

set_option maxRecDepth 100000 in
/-- C15, amended: against the simulated peer, from the start-up state, `c3_sync` succeeds
on attempt 3 of 60 (no response to the first two attempts); then `c3_setup(1, 2, 3)`,
`c3_set_package_size(64)` (leaving `pkg_len = 64`) and `c3_snapshot(0, 0)` return 0, and
`c3_get_picture(0)` returns 0 with length 512. The four `c3_get_package` calls (ids 0..3),
each answered with a 128-byte Data Package frame in the stated wire format, each return -1,
whether 128 bytes is the payload (134 bytes in all) or the whole frame (122 bytes of
payload): the package exceeds `pkg_len = 64`. Answered instead with packages that the
negotiated size admits, 64 bytes in all (58 bytes of payload) with the trailer
`[checksum, 0]`, the four calls each return 0. In each case `c3_finish_picture` then
returns 0. -/
theorem scenario_end_to_end :
    firstSync sampleIds 60 (silence (2 * CMD_TIMEOUT) ++
      rxAll (ackFor sampleIds sampleIds.CMD_SYNC) ++ rxAll [0xAA, sampleIds.CMD_SYNC, 0, 0, 0, 0])
      = some 3 ∧
    scenarioSync.1 = 0 ∧ scenarioSetup.1 = 0 ∧
    scenarioSize.1 = 0 ∧ scenarioSize.2.pkg_len = 64 ∧ scenarioSnapshot.1 = 0 ∧
    scenarioPicture.1 = 0 ∧ scenarioPicture.2.1 = some 512 ∧
    (getPackages sampleIds
      [dataPackage 0 (scenarioPayload 128 0), dataPackage 1 (scenarioPayload 128 1),
       dataPackage 2 (scenarioPayload 128 2), dataPackage 3 (scenarioPayload 128 3)]
      0 scenarioPicture.2.2).map (fun x => (x.1, (c3_finish_picture sampleIds x.2).1))
      = some ([-1, -1, -1, -1], 0) ∧
    (getPackages sampleIds
      [dataPackage 0 (scenarioPayload 122 0), dataPackage 1 (scenarioPayload 122 1),
       dataPackage 2 (scenarioPayload 122 2), dataPackage 3 (scenarioPayload 122 3)]
      0 scenarioPicture.2.2).map (fun x => (x.1, (c3_finish_picture sampleIds x.2).1))
      = some ([-1, -1, -1, -1], 0) ∧
    (dataPackageZ 0 (scenarioPayload 58 0)).length = 64 ∧
    (getPackages sampleIds
      [dataPackageZ 0 (scenarioPayload 58 0), dataPackageZ 1 (scenarioPayload 58 1),
       dataPackageZ 2 (scenarioPayload 58 2), dataPackageZ 3 (scenarioPayload 58 3)]
      0 scenarioPicture.2.2).map (fun x => (x.1, (c3_finish_picture sampleIds x.2).1))
      = some ([0, 0, 0, 0], 0) := by
  decide!

end Hadie
